import Mathlib

/-!
# Cross-tile symbol index

A shallow embedding of `src/mbgl/text/cross_tile_symbol_index.cpp` and the
properties of its identity bookkeeping, followed by the neighbour arithmetic
of `src/mbgl/renderer/sources/render_raster_dem_source.cpp`.

Modelling conventions.

* `std::map<K, V>` is a list of key/value pairs kept in ascending key order.
  The operations below assume, but do not require, that the list is strictly
  ascending: the theorems hold for every list unless a hypothesis says that
  the keys are distinct or that the layer index is `WellFormed`, which every
  state built by `addBucket` and `removeStaleBuckets` is.
* `uint32_t` counters are natural numbers, `++c` is `(c + 1) % 2 ^ 32`.
* Anchor positions are the integral values of the source's `float`s. In
  `getScaledCoordinates` the product `x * EXTENT` is taken modulo `2 ^ 32`;
  its conversion to `float` and its sum with the anchor are rounded to single
  precision (24-bit significand, round to nearest, ties to even). The product
  with the `double` scale, a power of two, and `std::floor` are exact, and so
  is the conversion to `int64_t` of a value in its range, in which the cells
  computed from 32-bit tile coordinates and tile-local anchors stay for zoom
  differences up to 30.
* The `float` tolerance of `findMatches` is a power of two, kept as a natural
  number; comparing an integer distance with it is exact for zoom differences
  below 24.
* Tile coordinates, their order and their two queries (`isChildOf`,
  `scaledTo`) are declared in `mbgl/tile/tile_id.hpp`, which is not among the
  sources; they are modelled from the specification.
* Objects mutated through references (`SymbolBucket&`, `uint32_t&`) are passed
  in and returned.
* In `fillBorder` and `onTileChanged` the unsigned 32-bit arithmetic is taken
  modulo `2 ^ 32` and the conversions to `int` and `int8_t` wrap; `dim` is
  `2 ^ z` for canonical zooms below 32.
-/

namespace mbgl

/-! ## `std::map` -/

section StdMap

variable {K V : Type} [DecidableEq K]

/-- Models `std::map::find`: the value stored under `k`, if any. -/
def mapFind : List (K × V) → K → Option V
  | [], _ => none
  | e :: m, k => if e.1 = k then some e.2 else mapFind m k

/-- Models `std::map::erase(key)`. -/
def mapErase (m : List (K × V)) (k : K) : List (K × V) :=
  m.filter (fun e => decide (e.1 ≠ k))

/-- Insertion of a new entry at its place in the key order. -/
def mapInsertSorted (lt : K → K → Bool) : List (K × V) → K → V → List (K × V)
  | [], k, v => [(k, v)]
  | e :: m, k, v => if lt k e.1 then (k, v) :: e :: m else e :: mapInsertSorted lt m k v

/-- Models `std::map::emplace`: inserts unless the key is already present. -/
def mapEmplace (lt : K → K → Bool) (m : List (K × V)) (k : K) (v : V) : List (K × V) :=
  match mapFind m k with
  | some _ => m
  | none => mapInsertSorted lt m k v

/-- Models `std::map::operator[]`, the effect on the map: a missing key is inserted
with the default value `d`. -/
def mapSubscript (lt : K → K → Bool) (m : List (K × V)) (k : K) (d : V) : List (K × V) :=
  mapEmplace lt m k d

/-- Mutation, through the reference returned by `operator[]`, of the value
stored under `k`. -/
def mapModify (m : List (K × V)) (k : K) (f : V → V) : List (K × V) :=
  m.map (fun e => if e.1 = k then (e.1, f e.2) else e)

end StdMap

/-! ## Tile coordinates -/

/-- Modelled from the spec: `CanonicalTileID` of `mbgl/tile/tile_id.hpp`, the
address (zoom, x, y) of a node of the tile pyramid. -/
structure CanonicalTileID where
  z : Nat
  x : Nat
  y : Nat
deriving DecidableEq, Repr

/-- Modelled from the spec: `OverscaledTileID` of `mbgl/tile/tile_id.hpp`, a
canonical address with its zoom level and world-wrap index. -/
structure OverscaledTileID where
  overscaledZ : Nat
  wrap : Int
  canonical : CanonicalTileID
deriving DecidableEq, Repr

/-- Modelled from the spec: the order of canonical tile ids (zoom, then x,
then y), which `std::map` uses for its keys. -/
def CanonicalTileID.lt (a b : CanonicalTileID) : Bool :=
  decide (a.z < b.z) ||
    (decide (a.z = b.z) && (decide (a.x < b.x) || (decide (a.x = b.x) && decide (a.y < b.y))))

/-- Modelled from the spec: the order of tile coordinates (zoom, then wrap,
then canonical id), which `std::map` uses for its keys. -/
def OverscaledTileID.lt (a b : OverscaledTileID) : Bool :=
  decide (a.overscaledZ < b.overscaledZ) ||
    (decide (a.overscaledZ = b.overscaledZ) &&
      (decide (a.wrap < b.wrap) || (decide (a.wrap = b.wrap) && a.canonical.lt b.canonical)))

/-- Modelled from the spec: canonical descendant test of `tile_id.hpp`. -/
def CanonicalTileID.isChildOf (self parent : CanonicalTileID) : Bool :=
  decide (parent.z = 0) ||
    (decide (parent.z < self.z) && decide (parent.x = self.x / 2 ^ (self.z - parent.z)) &&
      decide (parent.y = self.y / 2 ^ (self.z - parent.z)))

/-- Modelled from the spec: canonical rescaling of `tile_id.hpp`. -/
def CanonicalTileID.scaledTo (self : CanonicalTileID) (targetZ : Nat) : CanonicalTileID :=
  if targetZ ≤ self.z then
    ⟨targetZ, self.x / 2 ^ (self.z - targetZ), self.y / 2 ^ (self.z - targetZ)⟩
  else
    ⟨targetZ, self.x * 2 ^ (targetZ - self.z), self.y * 2 ^ (targetZ - self.z)⟩

/-- Modelled from the spec: "is this coordinate a descendant of that
coordinate" (`OverscaledTileID::isChildOf` of `tile_id.hpp`). -/
def OverscaledTileID.isChildOf (self rhs : OverscaledTileID) : Bool :=
  decide (self.overscaledZ > rhs.overscaledZ) &&
    (decide (self.canonical = rhs.canonical) || self.canonical.isChildOf rhs.canonical)

/-- Modelled from the spec: "the ancestor coordinate of this coordinate at a
given coarser zoom" (`OverscaledTileID::scaledTo` of `tile_id.hpp`). -/
def OverscaledTileID.scaledTo (self : OverscaledTileID) (z : Nat) : OverscaledTileID :=
  ⟨z, self.wrap, if z ≥ self.canonical.z then self.canonical else self.canonical.scaledTo z⟩

/-! ## Symbol instances and buckets -/

/-- Models `Point<T>`. -/
structure Point (T : Type) where
  x : T
  y : T
deriving DecidableEq, Repr

/-- Models `Anchor`: only the position is used by the index. In the source the
position is a point of `float`s; the model carries its value when that value
is integral, so an integer that is not a single-precision value does not stand
for an input. -/
structure Anchor where
  point : Point Int
deriving DecidableEq, Repr

/-- The fields of `SymbolInstance` that the index reads or writes. -/
structure SymbolInstance where
  key : List Nat
  anchor : Anchor
  crossTileID : Nat
deriving DecidableEq, Repr

/-- The fields of `SymbolBucket` that the index reads or writes. -/
structure SymbolBucket where
  bucketInstanceId : Nat
  symbolInstances : List SymbolInstance
deriving DecidableEq, Repr

/-- Models `IndexedSymbolInstance`. -/
structure IndexedSymbolInstance where
  crossTileID : Nat
  coord : Point Int
deriving DecidableEq, Repr

/-- Models `TileLayerIndex`. -/
structure TileLayerIndex where
  coord : OverscaledTileID
  bucketInstanceId : Nat
  indexedSymbolInstances : List (List Nat × List IndexedSymbolInstance)
deriving DecidableEq, Repr

/-- Modelled from the spec: `util::EXTENT` of `mbgl/util/constants.hpp`, the
fixed tile extent. -/
def EXTENT : Int := 8192

/-- Lexicographic order of `std::u16string` and `std::string` keys. -/
def keyLt : List Nat → List Nat → Bool
  | [], [] => false
  | [], _ :: _ => true
  | _ :: _, [] => false
  | a :: as, b :: bs => decide (a < b) || (decide (a = b) && keyLt as bs)

/-- Rounding of `n / q` to the nearest integer, ties to the even one. -/
def roundNearestEven (n q : Nat) : Nat :=
  if 2 * (n % q) < q then n / q
  else if q < 2 * (n % q) then n / q + 1
  else if (n / q) % 2 = 0 then n / q
  else n / q + 1

/-- The number of low bits that a natural number `m` loses in the 24-bit
significand of a `float`: 0 below `2 ^ 24`, and one more than for `m / 2`
otherwise. The second argument bounds the recursion; `m` itself is enough. -/
def floatExponent (m : Nat) : Nat → Nat
  | 0 => 0
  | fuel + 1 => if m < 16777216 then 0 else floatExponent (m / 2) fuel + 1

/-- The conversion of an integer value to `float` (IEEE single precision,
round to nearest, ties to even): the value is kept up to its 24 leading bits.
Values of magnitude `2 ^ 128` and more, which become infinite, do not occur. -/
def roundToFloat (i : Int) : Int :=
  i.sign * ((roundNearestEven i.natAbs (2 ^ floatExponent i.natAbs i.natAbs) *
    2 ^ floatExponent i.natAbs i.natAbs : Nat) : Int)

/-- The value of `childTileCoord.canonical.x * util::EXTENT +
symbolInstance.anchor.point.x` as the source computes it: the product in
unsigned 32-bit arithmetic, converted to `float` for the addition of the
`float` anchor, and the sum rounded to `float`. -/
def floatWorldPosition (x : Nat) (anchor : Int) : Int :=
  roundToFloat (roundToFloat (((x : Int) * EXTENT) % 4294967296) + anchor)

/-- The value `floor(v * scale)` of `getScaledCoordinates`, where
`scale = (512 / EXTENT / 2) / 2 ^ (childZ - z)` is a `double` and a power of
two, and `v` is a single-precision value: the product is exact in `double`,
and so are `std::floor` and the conversion to `int64_t` of a value in its
range. -/
def scaleFloor (v : Int) (childZ z : Nat) : Int :=
  (v * 256 * 2 ^ (z - childZ)) / (EXTENT * 2 ^ (childZ - z))

/-- Models `TileLayerIndex::getScaledCoordinates`. -/
def TileLayerIndex.getScaledCoordinates (self : TileLayerIndex) (symbolInstance : SymbolInstance)
    (childTileCoord : OverscaledTileID) : Point Int :=
  ⟨scaleFloor (floatWorldPosition childTileCoord.canonical.x symbolInstance.anchor.point.x)
      childTileCoord.canonical.z self.coord.canonical.z,
   scaleFloor (floatWorldPosition childTileCoord.canonical.y symbolInstance.anchor.point.y)
      childTileCoord.canonical.z self.coord.canonical.z⟩

/-- The body of the constructor's loop:
`indexedSymbolInstances[key].emplace_back(crossTileID, getScaledCoordinates(..., coord))`. -/
def TileLayerIndex.indexInstance (self : TileLayerIndex) (symbolInstance : SymbolInstance) :
    TileLayerIndex :=
  { self with
    indexedSymbolInstances :=
      mapModify (mapSubscript keyLt self.indexedSymbolInstances symbolInstance.key [])
        symbolInstance.key
        (fun v => v ++ [⟨symbolInstance.crossTileID,
          self.getScaledCoordinates symbolInstance self.coord⟩]) }

/-- The constructor `TileLayerIndex::TileLayerIndex`. -/
def TileLayerIndex.ctor (coord : OverscaledTileID) (symbolInstances : List SymbolInstance)
    (bucketInstanceId : Nat) : TileLayerIndex :=
  symbolInstances.foldl TileLayerIndex.indexInstance ⟨coord, bucketInstanceId, []⟩

/-- The tolerance computed on entry to `TileLayerIndex::findMatches`. -/
def TileLayerIndex.tolerance (self : TileLayerIndex) (newCoord : OverscaledTileID) : Nat :=
  if self.coord.canonical.z < newCoord.canonical.z then 1
  else 2 ^ (self.coord.canonical.z - newCoord.canonical.z)

/-- The acceptance test of `findMatches`: both axes within the tolerance. -/
def withinTolerance (tolerance : Nat) (thisTileSymbol : IndexedSymbolInstance)
    (scaledSymbolCoord : Point Int) : Bool :=
  decide ((thisTileSymbol.coord.x - scaledSymbolCoord.x).natAbs ≤ tolerance) &&
    decide ((thisTileSymbol.coord.y - scaledSymbolCoord.y).natAbs ≤ tolerance)

/-- The inner loop of `findMatches` over the records stored under one key: the
identity of the record at which the loop breaks, if it does. -/
def firstMatch (tolerance : Nat) (scaledSymbolCoord : Point Int) :
    List IndexedSymbolInstance → Option Nat
  | [] => none
  | thisTileSymbol :: rest =>
    if withinTolerance tolerance thisTileSymbol scaledSymbolCoord then
      some thisTileSymbol.crossTileID
    else firstMatch tolerance scaledSymbolCoord rest

/-- One iteration of the outer loop of `findMatches`. -/
def TileLayerIndex.matchOne (self : TileLayerIndex) (newCoord : OverscaledTileID)
    (symbolInstance : SymbolInstance) : SymbolInstance :=
  if symbolInstance.crossTileID ≠ 0 then symbolInstance
  else
    match mapFind self.indexedSymbolInstances symbolInstance.key with
    | none => symbolInstance
    | some records =>
      match firstMatch (self.tolerance newCoord)
          (self.getScaledCoordinates symbolInstance newCoord) records with
      | none => symbolInstance
      | some id => { symbolInstance with crossTileID := id }

/-- Models `TileLayerIndex::findMatches`: the candidates after the call. -/
def TileLayerIndex.findMatches (self : TileLayerIndex) (symbolInstances : List SymbolInstance)
    (newCoord : OverscaledTileID) : List SymbolInstance :=
  symbolInstances.map (self.matchOne newCoord)

/-! ## The per-layer index -/

/-- Models `CrossTileSymbolLayerIndex`: per zoom level, the per-tile indexes held. -/
structure CrossTileSymbolLayerIndex where
  indexes : List (Nat × List (OverscaledTileID × TileLayerIndex))
deriving DecidableEq, Repr

/-- Order of the `uint8_t` zoom keys. -/
def zoomLt (a b : Nat) : Bool := decide (a < b)

/-- What `addBucket` hands back: the return value and the three objects it
may have mutated. -/
structure AddBucketResult where
  changed : Bool
  self : CrossTileSymbolLayerIndex
  bucket : SymbolBucket
  maxCrossTileID : Nat
deriving DecidableEq, Repr

/-- The test of the early return of `addBucket`: a previous index is held at
`tileID` and carries the bucket's instance id. -/
def sameBucketHeld (thisZoomIndexes : List (OverscaledTileID × TileLayerIndex))
    (tileID : OverscaledTileID) (bucketInstanceId : Nat) : Bool :=
  match mapFind thisZoomIndexes tileID with
  | some previousIndex => decide (previousIndex.bucketInstanceId = bucketInstanceId)
  | none => false

/-- The first loop of `addBucket`: every identity is cleared. -/
def clearIDs (symbolInstances : List SymbolInstance) : List SymbolInstance :=
  symbolInstances.map (fun symbolInstance => { symbolInstance with crossTileID := 0 })

/-- The body of the loop of `addBucket` over the held zoom levels. -/
def scanZoom (tileID : OverscaledTileID) (zoom : Nat)
    (zoomIndexes : List (OverscaledTileID × TileLayerIndex))
    (symbolInstances : List SymbolInstance) : List SymbolInstance :=
  if zoom > tileID.overscaledZ then
    zoomIndexes.foldl
      (fun acc childIndex =>
        if childIndex.2.coord.isChildOf tileID then childIndex.2.findMatches acc tileID else acc)
      symbolInstances
  else
    match mapFind zoomIndexes (tileID.scaledTo zoom) with
    | some parentIndex => parentIndex.findMatches symbolInstances tileID
    | none => symbolInstances

/-- The loop of `addBucket` over the held zoom levels. -/
def scanIndexes (indexes : List (Nat × List (OverscaledTileID × TileLayerIndex)))
    (tileID : OverscaledTileID) (symbolInstances : List SymbolInstance) : List SymbolInstance :=
  indexes.foldl (fun acc it => scanZoom tileID it.1 it.2 acc) symbolInstances

/-- The last loop of `addBucket`: an instance without identity receives
`++maxCrossTileID`. Returns the instances and the counter. -/
def assignNewIDs : List SymbolInstance → Nat → List SymbolInstance × Nat
  | [], maxCrossTileID => ([], maxCrossTileID)
  | symbolInstance :: rest, maxCrossTileID =>
    if symbolInstance.crossTileID = 0 then
      ({ symbolInstance with crossTileID := (maxCrossTileID + 1) % 2 ^ 32 } ::
          (assignNewIDs rest ((maxCrossTileID + 1) % 2 ^ 32)).1,
        (assignNewIDs rest ((maxCrossTileID + 1) % 2 ^ 32)).2)
    else
      (symbolInstance :: (assignNewIDs rest maxCrossTileID).1,
        (assignNewIDs rest maxCrossTileID).2)

/-- The two closing statements of `addBucket`: erase the entry of `tileID`,
then emplace the rebuilt index. -/
def replaceIndex (indexes : List (Nat × List (OverscaledTileID × TileLayerIndex)))
    (tileID : OverscaledTileID) (index : TileLayerIndex) :
    List (Nat × List (OverscaledTileID × TileLayerIndex)) :=
  mapModify
    (mapSubscript zoomLt
      (mapModify (mapSubscript zoomLt indexes tileID.overscaledZ []) tileID.overscaledZ
        (fun zoomIndexes => mapErase zoomIndexes tileID))
      tileID.overscaledZ [])
    tileID.overscaledZ
    (fun zoomIndexes => mapEmplace OverscaledTileID.lt zoomIndexes tileID index)

/-- Models `CrossTileSymbolLayerIndex::addBucket`. -/
def CrossTileSymbolLayerIndex.addBucket (self : CrossTileSymbolLayerIndex)
    (tileID : OverscaledTileID) (bucket : SymbolBucket) (maxCrossTileID : Nat) :
    AddBucketResult :=
  let indexes := mapSubscript zoomLt self.indexes tileID.overscaledZ []
  let thisZoomIndexes := (mapFind indexes tileID.overscaledZ).getD []
  if sameBucketHeld thisZoomIndexes tileID bucket.bucketInstanceId then
    ⟨false, ⟨indexes⟩, bucket, maxCrossTileID⟩
  else
    let scanned := scanIndexes indexes tileID (clearIDs bucket.symbolInstances)
    let assigned := assignNewIDs scanned maxCrossTileID
    ⟨true,
      ⟨replaceIndex indexes tileID
        (TileLayerIndex.ctor tileID assigned.1 bucket.bucketInstanceId)⟩,
      { bucket with symbolInstances := assigned.1 },
      assigned.2⟩

/-- The inner loop of `removeStaleBuckets` over one zoom level, threading the
flag `tilesChanged`. -/
def removeStaleZoom (currentIDs : List Nat) :
    List (OverscaledTileID × TileLayerIndex) → Bool →
      List (OverscaledTileID × TileLayerIndex) × Bool
  | [], tilesChanged => ([], tilesChanged)
  | it :: rest, tilesChanged =>
    if it.2.bucketInstanceId ∉ currentIDs then removeStaleZoom currentIDs rest true
    else (it :: (removeStaleZoom currentIDs rest tilesChanged).1,
      (removeStaleZoom currentIDs rest tilesChanged).2)

/-- The outer loop of `removeStaleBuckets` over the zoom levels. -/
def removeStaleLoop (currentIDs : List Nat) :
    List (Nat × List (OverscaledTileID × TileLayerIndex)) → Bool →
      List (Nat × List (OverscaledTileID × TileLayerIndex)) × Bool
  | [], tilesChanged => ([], tilesChanged)
  | zoomIndexes :: rest, tilesChanged =>
    ((zoomIndexes.1, (removeStaleZoom currentIDs zoomIndexes.2 tilesChanged).1) ::
        (removeStaleLoop currentIDs rest
          (removeStaleZoom currentIDs zoomIndexes.2 tilesChanged).2).1,
      (removeStaleLoop currentIDs rest
        (removeStaleZoom currentIDs zoomIndexes.2 tilesChanged).2).2)

/-- Models `CrossTileSymbolLayerIndex::removeStaleBuckets`: the index after the call
and the return value. -/
def CrossTileSymbolLayerIndex.removeStaleBuckets (self : CrossTileSymbolLayerIndex)
    (currentIDs : List Nat) : CrossTileSymbolLayerIndex × Bool :=
  (⟨(removeStaleLoop currentIDs self.indexes false).1⟩,
    (removeStaleLoop currentIDs self.indexes false).2)

/-! ## The top-level index -/

/-- What `addLayer` reads of a `RenderTile`: the tile id, `isRenderable()` and
the symbol bucket that `getBucket` returns for the layer. -/
structure RenderTile where
  id : OverscaledTileID
  renderable : Bool
  bucket : SymbolBucket
deriving DecidableEq, Repr

/-- What `addLayer` reads of a `RenderSymbolLayer`: `getID()` and the render
tiles. -/
structure RenderSymbolLayer where
  id : List Nat
  renderTiles : List RenderTile
deriving DecidableEq, Repr

/-- Models `CrossTileSymbolIndex`. -/
structure CrossTileSymbolIndex where
  layerIndexes : List (List Nat × CrossTileSymbolLayerIndex)
  maxCrossTileID : Nat
  maxBucketInstanceId : Nat
deriving DecidableEq, Repr

/-- The variables live in the loop of `addLayer`; `renderTiles` collects the
tiles already visited, with their buckets as the loop left them. -/
structure AddLayerLoop where
  layerIndex : CrossTileSymbolLayerIndex
  maxCrossTileID : Nat
  maxBucketInstanceId : Nat
  symbolBucketsChanged : Bool
  currentBucketIDs : List Nat
  renderTiles : List RenderTile
deriving DecidableEq, Repr

/-- The lazy stamping of a bucket in `addLayer`: the bucket and the counter. -/
def stampBucket (symbolBucket : SymbolBucket) (maxBucketInstanceId : Nat) : SymbolBucket × Nat :=
  if symbolBucket.bucketInstanceId = 0 then
    ({ symbolBucket with bucketInstanceId := (maxBucketInstanceId + 1) % 2 ^ 32 },
      (maxBucketInstanceId + 1) % 2 ^ 32)
  else (symbolBucket, maxBucketInstanceId)

/-- The body of the loop of `addLayer` over the render tiles. -/
def addLayerStep (st : AddLayerLoop) (renderTile : RenderTile) : AddLayerLoop :=
  if renderTile.renderable = false then
    { st with renderTiles := st.renderTiles ++ [renderTile] }
  else
    let stamped := stampBucket renderTile.bucket st.maxBucketInstanceId
    let added := st.layerIndex.addBucket renderTile.id stamped.1 st.maxCrossTileID
    { layerIndex := added.self
      maxCrossTileID := added.maxCrossTileID
      maxBucketInstanceId := stamped.2
      symbolBucketsChanged := st.symbolBucketsChanged || added.changed
      currentBucketIDs := added.bucket.bucketInstanceId :: st.currentBucketIDs
      renderTiles := st.renderTiles ++ [{ renderTile with bucket := added.bucket }] }

/-- What `addLayer` hands back: the return value, the index and the layer
whose buckets it has mutated. -/
structure AddLayerResult where
  changed : Bool
  self : CrossTileSymbolIndex
  symbolLayer : RenderSymbolLayer
deriving DecidableEq, Repr

/-- Models `CrossTileSymbolIndex::addLayer`. -/
def CrossTileSymbolIndex.addLayer (self : CrossTileSymbolIndex) (symbolLayer : RenderSymbolLayer) :
    AddLayerResult :=
  let layerIndexes := mapSubscript keyLt self.layerIndexes symbolLayer.id ⟨[]⟩
  let layerIndex := (mapFind layerIndexes symbolLayer.id).getD ⟨[]⟩
  let st := symbolLayer.renderTiles.foldl addLayerStep
    ⟨layerIndex, self.maxCrossTileID, self.maxBucketInstanceId, false, [], []⟩
  let pruned := st.layerIndex.removeStaleBuckets st.currentBucketIDs
  ⟨st.symbolBucketsChanged || pruned.2,
    ⟨mapModify layerIndexes symbolLayer.id (fun _ => pruned.1), st.maxCrossTileID,
      st.maxBucketInstanceId⟩,
    { symbolLayer with renderTiles := st.renderTiles }⟩

/-- Models `CrossTileSymbolIndex::reset`. -/
def CrossTileSymbolIndex.reset (self : CrossTileSymbolIndex) : CrossTileSymbolIndex :=
  { self with layerIndexes := [] }

/-- The state built by the constructor `CrossTileSymbolIndex()`. -/
def CrossTileSymbolIndex.empty : CrossTileSymbolIndex := ⟨[], 0, 0⟩

/-! ## The tolerance rule as the specification words it -/

/-- The tolerance of `findMatches` as the specification states it: 1 grid unit
when the candidate's zoom is coarser than or equal to the index's zoom, and
`2 ^ (index zoom - candidate zoom)` grid units when the candidate's zoom is
finer. -/
def specTolerance (indexZ candidateZ : Nat) : ℚ :=
  if candidateZ ≤ indexZ then 1 else (2 : ℚ) ^ ((indexZ : ℤ) - (candidateZ : ℤ))

/-! ## Concrete tiles, instances and indexes used as test inputs -/

/-- Tile A: zoom 10, cell (3, 5). -/
def exTileA : OverscaledTileID := ⟨10, 0, ⟨10, 3, 5⟩⟩

/-- Tile B: the child of A at zoom 11 with cell (6, 10). -/
def exTileB : OverscaledTileID := ⟨11, 0, ⟨11, 6, 10⟩⟩

/-- Tile C: zoom 10, cell (7, 7), unrelated to A and B. -/
def exTileC : OverscaledTileID := ⟨10, 0, ⟨10, 7, 7⟩⟩

/-- An instance with key `[1]` anchored at (100, 200), without identity. -/
def exInstA : SymbolInstance := ⟨[1], ⟨⟨100, 200⟩⟩, 0⟩

/-- An instance with key `[1]` anchored at (200, 400), the same world point
as `exInstA` when it lies in tile B; it carries a left-over identity 77. -/
def exInstB : SymbolInstance := ⟨[1], ⟨⟨200, 400⟩⟩, 77⟩

/-- An instance with another key, `[2]`. -/
def exInstK : SymbolInstance := ⟨[2], ⟨⟨100, 200⟩⟩, 0⟩

/-- An index at tile A holding two records under key `[1]`, identities 7 and
9, in adjacent cells. -/
def exIndexTwo : TileLayerIndex :=
  ⟨exTileA, 5, [([1], [⟨7, ⟨771, 1286⟩⟩, ⟨9, ⟨772, 1286⟩⟩])]⟩

/-- An index at tile B (zoom 11) with one record. -/
def exIndexB : TileLayerIndex :=
  ⟨exTileB, 6, [([1], [⟨1, ⟨1542, 2572⟩⟩])]⟩

/-! ## Vocabulary of the statements -/

/-- The per-tile index held under the zoom key `zoom` at the coordinate
`tileID`, if any. -/
def CrossTileSymbolLayerIndex.heldAt (self : CrossTileSymbolLayerIndex) (zoom : Nat)
    (tileID : OverscaledTileID) : Option TileLayerIndex :=
  match mapFind self.indexes zoom with
  | some zoomIndexes => mapFind zoomIndexes tileID
  | none => none

/-- The per-tile index held for `tileID` at its own zoom, if any. -/
def CrossTileSymbolLayerIndex.held (self : CrossTileSymbolLayerIndex)
    (tileID : OverscaledTileID) : Option TileLayerIndex :=
  self.heldAt tileID.overscaledZ tileID

/-- The instances as the scan of `addBucket` leaves them, before fresh
identities are handed out. -/
def CrossTileSymbolLayerIndex.afterScan (self : CrossTileSymbolLayerIndex)
    (tileID : OverscaledTileID) (bucket : SymbolBucket) : List SymbolInstance :=
  scanIndexes self.indexes tileID (clearIDs bucket.symbolInstances)

/-- Number of instances without identity. -/
def countUnassigned (symbolInstances : List SymbolInstance) : Nat :=
  (symbolInstances.filter (fun s => decide (s.crossTileID = 0))).length

/-- The record that the constructor of an index at `coord` stores for an
instance. -/
def recordOf (coord : OverscaledTileID) (s : SymbolInstance) : IndexedSymbolInstance :=
  ⟨s.crossTileID, (TileLayerIndex.mk coord 0 []).getScaledCoordinates s coord⟩

/-- The per-tile indexes that the scan of `addBucket` consults at one zoom
level, in the order of the calls to `findMatches`. -/
def scannedAtZoom (tileID : OverscaledTileID) (zoom : Nat)
    (zoomIndexes : List (OverscaledTileID × TileLayerIndex)) : List TileLayerIndex :=
  if zoom > tileID.overscaledZ then
    (zoomIndexes.filter (fun childIndex => childIndex.2.coord.isChildOf tileID)).map Prod.snd
  else (mapFind zoomIndexes (tileID.scaledTo zoom)).toList

/-- The per-tile indexes that the scan of `addBucket` consults, in order. -/
def scannedIndexes (indexes : List (Nat × List (OverscaledTileID × TileLayerIndex)))
    (tileID : OverscaledTileID) : List TileLayerIndex :=
  indexes.flatMap (fun it => scannedAtZoom tileID it.1 it.2)

/-- The successive calls to `findMatches`, seen from one instance. -/
def matchAll (scanned : List TileLayerIndex) (tileID : OverscaledTileID)
    (symbolInstance : SymbolInstance) : SymbolInstance :=
  scanned.foldl (fun s idx => idx.matchOne tileID s) symbolInstance

/-- The index `idx` is one that `addBucket` scans for `tileID`: it is held
under the zoom key `zoom`, either at the ancestor coordinate of `tileID` at
that zoom (`zoom` not finer than the tile's zoom), or with a coordinate that is
a descendant of `tileID` (`zoom` finer). -/
def Scanned (self : CrossTileSymbolLayerIndex) (tileID : OverscaledTileID) (zoom : Nat)
    (idx : TileLayerIndex) : Prop :=
  ∃ zoomIndexes, (zoom, zoomIndexes) ∈ self.indexes ∧
    ((zoom ≤ tileID.overscaledZ ∧ mapFind zoomIndexes (tileID.scaledTo zoom) = some idx) ∨
      (zoom > tileID.overscaledZ ∧ idx.coord.isChildOf tileID = true ∧
        ∃ t, (t, idx) ∈ zoomIndexes))

/-- The record `r` is stored in `idx` under the key of `s` and lies within
the tolerance of `findMatches`, on both axes, of the anchor of `s` rescaled
from `tileID` onto the grid of `idx`. -/
def MatchesRecord (idx : TileLayerIndex) (tileID : OverscaledTileID) (s : SymbolInstance)
    (r : IndexedSymbolInstance) : Prop :=
  ∃ records, mapFind idx.indexedSymbolInstances s.key = some records ∧ r ∈ records ∧
    withinTolerance (idx.tolerance tileID) r (idx.getScaledCoordinates s tileID) = true

/-- The index that `addBucket` builds for tile A from `exInstA` when the
counter is 0: one record with identity 1. -/
def exIndexA : TileLayerIndex := ⟨exTileA, 5, [([1], [⟨1, ⟨771, 1286⟩⟩])]⟩

/-- The layer index that holds `exIndexA` only. -/
def exLayerA : CrossTileSymbolLayerIndex := ⟨[(10, [(exTileA, exIndexA)])]⟩

/-- An index at tile A whose only record carries the identity 0. -/
def exIndexZero : TileLayerIndex := ⟨exTileA, 5, [([1], [⟨0, ⟨771, 1286⟩⟩])]⟩

/-- The layer index that holds `exIndexZero` only. -/
def exLayerZero : CrossTileSymbolLayerIndex := ⟨[(10, [(exTileA, exIndexZero)])]⟩

/-- A bucket for tile B with the single instance `exInstB`. -/
def exBucketB : SymbolBucket := ⟨6, [exInstB]⟩

/-- A bucket for tile B with two instances of the same key at the same anchor. -/
def exBucketTwins : SymbolBucket := ⟨6, [exInstB, exInstB]⟩

/-- A bucket for tile A with the single instance `exInstA`. -/
def exBucketA : SymbolBucket := ⟨5, [exInstA]⟩

/-- An index at tile C with generation id 7. -/
def exIndexC : TileLayerIndex := ⟨exTileC, 7, [([1], [⟨2, ⟨1795, 1798⟩⟩])]⟩

/-- A layer index holding three tiles with the generation ids 5, 6 and 7. -/
def exLayer567 : CrossTileSymbolLayerIndex :=
  ⟨[(10, [(exTileA, exIndexA), (exTileC, exIndexC)]), (11, [(exTileB, exIndexB)])]⟩

/-! ## Vocabulary of the identity-counter invariant -/

/-- Every record of the per-tile index has a non-zero identity, at most `c`. -/
def RecordsBounded (c : Nat) (idx : TileLayerIndex) : Prop :=
  ∀ kv ∈ idx.indexedSymbolInstances, ∀ r ∈ kv.2, r.crossTileID ≠ 0 ∧ r.crossTileID ≤ c

/-- Every record of every per-tile index held by the layer index has a
non-zero identity, at most `c`. -/
def IdsBounded (self : CrossTileSymbolLayerIndex) (c : Nat) : Prop :=
  ∀ zoomIndexes ∈ self.indexes, ∀ it ∈ zoomIndexes.2, RecordsBounded c it.2

/-- Every record held anywhere in the top-level index has a non-zero
identity, at most the counter `maxCrossTileID`. -/
def CrossTileSymbolIndex.StoredIdsBounded (self : CrossTileSymbolIndex) : Prop :=
  ∀ layer ∈ self.layerIndexes, IdsBounded layer.2 self.maxCrossTileID

/-- The identities handed out by the last loop of `addBucket`, in order:
those that the instances without identity in `scanned` carry in `final`. -/
def freshIDs (scanned final : List SymbolInstance) : List Nat :=
  ((scanned.zip final).filter (fun p => decide (p.1.crossTileID = 0))).map
    (fun p => p.2.crossTileID)

/-- The identities that a call to `addBucket` hands out, in order. -/
def CrossTileSymbolLayerIndex.handedOut (self : CrossTileSymbolLayerIndex)
    (tileID : OverscaledTileID) (bucket : SymbolBucket) (maxCrossTileID : Nat) : List Nat :=
  if (self.addBucket tileID bucket maxCrossTileID).changed = true then
    freshIDs (self.afterScan tileID bucket)
      (self.addBucket tileID bucket maxCrossTileID).bucket.symbolInstances
  else []

/-- The identities handed out while the loop of `addLayer` runs from the loop
state `st` over `renderTiles`, in order. -/
def addLayerHandedOut : AddLayerLoop → List RenderTile → List Nat
  | _, [] => []
  | st, renderTile :: rest =>
    (if renderTile.renderable = false then []
      else st.layerIndex.handedOut renderTile.id
        (stampBucket renderTile.bucket st.maxBucketInstanceId).1 st.maxCrossTileID) ++
      addLayerHandedOut (addLayerStep st renderTile) rest

/-- The layer index that `layerIndexes[layerID]` refers to. -/
def CrossTileSymbolIndex.layerIndex (self : CrossTileSymbolIndex) (layerID : List Nat) :
    CrossTileSymbolLayerIndex :=
  (mapFind (mapSubscript keyLt self.layerIndexes layerID ⟨[]⟩) layerID).getD ⟨[]⟩

/-- The loop state with which `addLayer` enters its loop. -/
def CrossTileSymbolIndex.loopEntry (self : CrossTileSymbolIndex) (layerID : List Nat) :
    AddLayerLoop :=
  ⟨self.layerIndex layerID, self.maxCrossTileID, self.maxBucketInstanceId, false, [], []⟩

/-- The identities that a call to `addLayer` hands out, in order. -/
def CrossTileSymbolIndex.handedOut (self : CrossTileSymbolIndex)
    (symbolLayer : RenderSymbolLayer) : List Nat :=
  addLayerHandedOut (self.loopEntry symbolLayer.id) symbolLayer.renderTiles

/-- The top-level index after `layerIndexes[layerID].addBucket(tileID, bucket,
maxCrossTileID)`, the call that `addLayer` makes for each renderable tile. -/
def CrossTileSymbolIndex.afterAddBucket (self : CrossTileSymbolIndex) (layerID : List Nat)
    (tileID : OverscaledTileID) (bucket : SymbolBucket) : CrossTileSymbolIndex :=
  ⟨mapModify (mapSubscript keyLt self.layerIndexes layerID ⟨[]⟩) layerID
      (fun _ => ((self.layerIndex layerID).addBucket tileID bucket self.maxCrossTileID).self),
    ((self.layerIndex layerID).addBucket tileID bucket self.maxCrossTileID).maxCrossTileID,
    self.maxBucketInstanceId⟩

/-- The top-level index after `layerIndexes[layerID].removeStaleBuckets(currentIDs)`. -/
def CrossTileSymbolIndex.afterRemoveStaleBuckets (self : CrossTileSymbolIndex)
    (layerID : List Nat) (currentIDs : List Nat) : CrossTileSymbolIndex :=
  ⟨mapModify (mapSubscript keyLt self.layerIndexes layerID ⟨[]⟩) layerID
      (fun _ => ((self.layerIndex layerID).removeStaleBuckets currentIDs).1),
    self.maxCrossTileID, self.maxBucketInstanceId⟩

/-- The runs of the top-level index from the state of its constructor: `Run st
ids` says that some sequence of `addLayer`, `addBucket`, `removeStaleBuckets`
and `reset` calls, none of which lets the 32-bit identity counter wrap (the
counter plus the number of identities the call hands out stays below
`2 ^ 32`), leads to the state `st`, and that `ids` lists the identities handed
out on the way, oldest first. -/
inductive Run : CrossTileSymbolIndex → List Nat → Prop
  | init : Run CrossTileSymbolIndex.empty []
  | addLayer (st : CrossTileSymbolIndex) (ids : List Nat) (symbolLayer : RenderSymbolLayer) :
      Run st ids →
      st.maxCrossTileID + (st.handedOut symbolLayer).length < 2 ^ 32 →
      Run (st.addLayer symbolLayer).self (ids ++ st.handedOut symbolLayer)
  | addBucket (st : CrossTileSymbolIndex) (ids : List Nat) (layerID : List Nat)
      (tileID : OverscaledTileID) (bucket : SymbolBucket) :
      Run st ids →
      st.maxCrossTileID +
        ((st.layerIndex layerID).handedOut tileID bucket st.maxCrossTileID).length < 2 ^ 32 →
      Run (st.afterAddBucket layerID tileID bucket)
        (ids ++ (st.layerIndex layerID).handedOut tileID bucket st.maxCrossTileID)
  | removeStaleBuckets (st : CrossTileSymbolIndex) (ids : List Nat) (layerID : List Nat)
      (currentIDs : List Nat) :
      Run st ids → Run (st.afterRemoveStaleBuckets layerID currentIDs) ids
  | reset (st : CrossTileSymbolIndex) (ids : List Nat) :
      Run st ids → Run st.reset ids

/-- A layer offering tile A, its child B (with an instance matching A's and
one with another key) and the tile C, which is not renderable. -/
def exSymbolLayer : RenderSymbolLayer :=
  ⟨[1], [⟨exTileA, true, ⟨0, [exInstA]⟩⟩, ⟨exTileB, true, ⟨0, [exInstB, exInstK]⟩⟩,
    ⟨exTileC, false, ⟨0, [exInstA]⟩⟩]⟩

/-- The top-level index after `addBucket` of `exBucketA` for tile A in layer
`[1]`, from the empty index. -/
def exStateA : CrossTileSymbolIndex := ⟨[([1], exLayerA)], 1, 0⟩

/-- A bucket for tile B: one instance matching A's record, then two instances
with another key. -/
def exBucketMixed : SymbolBucket := ⟨6, [exInstB, exInstK, exInstK]⟩

/-! ## Vocabulary of the statements about `addLayer` -/

/-- The loop state of `addLayer` just before it visits the render tile at
position `i`. -/
def CrossTileSymbolIndex.loopBefore (self : CrossTileSymbolIndex)
    (symbolLayer : RenderSymbolLayer) (i : Nat) : AddLayerLoop :=
  (symbolLayer.renderTiles.take i).foldl addLayerStep (self.loopEntry symbolLayer.id)

/-- The loop state with which `addLayer` leaves its loop. -/
def CrossTileSymbolIndex.loopExit (self : CrossTileSymbolIndex)
    (symbolLayer : RenderSymbolLayer) : AddLayerLoop :=
  symbolLayer.renderTiles.foldl addLayerStep (self.loopEntry symbolLayer.id)

/-- The call to `addBucket` that the loop of `addLayer` makes for a renderable
tile, from the loop state `st`. -/
def AddLayerLoop.addBucketFor (st : AddLayerLoop) (renderTile : RenderTile) : AddBucketResult :=
  st.layerIndex.addBucket renderTile.id
    (stampBucket renderTile.bucket st.maxBucketInstanceId).1 st.maxCrossTileID

/-- The render tile as one iteration of the loop of `addLayer` leaves it. -/
def AddLayerLoop.visit (st : AddLayerLoop) (renderTile : RenderTile) : RenderTile :=
  if renderTile.renderable = false then renderTile
  else { renderTile with bucket := (st.addBucketFor renderTile).bucket }

/-- Number of buckets that the loop of `addLayer` stamps: those of renderable
tiles that come without generation id. -/
def stampCount (renderTiles : List RenderTile) : Nat :=
  (renderTiles.filter
    (fun t => t.renderable && decide (t.bucket.bucketInstanceId = 0))).length

/-- A top-level index whose generation counter is at its largest 32-bit value. -/
def exStateGenMax : CrossTileSymbolIndex := ⟨[], 0, 4294967295⟩

/-- A layer offering the renderable tile A with a bucket without generation id. -/
def exLayerOneTile : RenderSymbolLayer := ⟨[1], [⟨exTileA, true, ⟨0, [exInstA]⟩⟩]⟩

/-- A regenerated bucket for tile A: the instance of `exBucketA` under a new
generation id. -/
def exBucketARegen : SymbolBucket := ⟨9, [exInstA]⟩

/-- Two instances with distinct keys and the identities 1 and 2. -/
def exPair : List SymbolInstance := [⟨[1], ⟨⟨100, 200⟩⟩, 1⟩, ⟨[2], ⟨⟨300, 50⟩⟩, 2⟩]

/-- The layer index that holds, at tile A, the index built from `exPair`. -/
def exLayerPair : CrossTileSymbolLayerIndex :=
  ⟨[(10, [(exTileA, TileLayerIndex.ctor exTileA exPair 5)])]⟩

/-- A regenerated bucket for tile A: the instances of `exPair` in the other
order, under a new generation id and without identities. -/
def exBucketPairRegen : SymbolBucket := ⟨9, [⟨[2], ⟨⟨300, 50⟩⟩, 0⟩, ⟨[1], ⟨⟨100, 200⟩⟩, 0⟩]⟩

/-! ## Vocabulary of the statements about `reset` -/

/-- Every record of every per-tile index held by the layer index has an
identity strictly greater than `c`. -/
def IdsAbove (self : CrossTileSymbolLayerIndex) (c : Nat) : Prop :=
  ∀ zoomIndexes ∈ self.indexes, ∀ it ∈ zoomIndexes.2,
    ∀ kv ∈ it.2.indexedSymbolInstances, ∀ r ∈ kv.2, c < r.crossTileID

/-- The runs of the top-level index from the state `st0`: `RunFrom st0 st ids`
says that some sequence of `addLayer`, `addBucket`, `removeStaleBuckets` and
`reset` calls, none of which lets the 32-bit identity counter wrap, leads from
`st0` to `st`, and that `ids` lists the identities handed out on the way,
oldest first. -/
inductive RunFrom (st0 : CrossTileSymbolIndex) : CrossTileSymbolIndex → List Nat → Prop
  | start : RunFrom st0 st0 []
  | addLayer (st : CrossTileSymbolIndex) (ids : List Nat) (symbolLayer : RenderSymbolLayer) :
      RunFrom st0 st ids →
      st.maxCrossTileID + (st.handedOut symbolLayer).length < 2 ^ 32 →
      RunFrom st0 (st.addLayer symbolLayer).self (ids ++ st.handedOut symbolLayer)
  | addBucket (st : CrossTileSymbolIndex) (ids : List Nat) (layerID : List Nat)
      (tileID : OverscaledTileID) (bucket : SymbolBucket) :
      RunFrom st0 st ids →
      st.maxCrossTileID +
        ((st.layerIndex layerID).handedOut tileID bucket st.maxCrossTileID).length < 2 ^ 32 →
      RunFrom st0 (st.afterAddBucket layerID tileID bucket)
        (ids ++ (st.layerIndex layerID).handedOut tileID bucket st.maxCrossTileID)
  | removeStaleBuckets (st : CrossTileSymbolIndex) (ids : List Nat) (layerID : List Nat)
      (currentIDs : List Nat) :
      RunFrom st0 st ids → RunFrom st0 (st.afterRemoveStaleBuckets layerID currentIDs) ids
  | reset (st : CrossTileSymbolIndex) (ids : List Nat) :
      RunFrom st0 st ids → RunFrom st0 st.reset ids

/-- A top-level index whose identity counter is at its largest 32-bit value. -/
def exStateIdMax : CrossTileSymbolIndex := ⟨[([1], exLayerA)], 4294967295, 0⟩

/-- A top-level index with the identity counter at 5. -/
def exStateFive : CrossTileSymbolIndex := ⟨[([1], exLayerA)], 5, 1⟩

/-! ## Vocabulary of the statements about related coordinates -/

/-- The representation invariant of the layer index as a `std::map` of
`std::map`s filled by `addBucket`: zoom keys strictly ascending, tile keys
strictly ascending within each zoom level, and every per-tile index stored
under its own coordinate. -/
def CrossTileSymbolLayerIndex.WellFormed (self : CrossTileSymbolLayerIndex) : Prop :=
  self.indexes.Pairwise (fun a b => a.1 < b.1) ∧
  ∀ zoomIndexes ∈ self.indexes,
    zoomIndexes.2.Pairwise (fun a b => OverscaledTileID.lt a.1 b.1 = true) ∧
    ∀ it ∈ zoomIndexes.2, it.2.coord = it.1

/-- The coordinate `t` under the zoom key `zoom` is related to `tileID`: it is
`tileID` itself, the ancestor coordinate of `tileID` at a zoom that is not
finer, or a descendant of `tileID` at a finer zoom. -/
def Related (tileID : OverscaledTileID) (zoom : Nat) (t : OverscaledTileID) : Prop :=
  (zoom = tileID.overscaledZ ∧ t = tileID) ∨
  (zoom ≤ tileID.overscaledZ ∧ t = tileID.scaledTo zoom) ∨
  (zoom > tileID.overscaledZ ∧ t.isChildOf tileID = true)

/-- Tile A in the next world copy: the canonical id of tile A, wrap 1. -/
def exTileAWrap : OverscaledTileID := ⟨10, 1, ⟨10, 3, 5⟩⟩

/-- A layer index holding, for the world copy `exTileAWrap` only, the index
built from an instance with the key and the anchor of `exInstA` and the
identity 9. -/
def exLayerUnrelated : CrossTileSymbolLayerIndex :=
  ⟨[(10, [(exTileAWrap, TileLayerIndex.ctor exTileAWrap [⟨[1], ⟨⟨100, 200⟩⟩, 9⟩] 7)])]⟩

/-! ## Vocabulary of the statement about quantization -/

/-- The world position `canonical.x * EXTENT + anchor.point.x` (and likewise
for `y`) of the anchor of `s` in the grid of the zoom of the tile `t`, as an
integer, without wrap and without rounding. -/
def worldPosition (t : OverscaledTileID) (s : SymbolInstance) : Point Int :=
  ⟨t.canonical.x * EXTENT + s.anchor.point.x, t.canonical.y * EXTENT + s.anchor.point.y⟩

/-- A tile at zoom 14 whose world positions exceed `2 ^ 24`. -/
def exTileHigh : OverscaledTileID := ⟨14, 0, ⟨14, 10000, 6000⟩⟩

/-- An instance with key `[1]` anchored at (31, 31), the last unit of a grid
cell on both axes. -/
def exInstEdge : SymbolInstance := ⟨[1], ⟨⟨31, 31⟩⟩, 0⟩

/-- The child of `exTileHigh` at zoom 15 that contains its corner (0, 0). -/
def exTileHighChild : OverscaledTileID := ⟨15, 0, ⟨15, 20000, 12000⟩⟩

/-- An instance with key `[1]` anchored at (62, 62): in `exTileHighChild` the
world point of `exInstEdge` in `exTileHigh`. -/
def exInstEdgeChild : SymbolInstance := ⟨[1], ⟨⟨62, 62⟩⟩, 0⟩

/-- A tile at zoom 19 with `x * EXTENT = 2 ^ 31`. -/
def exTileDeep : OverscaledTileID := ⟨19, 0, ⟨19, 262144, 0⟩⟩

/-- The child of `exTileDeep` at zoom 20 that contains its corner (0, 0); its
`x * EXTENT` is `2 ^ 32`. -/
def exTileDeeper : OverscaledTileID := ⟨20, 0, ⟨20, 524288, 0⟩⟩

/-- An instance with key `[1]` anchored at the corner (0, 0) of its tile. -/
def exInstOrigin : SymbolInstance := ⟨[1], ⟨⟨0, 0⟩⟩, 0⟩

/-! ## Elevation tiles: border backfilling

`src/mbgl/renderer/sources/render_raster_dem_source.cpp`. Unsigned 32-bit
arithmetic is taken modulo `2 ^ 32`; a conversion to `int` or `int8_t` keeps
the value modulo `2 ^ 32`, respectively `2 ^ 8`, in the signed range. -/

/-- The conversion of an integer value to `int` (32 bits, two's complement). -/
def toInt32 (i : Int) : Int := (i + 2147483648) % 4294967296 - 2147483648

/-- The conversion of an integer value to `int8_t`. -/
def toInt8 (i : Int) : Int := (i + 128) % 256 - 128

/-- Modelled from the spec: the eight neighbour masks of `DEMTileNeighbors`
(`mbgl/tile/raster_dem_tile.hpp`), by the names that `onTileChanged` uses. -/
inductive DEMTileNeighbors where
  | Left
  | Right
  | TopLeft
  | TopCenter
  | TopRight
  | BottomLeft
  | BottomCenter
  | BottomRight
deriving DecidableEq, Repr

/-- What `fillBorder` reads and writes of a `RasterDEMTile`: its id, whether
the elevation pyramid of its bucket is loaded, and the set of neighbours
already backfilled (the bit mask `neighboringTiles`). -/
structure RasterDEMTile where
  id : OverscaledTileID
  isLoaded : Bool
  neighboringTiles : List DEMTileNeighbors
deriving DecidableEq, Repr

/-- The value of `dx` in `fillBorder` after the block commented
`neighbor is in another world wrap`, from its initial value and `dim`. -/
def wrapCorrection (dx dim : Int) : Int :=
  if dx.natAbs > 1 then
    if (toInt32 (dx + dim)).natAbs = 1 then toInt32 (dx + dim)
    else if (toInt32 (dx - dim)).natAbs = 1 then toInt32 (dx - dim)
    else dx
  else dx

/-- What `fillBorder` does: the tile after the call, and the arguments
`(dx, dy)` of the call of `backfillBorder` if it is made. -/
structure FillBorderResult where
  tile : RasterDEMTile
  backfill : Option (Int × Int)
deriving DecidableEq, Repr

/-- Models `fillBorder`. -/
def fillBorder (tile borderTile : RasterDEMTile) (mask : DEMTileNeighbors) : FillBorderResult :=
  let dx : Int := toInt32 ((borderTile.id.canonical.x : Int) - tile.id.canonical.x)
  let dy : Int := toInt8 ((borderTile.id.canonical.y : Int) - tile.id.canonical.y)
  let dim : Int := ((2 ^ tile.id.canonical.z % 4294967296 : Nat) : Int)
  if dx = 0 ∧ dy = 0 then ⟨tile, none⟩
  else if dy.natAbs > 1 then ⟨tile, none⟩
  else if tile.isLoaded && borderTile.isLoaded then
    ⟨{ tile with neighboringTiles := tile.neighboringTiles ++ [mask] },
      some (toInt8 (wrapCorrection dx dim), dy)⟩
  else ⟨tile, none⟩

/-- Models the lambda `getNeighbor` of `RenderRasterDEMSource::onTileChanged`,
with the values `dim`, `px`, `pxw`, `nx` and `nxw` computed before it. -/
def getNeighbor (tile : OverscaledTileID) (mask : DEMTileNeighbors) : OverscaledTileID :=
  let canonical := tile.canonical
  let dim : Nat := 2 ^ canonical.z % 4294967296
  let px : Nat := (canonical.x + 4294967295 + dim) % 4294967296 % dim
  let pxw : Int := if canonical.x = 0 then tile.wrap - 1 else tile.wrap
  let nx : Nat := (canonical.x + 1 + dim) % 4294967296 % dim
  let nxw : Int := if (canonical.x + 1) % 4294967296 = dim then tile.wrap + 1 else tile.wrap
  let above : Nat := (canonical.y + 4294967295) % 4294967296
  let below : Nat := (canonical.y + 1) % 4294967296
  match mask with
  | DEMTileNeighbors.Left => ⟨tile.overscaledZ, pxw, ⟨canonical.z, px, canonical.y⟩⟩
  | DEMTileNeighbors.Right => ⟨tile.overscaledZ, nxw, ⟨canonical.z, nx, canonical.y⟩⟩
  | DEMTileNeighbors.TopLeft => ⟨tile.overscaledZ, pxw, ⟨canonical.z, px, above⟩⟩
  | DEMTileNeighbors.TopCenter => ⟨tile.overscaledZ, tile.wrap, ⟨canonical.z, canonical.x, above⟩⟩
  | DEMTileNeighbors.TopRight => ⟨tile.overscaledZ, nxw, ⟨canonical.z, nx, above⟩⟩
  | DEMTileNeighbors.BottomLeft => ⟨tile.overscaledZ, pxw, ⟨canonical.z, px, below⟩⟩
  | DEMTileNeighbors.BottomCenter =>
    ⟨tile.overscaledZ, tile.wrap, ⟨canonical.z, canonical.x, below⟩⟩
  | DEMTileNeighbors.BottomRight => ⟨tile.overscaledZ, nxw, ⟨canonical.z, nx, below⟩⟩

/-- The direction that the name of a neighbour mask denotes, `x` growing to
the right and `y` downwards: the offset of the tile that `getNeighbor` looks up
for the mask, world copies apart. -/
def DEMTileNeighbors.direction : DEMTileNeighbors → Int × Int
  | DEMTileNeighbors.Left => (-1, 0)
  | DEMTileNeighbors.Right => (1, 0)
  | DEMTileNeighbors.TopLeft => (-1, -1)
  | DEMTileNeighbors.TopCenter => (0, -1)
  | DEMTileNeighbors.TopRight => (1, -1)
  | DEMTileNeighbors.BottomLeft => (-1, 1)
  | DEMTileNeighbors.BottomCenter => (0, 1)
  | DEMTileNeighbors.BottomRight => (1, 1)

/-- The neighbour row of the mask lies in the world: `y - 1 ≥ 0` for the top
masks, `y + 1 < 2 ^ z` for the bottom masks. -/
def rowInWorld (tile : OverscaledTileID) (mask : DEMTileNeighbors) : Prop :=
  0 ≤ (tile.canonical.y : Int) + mask.direction.2 ∧
    (tile.canonical.y : Int) + mask.direction.2 < 2 ^ tile.canonical.z

/-- The elevation tile (z 1, x 0, y 0) of the world copy 0, loaded. -/
def exDemTile : RasterDEMTile := ⟨⟨1, 0, ⟨1, 0, 0⟩⟩, true, []⟩

/-- An elevation tile at zoom 3 on the left edge of the world, loaded. -/
def exDemEdge : RasterDEMTile := ⟨⟨3, 0, ⟨3, 0, 4⟩⟩, true, []⟩

/-! # Lemmas and theorems -/

/-! ## Facts about the map operations -/

section StdMapLemmas
variable {K V : Type} [DecidableEq K]

theorem mapFind_mapErase_self (m : List (K × V)) (k : K) : mapFind (mapErase m k) k = none := by
  induction m with
  | nil => rfl
  | cons e m ih =>
    by_cases h : e.1 = k
    · simpa [mapErase, List.filter_cons, h] using ih
    · simpa [mapErase, List.filter_cons, h, mapFind] using ih

theorem mapFind_mapErase_ne (m : List (K × V)) {k k' : K} (hne : k' ≠ k) :
    mapFind (mapErase m k) k' = mapFind m k' := by
  induction m with
  | nil => rfl
  | cons e m ih =>
    obtain ⟨ek, ev⟩ := e
    unfold mapErase at ih ⊢
    by_cases h : ek = k
    · subst h
      simp only [List.filter_cons, ne_eq, not_true_eq_false, decide_False, mapFind,
        Ne.symm hne, if_false]
      simpa using ih
    · by_cases h2 : ek = k'
      · subst h2
        simp [List.filter_cons, h, mapFind]
      · simp only [List.filter_cons, ne_eq, h, not_false_eq_true, decide_True, if_true, mapFind,
          h2, if_false]
        simpa using ih

theorem mapFind_mapInsertSorted_self (lt : K → K → Bool) (m : List (K × V)) (k : K) (v : V)
    (hnone : mapFind m k = none) : mapFind (mapInsertSorted lt m k v) k = some v := by
  induction m with
  | nil => simp [mapInsertSorted, mapFind]
  | cons e m ih =>
    by_cases h : e.1 = k
    · simp [mapFind, h] at hnone
    · simp only [mapFind, h, if_false] at hnone
      by_cases h2 : lt k e.1 = true
      · simp [mapInsertSorted, h2, mapFind]
      · simp [mapInsertSorted, h2, mapFind, h, ih hnone]

theorem mapFind_mapInsertSorted_ne (lt : K → K → Bool) (m : List (K × V)) {k k' : K} (v : V)
    (hne : k' ≠ k) : mapFind (mapInsertSorted lt m k v) k' = mapFind m k' := by
  induction m with
  | nil => simp [mapInsertSorted, mapFind, Ne.symm hne]
  | cons e m ih =>
    obtain ⟨ek, ev⟩ := e
    by_cases h2 : lt k ek = true
    · simp [mapInsertSorted, h2, mapFind, Ne.symm hne]
    · by_cases h3 : ek = k'
      · subst h3
        simp [mapInsertSorted, h2, mapFind]
      · simp [mapInsertSorted, h2, mapFind, h3, ih]

theorem mapFind_mapEmplace_self (lt : K → K → Bool) (m : List (K × V)) (k : K) (v : V) :
    mapFind (mapEmplace lt m k v) k = some ((mapFind m k).getD v) := by
  unfold mapEmplace
  cases h : mapFind m k with
  | none => simpa using mapFind_mapInsertSorted_self lt m k v h
  | some w => simpa using h

theorem mapFind_mapEmplace_ne (lt : K → K → Bool) (m : List (K × V)) {k k' : K} (v : V)
    (hne : k' ≠ k) : mapFind (mapEmplace lt m k v) k' = mapFind m k' := by
  unfold mapEmplace
  cases h : mapFind m k with
  | none => simpa using mapFind_mapInsertSorted_ne lt m v hne
  | some w => rfl

theorem mapEmplace_of_present (lt : K → K → Bool) (m : List (K × V)) (k : K) (v w : V)
    (h : mapFind m k = some w) : mapEmplace lt m k v = m := by
  simp [mapEmplace, h]

theorem mapFind_mapModify (m : List (K × V)) (k k' : K) (f : V → V) :
    mapFind (mapModify m k f) k' = if k' = k then (mapFind m k).map f else mapFind m k' := by
  induction m with
  | nil => simp [mapModify, mapFind]
  | cons e m ih =>
    obtain ⟨ek, ev⟩ := e
    unfold mapModify at ih ⊢
    by_cases h : ek = k
    · subst h
      by_cases h2 : k' = ek
      · subst h2; simp [mapFind]
      · simp only [List.map_cons, if_true, mapFind, Ne.symm h2, if_false, ih, h2]
    · by_cases h2 : k' = k
      · subst h2; simp only [List.map_cons, h, if_false, mapFind, ih, if_true]
      · by_cases h3 : ek = k'
        · subst h3; simp [mapFind, h]
        · simp only [List.map_cons, h, if_false, mapFind, h3, ih, h2]

end StdMapLemmas

theorem matchOne_key (self : TileLayerIndex) (newCoord : OverscaledTileID) (s : SymbolInstance) :
    (self.matchOne newCoord s).key = s.key ∧ (self.matchOne newCoord s).anchor = s.anchor := by
  unfold TileLayerIndex.matchOne
  split
  · exact ⟨rfl, rfl⟩
  · split
    · exact ⟨rfl, rfl⟩
    · split <;> exact ⟨rfl, rfl⟩

/-! ## `findMatches` -/

/-- C6 (as the code has it): the tolerance of `findMatches` is 1 grid unit when
the candidate's zoom is finer than or equal to the index's zoom, and
`2 ^ (index zoom - candidate zoom)` grid units when the candidate's zoom is
coarser. -/
theorem tolerance_rule (self : TileLayerIndex) (newCoord : OverscaledTileID) :
    self.tolerance newCoord =
      if self.coord.canonical.z ≤ newCoord.canonical.z then 1
      else 2 ^ (self.coord.canonical.z - newCoord.canonical.z) := by
  unfold TileLayerIndex.tolerance
  by_cases h : self.coord.canonical.z < newCoord.canonical.z
  · simp [h, Nat.le_of_lt h]
  · by_cases h2 : self.coord.canonical.z ≤ newCoord.canonical.z
    · have h3 : self.coord.canonical.z = newCoord.canonical.z := by omega
      simp [h3]
    · simp [h, h2]

/-- C6 fails as stated: for an index at zoom 11 and a candidate tile at the
coarser zoom 10 the code uses the tolerance 2 where the stated rule gives 1,
and for an index at zoom 10 and a candidate at the finer zoom 11 the code uses
1 where the stated rule gives 1/2. -/
theorem tolerance_spec_counterexample :
    (exIndexB.tolerance exTileA : ℚ) = 2 ∧ specTolerance 11 10 = 1 ∧
      (exIndexTwo.tolerance exTileB : ℚ) = 1 ∧ specTolerance 10 11 = 1 / 2 := by
  refine ⟨?_, ?_, ?_, ?_⟩
  · have h : exIndexB.tolerance exTileA = 2 := by decide
    rw [h]; norm_num
  · simp [specTolerance]
  · have h : exIndexTwo.tolerance exTileB = 1 := by decide
    rw [h]; norm_num
  · norm_num [specTolerance]

theorem mapSubscript_of_present {K V : Type} [DecidableEq K] (lt : K → K → Bool)
    (m : List (K × V)) (k : K) (d v : V) (h : mapFind m k = some v) :
    mapSubscript lt m k d = m :=
  mapEmplace_of_present lt m k d v h

theorem mapFind_mapSubscript_self {K V : Type} [DecidableEq K] (lt : K → K → Bool)
    (m : List (K × V)) (k : K) (d : V) :
    mapFind (mapSubscript lt m k d) k = some ((mapFind m k).getD d) :=
  mapFind_mapEmplace_self lt m k d

theorem mapFind_mapSubscript_ne {K V : Type} [DecidableEq K] (lt : K → K → Bool)
    (m : List (K × V)) {k k' : K} (d : V) (hne : k' ≠ k) :
    mapFind (mapSubscript lt m k d) k' = mapFind m k' :=
  mapFind_mapEmplace_ne lt m d hne

/-- Lookup in the map that the closing statements of `addBucket` produce. -/
theorem mapFind_replaceIndex (indexes : List (Nat × List (OverscaledTileID × TileLayerIndex)))
    (tileID : OverscaledTileID) (index : TileLayerIndex) (zoom : Nat) :
    mapFind (replaceIndex indexes tileID index) zoom =
      if zoom = tileID.overscaledZ then
        some (mapEmplace OverscaledTileID.lt
          (mapErase ((mapFind indexes tileID.overscaledZ).getD []) tileID) tileID index)
      else mapFind indexes zoom := by
  unfold replaceIndex
  by_cases h : zoom = tileID.overscaledZ
  · subst h
    simp [mapFind_mapModify, mapFind_mapSubscript_self]
  · simp [mapFind_mapModify, h, mapFind_mapSubscript_ne]

theorem ctor_fold_fields (symbolInstances : List SymbolInstance) (acc : TileLayerIndex) :
    (symbolInstances.foldl TileLayerIndex.indexInstance acc).coord = acc.coord ∧
    (symbolInstances.foldl TileLayerIndex.indexInstance acc).bucketInstanceId =
      acc.bucketInstanceId := by
  induction symbolInstances generalizing acc with
  | nil => exact ⟨rfl, rfl⟩
  | cons s rest ih =>
    simp only [List.foldl_cons]
    exact ih _

theorem ctor_coord (coord : OverscaledTileID) (symbolInstances : List SymbolInstance)
    (bucketInstanceId : Nat) :
    (TileLayerIndex.ctor coord symbolInstances bucketInstanceId).coord = coord :=
  (ctor_fold_fields symbolInstances ⟨coord, bucketInstanceId, []⟩).1

theorem ctor_bucketInstanceId (coord : OverscaledTileID) (symbolInstances : List SymbolInstance)
    (bucketInstanceId : Nat) :
    (TileLayerIndex.ctor coord symbolInstances bucketInstanceId).bucketInstanceId =
      bucketInstanceId :=
  (ctor_fold_fields symbolInstances ⟨coord, bucketInstanceId, []⟩).2

/-- The early return of `addBucket` is taken exactly when an index with the
bucket's instance id is held at the tile. -/
theorem sameBucketHeld_iff (self : CrossTileSymbolLayerIndex) (tileID : OverscaledTileID)
    (bucketInstanceId : Nat) :
    sameBucketHeld
        ((mapFind (mapSubscript zoomLt self.indexes tileID.overscaledZ []) tileID.overscaledZ).getD
          []) tileID bucketInstanceId = true ↔
      ∃ idx, self.held tileID = some idx ∧ idx.bucketInstanceId = bucketInstanceId := by
  rw [mapFind_mapSubscript_self]
  unfold CrossTileSymbolLayerIndex.held CrossTileSymbolLayerIndex.heldAt sameBucketHeld
  cases h : mapFind self.indexes tileID.overscaledZ with
  | none => simp [mapFind]
  | some zoomIndexes =>
    simp only [Option.getD_some]
    cases h2 : mapFind zoomIndexes tileID with
    | none => simp
    | some previousIndex => simp

theorem addBucket_changed_iff (self : CrossTileSymbolLayerIndex) (tileID : OverscaledTileID)
    (bucket : SymbolBucket) (maxCrossTileID : Nat) :
    (self.addBucket tileID bucket maxCrossTileID).changed = true ↔
      ¬ ∃ idx, self.held tileID = some idx ∧ idx.bucketInstanceId = bucket.bucketInstanceId := by
  rw [← sameBucketHeld_iff]
  unfold CrossTileSymbolLayerIndex.addBucket
  simp only []
  split <;> simp_all

theorem scanZoom_nil (tileID : OverscaledTileID) (zoom : Nat)
    (symbolInstances : List SymbolInstance) :
    scanZoom tileID zoom [] symbolInstances = symbolInstances := by
  unfold scanZoom
  split <;> rfl

theorem scanIndexes_cons (it : Nat × List (OverscaledTileID × TileLayerIndex))
    (indexes : List (Nat × List (OverscaledTileID × TileLayerIndex)))
    (tileID : OverscaledTileID) (symbolInstances : List SymbolInstance) :
    scanIndexes (it :: indexes) tileID symbolInstances =
      scanIndexes indexes tileID (scanZoom tileID it.1 it.2 symbolInstances) := rfl

/-- An added empty zoom level contributes nothing to the scan. -/
theorem scanIndexes_mapInsertSorted_nil
    (indexes : List (Nat × List (OverscaledTileID × TileLayerIndex))) (zoom : Nat)
    (tileID : OverscaledTileID) (symbolInstances : List SymbolInstance) :
    scanIndexes (mapInsertSorted zoomLt indexes zoom []) tileID symbolInstances =
      scanIndexes indexes tileID symbolInstances := by
  induction indexes generalizing symbolInstances with
  | nil =>
    simp only [mapInsertSorted, scanIndexes_cons, scanZoom_nil]
  | cons e m ih =>
    unfold mapInsertSorted
    split
    · simp only [scanIndexes_cons, scanZoom_nil]
    · simp only [scanIndexes_cons, ih]

theorem scanIndexes_mapSubscript
    (indexes : List (Nat × List (OverscaledTileID × TileLayerIndex))) (zoom : Nat)
    (tileID : OverscaledTileID) (symbolInstances : List SymbolInstance) :
    scanIndexes (mapSubscript zoomLt indexes zoom []) tileID symbolInstances =
      scanIndexes indexes tileID symbolInstances := by
  unfold mapSubscript mapEmplace
  split
  · rfl
  · exact scanIndexes_mapInsertSorted_nil indexes zoom tileID symbolInstances

/-- The result of `addBucket` when the early return is not taken. -/
theorem addBucket_of_changed (self : CrossTileSymbolLayerIndex) (tileID : OverscaledTileID)
    (bucket : SymbolBucket) (maxCrossTileID : Nat)
    (h : (self.addBucket tileID bucket maxCrossTileID).changed = true) :
    self.addBucket tileID bucket maxCrossTileID =
      ⟨true,
        ⟨replaceIndex (mapSubscript zoomLt self.indexes tileID.overscaledZ []) tileID
          (TileLayerIndex.ctor tileID
            (assignNewIDs (self.afterScan tileID bucket) maxCrossTileID).1
            bucket.bucketInstanceId)⟩,
        { bucket with
          symbolInstances := (assignNewIDs (self.afterScan tileID bucket) maxCrossTileID).1 },
        (assignNewIDs (self.afterScan tileID bucket) maxCrossTileID).2⟩ := by
  unfold CrossTileSymbolLayerIndex.addBucket at h ⊢
  simp only [] at h ⊢
  split
  · rename_i h2; simp [h2] at h
  · simp only [CrossTileSymbolLayerIndex.afterScan, scanIndexes_mapSubscript]

/-- The result of `addBucket` when the early return is taken: nothing moves. -/
theorem addBucket_of_unchanged (self : CrossTileSymbolLayerIndex) (tileID : OverscaledTileID)
    (bucket : SymbolBucket) (maxCrossTileID : Nat)
    (h : (self.addBucket tileID bucket maxCrossTileID).changed = false) :
    self.addBucket tileID bucket maxCrossTileID = ⟨false, self, bucket, maxCrossTileID⟩ := by
  have hheld : ∃ idx, self.held tileID = some idx ∧
      idx.bucketInstanceId = bucket.bucketInstanceId := by
    by_contra hc
    rw [(addBucket_changed_iff self tileID bucket maxCrossTileID).2 hc] at h
    exact Bool.noConfusion h
  obtain ⟨idx, hidx, hid⟩ := hheld
  have hs := (sameBucketHeld_iff self tileID bucket.bucketInstanceId).2 ⟨idx, hidx, hid⟩
  unfold CrossTileSymbolLayerIndex.held CrossTileSymbolLayerIndex.heldAt at hidx
  cases hz : mapFind self.indexes tileID.overscaledZ with
  | none => simp [hz] at hidx
  | some zoomIndexes =>
    have hsub := mapSubscript_of_present zoomLt self.indexes _ [] zoomIndexes hz
    rw [hsub] at hs
    unfold CrossTileSymbolLayerIndex.addBucket
    simp only [hsub, hs, if_true]

theorem getScaledCoordinates_coord (a b : TileLayerIndex) (h : a.coord = b.coord)
    (s : SymbolInstance) (c : OverscaledTileID) :
    a.getScaledCoordinates s c = b.getScaledCoordinates s c := by
  unfold TileLayerIndex.getScaledCoordinates
  rw [h]

/-- What the constructor loop stores under a key: the records of the instances
with that key, in order, after whatever the accumulator held. -/
theorem ctor_fold_find (symbolInstances : List SymbolInstance) (acc : TileLayerIndex)
    (k : List Nat) :
    mapFind (symbolInstances.foldl TileLayerIndex.indexInstance acc).indexedSymbolInstances k =
    if (symbolInstances.filter (fun s => decide (s.key = k))).map (recordOf acc.coord) = [] then
      mapFind acc.indexedSymbolInstances k
    else
      some ((mapFind acc.indexedSymbolInstances k).getD [] ++
        (symbolInstances.filter (fun s => decide (s.key = k))).map (recordOf acc.coord)) := by
  induction symbolInstances generalizing acc with
  | nil => simp
  | cons s rest ih =>
    simp only [List.foldl_cons]
    rw [ih (acc.indexInstance s)]
    have hrec : acc.getScaledCoordinates s acc.coord =
        (TileLayerIndex.mk acc.coord 0 []).getScaledCoordinates s acc.coord :=
      getScaledCoordinates_coord _ _ rfl s acc.coord
    have hc : (acc.indexInstance s).coord = acc.coord := rfl
    rw [hc]
    by_cases hk : s.key = k
    · subst hk
      simp only [TileLayerIndex.indexInstance, mapFind_mapModify, if_true,
        mapFind_mapSubscript_self, Option.map_some',
        List.filter_cons, decide_True, List.map_cons, Option.getD_some, hrec, recordOf]
      split
      · rename_i h; simp [h]
      · simp
    · have hk' : ¬ k = s.key := fun h => hk h.symm
      simp only [TileLayerIndex.indexInstance, mapFind_mapModify, hk', if_false,
        mapFind_mapSubscript_ne keyLt _ [] hk', List.filter_cons, hk, decide_False]
      rfl

theorem ctor_find (coord : OverscaledTileID) (symbolInstances : List SymbolInstance)
    (bucketInstanceId : Nat) (k : List Nat) :
    mapFind (TileLayerIndex.ctor coord symbolInstances bucketInstanceId).indexedSymbolInstances k =
      if (symbolInstances.filter (fun s => decide (s.key = k))).map (recordOf coord) = [] then none
      else some ((symbolInstances.filter (fun s => decide (s.key = k))).map (recordOf coord)) := by
  unfold TileLayerIndex.ctor
  rw [ctor_fold_find symbolInstances ⟨coord, bucketInstanceId, []⟩ k]
  simp [mapFind]

/-- After a call that did not return early, the index held at the tile is
the one rebuilt from the bucket. -/
theorem held_addBucket (self : CrossTileSymbolLayerIndex) (tileID : OverscaledTileID)
    (bucket : SymbolBucket) (maxCrossTileID : Nat)
    (h : (self.addBucket tileID bucket maxCrossTileID).changed = true) :
    (self.addBucket tileID bucket maxCrossTileID).self.held tileID =
      some (TileLayerIndex.ctor tileID
        (self.addBucket tileID bucket maxCrossTileID).bucket.symbolInstances
        bucket.bucketInstanceId) := by
  rw [addBucket_of_changed self tileID bucket maxCrossTileID h]
  simp only [CrossTileSymbolLayerIndex.held, CrossTileSymbolLayerIndex.heldAt,
    mapFind_replaceIndex, if_true, mapFind_mapEmplace_self, mapFind_mapErase_self,
    Option.getD_none]

/-- Every other entry is as it was. -/
theorem heldAt_addBucket_ne (self : CrossTileSymbolLayerIndex) (tileID : OverscaledTileID)
    (bucket : SymbolBucket) (maxCrossTileID : Nat) (zoom : Nat) (t : OverscaledTileID)
    (hne : zoom ≠ tileID.overscaledZ ∨ t ≠ tileID) :
    (self.addBucket tileID bucket maxCrossTileID).self.heldAt zoom t = self.heldAt zoom t := by
  cases h : (self.addBucket tileID bucket maxCrossTileID).changed with
  | false => rw [addBucket_of_unchanged self tileID bucket maxCrossTileID h]
  | true =>
    rw [addBucket_of_changed self tileID bucket maxCrossTileID h]
    simp only [CrossTileSymbolLayerIndex.heldAt, mapFind_replaceIndex]
    by_cases hz : zoom = tileID.overscaledZ
    · subst hz
      have ht : t ≠ tileID := by
        rcases hne with h1 | h1
        · exact absurd rfl h1
        · exact h1
      simp only [if_true, mapFind_mapEmplace_ne _ _ _ ht, mapFind_mapErase_ne _ ht,
        mapFind_mapSubscript_self]
      cases mapFind self.indexes tileID.overscaledZ <;> simp [mapFind]
    · simp only [hz, if_false, mapFind_mapSubscript_ne zoomLt _ [] hz]

/-- C2: a second `addBucket` with the same tile and the bucket as the first
call left it returns false and leaves the held indexes, the bucket (every
identity) and the counter as they were after the first call. -/
theorem addBucket_idempotent (self : CrossTileSymbolLayerIndex) (tileID : OverscaledTileID)
    (bucket : SymbolBucket) (maxCrossTileID : Nat) :
    (self.addBucket tileID bucket maxCrossTileID).self.addBucket tileID
        (self.addBucket tileID bucket maxCrossTileID).bucket
        (self.addBucket tileID bucket maxCrossTileID).maxCrossTileID =
      ⟨false, (self.addBucket tileID bucket maxCrossTileID).self,
        (self.addBucket tileID bucket maxCrossTileID).bucket,
        (self.addBucket tileID bucket maxCrossTileID).maxCrossTileID⟩ := by
  apply addBucket_of_unchanged
  cases h : (self.addBucket tileID bucket maxCrossTileID).changed with
  | false =>
    rw [addBucket_of_unchanged self tileID bucket maxCrossTileID h]
    exact h
  | true =>
    have hheld := held_addBucket self tileID bucket maxCrossTileID h
    have hb : (self.addBucket tileID bucket maxCrossTileID).bucket.bucketInstanceId =
        bucket.bucketInstanceId := by
      rw [addBucket_of_changed self tileID bucket maxCrossTileID h]
    by_contra hc
    have hc' := (addBucket_changed_iff _ tileID _ _).1 (by simpa using hc)
    exact hc' ⟨_, hheld, by rw [ctor_bucketInstanceId, hb]⟩

/-- C9: after `addBucket` returns true, the index held at the tile has the
tile as coordinate and the bucket's generation id and stores, under each key,
exactly the records (final identity, anchor quantized on the tile's own grid)
of the bucket's instances with that key, in bucket order (no entry for a key
that no instance has); the index held at any other coordinate or zoom is what
it was before the call. -/
theorem addBucket_replaces_own_entry (self : CrossTileSymbolLayerIndex)
    (tileID : OverscaledTileID) (bucket : SymbolBucket) (maxCrossTileID : Nat)
    (h : (self.addBucket tileID bucket maxCrossTileID).changed = true) :
    (∃ idx, (self.addBucket tileID bucket maxCrossTileID).self.held tileID = some idx ∧
      idx.coord = tileID ∧ idx.bucketInstanceId = bucket.bucketInstanceId ∧
      ∀ k, mapFind idx.indexedSymbolInstances k =
        if ((self.addBucket tileID bucket maxCrossTileID).bucket.symbolInstances.filter
            (fun s => decide (s.key = k))).map (recordOf tileID) = [] then none
        else some (((self.addBucket tileID bucket maxCrossTileID).bucket.symbolInstances.filter
            (fun s => decide (s.key = k))).map (recordOf tileID))) ∧
    ∀ zoom t, (zoom ≠ tileID.overscaledZ ∨ t ≠ tileID) →
      (self.addBucket tileID bucket maxCrossTileID).self.heldAt zoom t = self.heldAt zoom t :=
  ⟨⟨_, held_addBucket self tileID bucket maxCrossTileID h, ctor_coord _ _ _,
      ctor_bucketInstanceId _ _ _, fun k => ctor_find _ _ _ k⟩,
    fun zoom t hne => heldAt_addBucket_ne self tileID bucket maxCrossTileID zoom t hne⟩

/-! ## Lengths, and the hand-out of fresh identities -/

theorem findMatches_length (self : TileLayerIndex) (symbolInstances : List SymbolInstance)
    (newCoord : OverscaledTileID) :
    (self.findMatches symbolInstances newCoord).length = symbolInstances.length := by
  simp [TileLayerIndex.findMatches]

theorem scanZoom_length (tileID : OverscaledTileID) (zoom : Nat)
    (zoomIndexes : List (OverscaledTileID × TileLayerIndex))
    (symbolInstances : List SymbolInstance) :
    (scanZoom tileID zoom zoomIndexes symbolInstances).length = symbolInstances.length := by
  unfold scanZoom
  split
  · induction zoomIndexes generalizing symbolInstances with
    | nil => rfl
    | cons e m ih =>
      simp only [List.foldl_cons]
      rw [ih]
      split
      · exact findMatches_length _ _ _
      · rfl
  · split
    · exact findMatches_length _ _ _
    · rfl

theorem scanIndexes_length (indexes : List (Nat × List (OverscaledTileID × TileLayerIndex)))
    (tileID : OverscaledTileID) (symbolInstances : List SymbolInstance) :
    (scanIndexes indexes tileID symbolInstances).length = symbolInstances.length := by
  induction indexes generalizing symbolInstances with
  | nil => rfl
  | cons e m ih => rw [scanIndexes_cons, ih, scanZoom_length]

theorem afterScan_length (self : CrossTileSymbolLayerIndex) (tileID : OverscaledTileID)
    (bucket : SymbolBucket) :
    (self.afterScan tileID bucket).length = bucket.symbolInstances.length := by
  simp [CrossTileSymbolLayerIndex.afterScan, scanIndexes_length, clearIDs]

theorem countUnassigned_le_length (l : List SymbolInstance) : countUnassigned l ≤ l.length :=
  List.length_filter_le _ l

theorem countUnassigned_cons (s : SymbolInstance) (l : List SymbolInstance) :
    countUnassigned (s :: l) = (if s.crossTileID = 0 then 1 else 0) + countUnassigned l := by
  unfold countUnassigned
  by_cases h : s.crossTileID = 0
  · simp [List.filter_cons, h]; omega
  · simp [List.filter_cons, h]

theorem assignNewIDs_length (l : List SymbolInstance) (c : Nat) :
    (assignNewIDs l c).1.length = l.length := by
  induction l generalizing c with
  | nil => rfl
  | cons s rest ih =>
    unfold assignNewIDs
    split <;> simp [ih]

/-- Without overflow the counter grows by the number of instances that the
scan left without identity. -/
theorem assignNewIDs_counter (l : List SymbolInstance) (c : Nat)
    (hc : c + countUnassigned l < 2 ^ 32) : (assignNewIDs l c).2 = c + countUnassigned l := by
  induction l generalizing c with
  | nil => simp [assignNewIDs, countUnassigned]
  | cons s rest ih =>
    rw [countUnassigned_cons] at hc ⊢
    unfold assignNewIDs
    by_cases h : s.crossTileID = 0
    · simp only [h, if_true] at hc ⊢
      have hmod : (c + 1) % 2 ^ 32 = c + 1 := Nat.mod_eq_of_lt (by omega)
      rw [hmod, ih (c + 1) (by omega)]
      omega
    · simp only [h, if_false] at hc ⊢
      rw [ih c (by omega)]
      omega

/-- Without overflow the instance at position `i` keeps a non-zero identity
and otherwise receives the counter value plus its rank among the instances
without identity. -/
theorem assignNewIDs_getElem? (l : List SymbolInstance) (c : Nat)
    (hc : c + countUnassigned l < 2 ^ 32) (i : Nat) :
    (assignNewIDs l c).1[i]? =
      (l[i]?).map (fun s =>
        if s.crossTileID = 0 then
          { s with crossTileID := c + 1 + countUnassigned (l.take i) }
        else s) := by
  induction l generalizing c i with
  | nil => simp [assignNewIDs]
  | cons s rest ih =>
    rw [countUnassigned_cons] at hc
    unfold assignNewIDs
    by_cases h : s.crossTileID = 0
    · simp only [h, if_true] at hc ⊢
      have hmod : (c + 1) % 2 ^ 32 = c + 1 := Nat.mod_eq_of_lt (by omega)
      rw [hmod]
      cases i with
      | zero => simp [h, countUnassigned]
      | succ j =>
        simp only [List.getElem?_cons_succ, List.take_succ_cons]
        rw [ih (c + 1) (by omega) j, countUnassigned_cons]
        simp only [h, if_true]
        congr 1
        funext t
        split
        · congr 1; omega
        · rfl
    · simp only [h, if_false] at hc ⊢
      cases i with
      | zero => simp [h]
      | succ j =>
        simp only [List.getElem?_cons_succ, List.take_succ_cons]
        rw [ih c (by omega) j, countUnassigned_cons]
        simp only [h, if_false, Nat.zero_add]

theorem assignNewIDs_nonzero (l : List SymbolInstance) (c : Nat)
    (hc : c + countUnassigned l < 2 ^ 32) :
    ∀ s ∈ (assignNewIDs l c).1, s.crossTileID ≠ 0 := by
  induction l generalizing c with
  | nil => simp [assignNewIDs]
  | cons s rest ih =>
    rw [countUnassigned_cons] at hc
    unfold assignNewIDs
    by_cases h : s.crossTileID = 0
    · simp only [h, if_true] at hc ⊢
      have hmod : (c + 1) % 2 ^ 32 = c + 1 := Nat.mod_eq_of_lt (by omega)
      rw [hmod]
      intro t ht
      rcases List.mem_cons.1 ht with ht | ht
      · subst ht; simp
      · exact ih (c + 1) (by omega) t ht
    · simp only [h, if_false] at hc ⊢
      intro t ht
      rcases List.mem_cons.1 ht with ht | ht
      · subst ht; exact h
      · exact ih c (by omega) t ht

/-- C3: when `addBucket` does not return early and `c + n < 2 ^ 32`, with `n`
the number of instances the scan left without identity, the counter on exit
is `c + n` (so it does not decrease and only unmatched instances advance it);
an instance the scan matched keeps the identity the scan gave it, and the
`k`-th unmatched instance in bucket order receives `c + k`. -/
theorem addBucket_fresh_consecutive (self : CrossTileSymbolLayerIndex)
    (tileID : OverscaledTileID) (bucket : SymbolBucket) (c : Nat)
    (h : (self.addBucket tileID bucket c).changed = true)
    (hc : c + countUnassigned (self.afterScan tileID bucket) < 2 ^ 32) :
    (self.addBucket tileID bucket c).maxCrossTileID =
      c + countUnassigned (self.afterScan tileID bucket) ∧
    c ≤ (self.addBucket tileID bucket c).maxCrossTileID ∧
    (self.addBucket tileID bucket c).bucket.symbolInstances.length =
      bucket.symbolInstances.length ∧
    ∀ (i : Nat) (s : SymbolInstance), (self.afterScan tileID bucket)[i]? = some s →
      (self.addBucket tileID bucket c).bucket.symbolInstances[i]? =
        some (if s.crossTileID = 0 then
          { s with crossTileID := c + 1 + countUnassigned ((self.afterScan tileID bucket).take i) }
        else s) := by
  rw [addBucket_of_changed self tileID bucket c h]
  simp only []
  refine ⟨assignNewIDs_counter _ _ hc, ?_, ?_, ?_⟩
  · rw [assignNewIDs_counter _ _ hc]; omega
  · rw [assignNewIDs_length, afterScan_length]
  · intro i s hs
    rw [assignNewIDs_getElem? _ _ hc, hs]
    rfl

/-- C8: `addBucket` returns true exactly when no index with the bucket's
generation id is held at the tile on entry; and when it returns true and
`counter + number of instances < 2 ^ 32`, the bucket keeps its length and
every instance has a non-zero identity on return. -/
theorem addBucket_fully_identifies (self : CrossTileSymbolLayerIndex)
    (tileID : OverscaledTileID) (bucket : SymbolBucket) (c : Nat) :
    ((self.addBucket tileID bucket c).changed = true ↔
      ¬ ∃ idx, self.held tileID = some idx ∧ idx.bucketInstanceId = bucket.bucketInstanceId) ∧
    ((self.addBucket tileID bucket c).changed = true →
      c + bucket.symbolInstances.length < 2 ^ 32 →
      (self.addBucket tileID bucket c).bucket.symbolInstances.length =
        bucket.symbolInstances.length ∧
      ∀ s ∈ (self.addBucket tileID bucket c).bucket.symbolInstances, s.crossTileID ≠ 0) := by
  refine ⟨addBucket_changed_iff self tileID bucket c, ?_⟩
  intro h hc
  have hn : c + countUnassigned (self.afterScan tileID bucket) < 2 ^ 32 := by
    have := countUnassigned_le_length (self.afterScan tileID bucket)
    rw [afterScan_length] at this
    omega
  rw [addBucket_of_changed self tileID bucket c h]
  exact ⟨by simp only [assignNewIDs_length, afterScan_length], assignNewIDs_nonzero _ _ hn⟩

/-! ## The scan of `addBucket`, instance by instance -/

theorem scanZoom_eq_foldl (tileID : OverscaledTileID) (zoom : Nat)
    (zoomIndexes : List (OverscaledTileID × TileLayerIndex))
    (symbolInstances : List SymbolInstance) :
    scanZoom tileID zoom zoomIndexes symbolInstances =
      (scannedAtZoom tileID zoom zoomIndexes).foldl (fun acc idx => idx.findMatches acc tileID)
        symbolInstances := by
  unfold scanZoom scannedAtZoom
  split
  · induction zoomIndexes generalizing symbolInstances with
    | nil => rfl
    | cons e m ih =>
      simp only [List.foldl_cons, List.filter_cons]
      split
      · simp only [List.map_cons, List.foldl_cons]; exact ih _
      · exact ih _
  · cases mapFind zoomIndexes (tileID.scaledTo zoom) <;> rfl

theorem scanIndexes_eq_foldl (indexes : List (Nat × List (OverscaledTileID × TileLayerIndex)))
    (tileID : OverscaledTileID) (symbolInstances : List SymbolInstance) :
    scanIndexes indexes tileID symbolInstances =
      (scannedIndexes indexes tileID).foldl (fun acc idx => idx.findMatches acc tileID)
        symbolInstances := by
  induction indexes generalizing symbolInstances with
  | nil => rfl
  | cons e m ih =>
    rw [scanIndexes_cons, ih, scanZoom_eq_foldl]
    simp only [scannedIndexes, List.flatMap_cons, List.foldl_append]

theorem foldl_findMatches_eq_map (scanned : List TileLayerIndex) (tileID : OverscaledTileID)
    (symbolInstances : List SymbolInstance) :
    scanned.foldl (fun acc idx => idx.findMatches acc tileID) symbolInstances =
      symbolInstances.map (matchAll scanned tileID) := by
  induction scanned generalizing symbolInstances with
  | nil =>
    have h : matchAll [] tileID = id := rfl
    simp [h]
  | cons idx rest ih =>
    simp only [List.foldl_cons]
    rw [ih]
    simp [TileLayerIndex.findMatches, matchAll]

/-- The scan, read off instance by instance. -/
theorem afterScan_eq_map (self : CrossTileSymbolLayerIndex) (tileID : OverscaledTileID)
    (bucket : SymbolBucket) :
    self.afterScan tileID bucket =
      bucket.symbolInstances.map (fun s =>
        matchAll (scannedIndexes self.indexes tileID) tileID { s with crossTileID := 0 }) := by
  unfold CrossTileSymbolLayerIndex.afterScan
  rw [scanIndexes_eq_foldl, foldl_findMatches_eq_map]
  simp [clearIDs]

theorem mapFind_mem {K V : Type} [DecidableEq K] (m : List (K × V)) (k : K) (v : V)
    (h : mapFind m k = some v) : (k, v) ∈ m := by
  induction m with
  | nil => simp [mapFind] at h
  | cons e m ih =>
    obtain ⟨ek, ev⟩ := e
    by_cases hk : ek = k
    · subst hk
      simp only [mapFind, if_true, Option.some.injEq] at h
      subst h
      exact List.mem_cons_self _ _
    · simp only [mapFind, hk, if_false] at h
      exact List.mem_cons_of_mem _ (ih h)

theorem mem_scannedIndexes_iff (self : CrossTileSymbolLayerIndex) (tileID : OverscaledTileID)
    (idx : TileLayerIndex) :
    idx ∈ scannedIndexes self.indexes tileID ↔ ∃ zoom, Scanned self tileID zoom idx := by
  unfold scannedIndexes Scanned
  rw [List.mem_flatMap]
  constructor
  · rintro ⟨⟨zoom, zoomIndexes⟩, hmem, hidx⟩
    refine ⟨zoom, zoomIndexes, hmem, ?_⟩
    unfold scannedAtZoom at hidx
    by_cases hz : zoom > tileID.overscaledZ
    · simp only [hz, if_true, List.mem_map, List.mem_filter] at hidx
      obtain ⟨⟨t, idx'⟩, ⟨hm, hc⟩, heq⟩ := hidx
      simp only at heq hc
      subst heq
      exact Or.inr ⟨hz, hc, t, hm⟩
    · simp only [hz, if_false, Option.mem_toList, Option.mem_def] at hidx
      exact Or.inl ⟨by omega, hidx⟩
  · rintro ⟨zoom, zoomIndexes, hmem, h⟩
    refine ⟨(zoom, zoomIndexes), hmem, ?_⟩
    unfold scannedAtZoom
    rcases h with ⟨hz, hfind⟩ | ⟨hz, hc, t, hm⟩
    · have hz' : ¬ zoom > tileID.overscaledZ := by omega
      simp only [hz', if_false, Option.mem_toList, Option.mem_def]
      exact hfind
    · simp only [hz, if_true, List.mem_map, List.mem_filter]
      exact ⟨(t, idx), ⟨hm, hc⟩, rfl⟩

theorem matchOne_of_nonzero (idx : TileLayerIndex) (tileID : OverscaledTileID)
    (s : SymbolInstance) (h : s.crossTileID ≠ 0) : idx.matchOne tileID s = s := by
  simp [TileLayerIndex.matchOne, h]

theorem matchAll_of_nonzero (scanned : List TileLayerIndex) (tileID : OverscaledTileID)
    (s : SymbolInstance) (h : s.crossTileID ≠ 0) : matchAll scanned tileID s = s := by
  induction scanned with
  | nil => rfl
  | cons idx rest ih =>
    simp only [matchAll, List.foldl_cons] at ih ⊢
    rw [matchOne_of_nonzero idx tileID s h]
    exact ih

theorem matchAll_key (scanned : List TileLayerIndex) (tileID : OverscaledTileID)
    (s : SymbolInstance) :
    (matchAll scanned tileID s).key = s.key ∧ (matchAll scanned tileID s).anchor = s.anchor := by
  induction scanned generalizing s with
  | nil => exact ⟨rfl, rfl⟩
  | cons idx rest ih =>
    simp only [matchAll, List.foldl_cons] at ih ⊢
    rw [(ih _).1, (ih _).2]
    exact matchOne_key idx tileID s

theorem firstMatch_some (tolerance : Nat) (sc : Point Int) (records : List IndexedSymbolInstance)
    (id : Nat) (h : firstMatch tolerance sc records = some id) :
    ∃ r ∈ records, withinTolerance tolerance r sc = true ∧ r.crossTileID = id := by
  induction records with
  | nil => simp [firstMatch] at h
  | cons a rest ih =>
    unfold firstMatch at h
    by_cases ha : withinTolerance tolerance a sc = true
    · simp only [ha, if_true, Option.some.injEq] at h
      exact ⟨a, List.mem_cons_self _ _, ha, h⟩
    · simp only [ha] at h
      obtain ⟨r, hr, hw, hid⟩ := ih h
      exact ⟨r, List.mem_cons_of_mem _ hr, hw, hid⟩

theorem firstMatch_isSome (tolerance : Nat) (sc : Point Int)
    (records : List IndexedSymbolInstance) (r : IndexedSymbolInstance) (hr : r ∈ records)
    (hw : withinTolerance tolerance r sc = true) :
    ∃ id, firstMatch tolerance sc records = some id := by
  cases h : firstMatch tolerance sc records with
  | some id => exact ⟨id, rfl⟩
  | none =>
    exfalso
    induction records with
    | nil => simp at hr
    | cons a rest ih =>
      unfold firstMatch at h
      by_cases ha : withinTolerance tolerance a sc = true
      · simp [ha] at h
      · simp only [ha] at h
        rcases List.mem_cons.1 hr with hr | hr
        · subst hr; exact ha hw
        · exact ih hr h

/-- One call to `findMatches`, seen from an instance without identity: either
the instance is returned as it was and the index stores no record matching it,
or it receives the identity of a record matching it. -/
theorem matchOne_cases (idx : TileLayerIndex) (tileID : OverscaledTileID) (s : SymbolInstance)
    (h0 : s.crossTileID = 0) :
    (idx.matchOne tileID s = s ∧ ∀ r, ¬ MatchesRecord idx tileID s r) ∨
    (∃ r, MatchesRecord idx tileID s r ∧
      idx.matchOne tileID s = { s with crossTileID := r.crossTileID }) := by
  unfold TileLayerIndex.matchOne MatchesRecord
  simp only [h0, ne_eq, not_true_eq_false, if_false]
  cases hfind : mapFind idx.indexedSymbolInstances s.key with
  | none => left; simp
  | some records =>
    cases hfm : firstMatch (idx.tolerance tileID) (idx.getScaledCoordinates s tileID) records with
    | none =>
      left
      refine ⟨by simp only [hfm], ?_⟩
      rintro r ⟨records', hrec, hr, hw⟩
      simp only [Option.some.injEq] at hrec
      subst hrec
      obtain ⟨id, hid⟩ := firstMatch_isSome _ _ _ r hr hw
      rw [hfm] at hid
      exact Option.noConfusion hid
    | some id =>
      right
      obtain ⟨r, hr, hw, hid⟩ := firstMatch_some _ _ _ _ hfm
      exact ⟨r, ⟨records, rfl, hr, hw⟩, by simp only [hfm, hid]⟩

theorem MatchesRecord_congr (idx : TileLayerIndex) (tileID : OverscaledTileID)
    (s s' : SymbolInstance) (hk : s'.key = s.key) (ha : s'.anchor = s.anchor)
    (r : IndexedSymbolInstance) :
    MatchesRecord idx tileID s' r ↔ MatchesRecord idx tileID s r := by
  unfold MatchesRecord TileLayerIndex.getScaledCoordinates
  rw [hk, ha]

/-- Where the identity that the scan leaves on an instance comes from: it is
0, or the identity of a record matching the instance in a scanned index. -/
theorem matchAll_origin (scanned : List TileLayerIndex) (tileID : OverscaledTileID)
    (s : SymbolInstance) (h0 : s.crossTileID = 0) :
    (matchAll scanned tileID s).crossTileID = 0 ∨
      ∃ idx ∈ scanned, ∃ r, MatchesRecord idx tileID s r ∧
        (matchAll scanned tileID s).crossTileID = r.crossTileID := by
  induction scanned generalizing s with
  | nil => left; exact h0
  | cons idx rest ih =>
    have hstep : matchAll (idx :: rest) tileID s = matchAll rest tileID (idx.matchOne tileID s) :=
      rfl
    rw [hstep]
    rcases matchOne_cases idx tileID s h0 with ⟨hsame, _⟩ | ⟨r, hr, hset⟩
    · rw [hsame]
      rcases ih s h0 with h | ⟨idx', hmem, r, hr, hid⟩
      · exact Or.inl h
      · exact Or.inr ⟨idx', List.mem_cons_of_mem _ hmem, r, hr, hid⟩
    · rw [hset]
      by_cases hz : r.crossTileID = 0
      · have hs : ({ s with crossTileID := r.crossTileID } : SymbolInstance) = s := by
          cases s; simp_all
        rw [hs]
        rcases ih s h0 with h | ⟨idx', hmem, r', hr', hid⟩
        · exact Or.inl h
        · exact Or.inr ⟨idx', List.mem_cons_of_mem _ hmem, r', hr', hid⟩
      · rw [matchAll_of_nonzero rest tileID _ hz]
        exact Or.inr ⟨idx, List.mem_cons_self _ _, r, hr, rfl⟩

/-- When some scanned index stores a record matching the instance and no
matching record has identity 0, the scan leaves a non-zero identity. -/
theorem matchAll_nonzero (scanned : List TileLayerIndex) (tileID : OverscaledTileID)
    (s : SymbolInstance) (h0 : s.crossTileID = 0)
    (hex : ∃ idx ∈ scanned, ∃ r, MatchesRecord idx tileID s r)
    (hnz : ∀ idx ∈ scanned, ∀ r, MatchesRecord idx tileID s r → r.crossTileID ≠ 0) :
    (matchAll scanned tileID s).crossTileID ≠ 0 := by
  induction scanned generalizing s with
  | nil => obtain ⟨idx, hmem, _⟩ := hex; simp at hmem
  | cons idx rest ih =>
    have hstep : matchAll (idx :: rest) tileID s = matchAll rest tileID (idx.matchOne tileID s) :=
      rfl
    rw [hstep]
    rcases matchOne_cases idx tileID s h0 with ⟨hsame, hnone⟩ | ⟨r, hr, hset⟩
    · rw [hsame]
      apply ih s h0
      · obtain ⟨idx', hmem, r, hr⟩ := hex
        rcases List.mem_cons.1 hmem with hm | hm
        · subst hm; exact absurd hr (hnone r)
        · exact ⟨idx', hm, r, hr⟩
      · exact fun idx' hm r hr => hnz idx' (List.mem_cons_of_mem _ hm) r hr
    · rw [hset]
      have hz : r.crossTileID ≠ 0 := hnz idx (List.mem_cons_self _ _) r hr
      rw [matchAll_of_nonzero rest tileID _ hz]
      exact hz

theorem assignNewIDs_keep (l : List SymbolInstance) (c : Nat) (i : Nat) (s : SymbolInstance)
    (hs : l[i]? = some s) (hnz : s.crossTileID ≠ 0) : (assignNewIDs l c).1[i]? = some s := by
  induction l generalizing c i with
  | nil => simp at hs
  | cons a rest ih =>
    unfold assignNewIDs
    cases i with
    | zero =>
      simp only [List.getElem?_cons_zero, Option.some.injEq] at hs
      subst hs
      simp [hnz]
    | succ j =>
      simp only [List.getElem?_cons_succ] at hs
      split
      · simp only [List.getElem?_cons_succ]; exact ih _ j hs
      · simp only [List.getElem?_cons_succ]; exact ih _ j hs

/-! ## Stability across resolution -/

/-- C1 (amended): let `addBucket` not return early, let `s` be the instance at
position `i` of the bucket, and let some scanned index store a record matching
`s` (same key, within tolerance on both axes of the rescaled anchor). If no
record matching `s` in a scanned index has identity 0, then the scan already
gives `s` its final identity, which is non-zero and is the identity of a
record matching `s` in a scanned index (the counter is not used for `s`); and
when all matching records in scanned indexes carry one identity, in particular
when there is only one, `s` carries exactly that identity. -/
theorem addBucket_stability (self : CrossTileSymbolLayerIndex) (tileID : OverscaledTileID)
    (bucket : SymbolBucket) (c : Nat) (i : Nat) (s : SymbolInstance) (zoom : Nat)
    (idx : TileLayerIndex) (r : IndexedSymbolInstance)
    (hchanged : (self.addBucket tileID bucket c).changed = true)
    (hs : bucket.symbolInstances[i]? = some s)
    (hscanned : Scanned self tileID zoom idx)
    (hr : MatchesRecord idx tileID s r)
    (hnz : ∀ zoom' idx' r', Scanned self tileID zoom' idx' → MatchesRecord idx' tileID s r' →
      r'.crossTileID ≠ 0) :
    ∃ o, (self.addBucket tileID bucket c).bucket.symbolInstances[i]? = some o ∧
      (self.afterScan tileID bucket)[i]? = some o ∧
      o.key = s.key ∧ o.anchor = s.anchor ∧ o.crossTileID ≠ 0 ∧
      (∃ zoom' idx' r', Scanned self tileID zoom' idx' ∧ MatchesRecord idx' tileID s r' ∧
        o.crossTileID = r'.crossTileID) ∧
      ((∀ zoom' idx' r', Scanned self tileID zoom' idx' → MatchesRecord idx' tileID s r' →
        r'.crossTileID = r.crossTileID) → o.crossTileID = r.crossTileID) := by
  have hcong : ∀ idx' r', MatchesRecord idx' tileID { s with crossTileID := 0 } r' ↔
      MatchesRecord idx' tileID s r' :=
    fun idx' r' => MatchesRecord_congr idx' tileID s _ rfl rfl r'
  have hscan : (self.afterScan tileID bucket)[i]? =
      some (matchAll (scannedIndexes self.indexes tileID) tileID { s with crossTileID := 0 }) := by
    rw [afterScan_eq_map, List.getElem?_map, hs]
    rfl
  have hne : (matchAll (scannedIndexes self.indexes tileID) tileID
      { s with crossTileID := 0 }).crossTileID ≠ 0 := by
    apply matchAll_nonzero _ _ _ rfl
    · exact ⟨idx, (mem_scannedIndexes_iff self tileID idx).2 ⟨zoom, hscanned⟩, r,
        (hcong idx r).2 hr⟩
    · intro idx' hmem r' hr'
      obtain ⟨zoom', hz⟩ := (mem_scannedIndexes_iff self tileID idx').1 hmem
      exact hnz zoom' idx' r' hz ((hcong idx' r').1 hr')
  have horigin : ∃ zoom' idx' r', Scanned self tileID zoom' idx' ∧
      MatchesRecord idx' tileID s r' ∧
      (matchAll (scannedIndexes self.indexes tileID) tileID
        { s with crossTileID := 0 }).crossTileID = r'.crossTileID := by
    rcases matchAll_origin (scannedIndexes self.indexes tileID) tileID
      { s with crossTileID := 0 } rfl with h | ⟨idx', hmem, r', hr', hid⟩
    · exact absurd h hne
    · obtain ⟨zoom', hz⟩ := (mem_scannedIndexes_iff self tileID idx').1 hmem
      exact ⟨zoom', idx', r', hz, (hcong idx' r').1 hr', hid⟩
  refine ⟨_, ?_, hscan, (matchAll_key _ _ _).1, (matchAll_key _ _ _).2, hne, horigin, ?_⟩
  · rw [addBucket_of_changed self tileID bucket c hchanged]
    exact assignNewIDs_keep _ c i _ hscan hne
  · intro hall
    obtain ⟨zoom', idx', r', hz, hr', hid⟩ := horigin
    rw [hid]
    exact hall zoom' idx' r' hz hr'

theorem scanned_exLayerA (zoom : Nat) (idx : TileLayerIndex)
    (h : Scanned exLayerA exTileB zoom idx) : idx = exIndexA := by
  have hmem := (mem_scannedIndexes_iff exLayerA exTileB idx).2 ⟨zoom, h⟩
  have hl : scannedIndexes exLayerA.indexes exTileB = [exIndexA] := by decide
  rw [hl] at hmem
  simpa using hmem

theorem matches_exIndexA (r : IndexedSymbolInstance)
    (h : MatchesRecord exIndexA exTileB exInstB r) : r = ⟨1, ⟨771, 1286⟩⟩ := by
  obtain ⟨records, hfind, hr, _⟩ := h
  have hf : mapFind exIndexA.indexedSymbolInstances exInstB.key = some [⟨1, ⟨771, 1286⟩⟩] := by
    decide
  rw [hf] at hfind
  simp only [Option.some.injEq] at hfind
  subst hfind
  simpa using hr

/-- C1 at the input of scenario 1: tile A at zoom 10 holds key `[1]` with
identity 1; the instance of its child B at zoom 11 that names the same world
point reuses identity 1. -/
theorem addBucket_stability_witness :
    ∃ o, (exLayerA.addBucket exTileB exBucketB 1).bucket.symbolInstances[0]? = some o ∧
      o.crossTileID = 1 := by
  obtain ⟨o, ho, _, _, _, _, _, huniq⟩ :=
    addBucket_stability exLayerA exTileB exBucketB 1 0 exInstB 10 exIndexA ⟨1, ⟨771, 1286⟩⟩
      (by decide) rfl
      ⟨[(exTileA, exIndexA)], by simp [exLayerA], Or.inl ⟨by decide, by decide⟩⟩
      ⟨[⟨1, ⟨771, 1286⟩⟩], by decide, by simp, by decide⟩
      (fun zoom' idx' r' hz hr' => by
        rw [scanned_exLayerA zoom' idx' hz] at hr'
        rw [matches_exIndexA r' hr']
        decide)
  refine ⟨o, ho, huniq ?_⟩
  intro zoom' idx' r' hz hr'
  rw [scanned_exLayerA zoom' idx' hz] at hr'
  rw [matches_exIndexA r' hr']

theorem scanned_exLayerZero (zoom : Nat) (idx : TileLayerIndex)
    (h : Scanned exLayerZero exTileB zoom idx) : idx = exIndexZero := by
  have hmem := (mem_scannedIndexes_iff exLayerZero exTileB idx).2 ⟨zoom, h⟩
  have hl : scannedIndexes exLayerZero.indexes exTileB = [exIndexZero] := by decide
  rw [hl] at hmem
  simpa using hmem

theorem matches_exIndexZero (r : IndexedSymbolInstance)
    (h : MatchesRecord exIndexZero exTileB exInstB r) : r = ⟨0, ⟨771, 1286⟩⟩ := by
  obtain ⟨records, hfind, hr, _⟩ := h
  have hf : mapFind exIndexZero.indexedSymbolInstances exInstB.key =
      some [⟨0, ⟨771, 1286⟩⟩] := by decide
  rw [hf] at hfind
  simp only [Option.some.injEq] at hfind
  subst hfind
  simpa using hr

/-- C1 fails as stated, for a state whose stored record carries the identity
0: tile A holds a record under key `[1]` that matches the instance of the
child tile B, `addBucket` does not return early, and yet the instance ends
with the fresh identity 42 (the counter goes from 41 to 42), which is the
identity of no matching record of a scanned index. -/
theorem addBucket_stability_counterexample :
    (exLayerZero.addBucket exTileB exBucketB 41).changed = true ∧
    exBucketB.symbolInstances[0]? = some exInstB ∧
    Scanned exLayerZero exTileB 10 exIndexZero ∧
    MatchesRecord exIndexZero exTileB exInstB ⟨0, ⟨771, 1286⟩⟩ ∧
    (exLayerZero.addBucket exTileB exBucketB 41).bucket.symbolInstances[0]? =
      some { exInstB with crossTileID := 42 } ∧
    (exLayerZero.addBucket exTileB exBucketB 41).maxCrossTileID = 42 ∧
    ¬ ∃ zoom idx r, Scanned exLayerZero exTileB zoom idx ∧ MatchesRecord idx exTileB exInstB r ∧
      42 = r.crossTileID := by
  refine ⟨by decide, rfl,
    ⟨[(exTileA, exIndexZero)], by simp [exLayerZero], Or.inl ⟨by decide, by decide⟩⟩,
    ⟨[⟨0, ⟨771, 1286⟩⟩], by decide, by simp, by decide⟩, by decide, by decide, ?_⟩
  rintro ⟨zoom, idx, r, hz, hr, hid⟩
  rw [scanned_exLayerZero zoom idx hz] at hr
  rw [matches_exIndexZero r hr] at hid
  exact absurd hid (by decide)

/-! ## `removeStaleBuckets` -/

theorem removeStaleZoom_fst (currentIDs : List Nat)
    (zoomIndexes : List (OverscaledTileID × TileLayerIndex)) (tilesChanged : Bool) :
    (removeStaleZoom currentIDs zoomIndexes tilesChanged).1 =
      zoomIndexes.filter (fun it => decide (it.2.bucketInstanceId ∈ currentIDs)) := by
  induction zoomIndexes generalizing tilesChanged with
  | nil => rfl
  | cons it rest ih =>
    unfold removeStaleZoom
    by_cases h : it.2.bucketInstanceId ∈ currentIDs
    · simp [h, List.filter_cons, ih]
    · simp [h, List.filter_cons, ih]

theorem removeStaleZoom_snd (currentIDs : List Nat)
    (zoomIndexes : List (OverscaledTileID × TileLayerIndex)) (tilesChanged : Bool) :
    (removeStaleZoom currentIDs zoomIndexes tilesChanged).2 =
      (tilesChanged || zoomIndexes.any (fun it => decide (it.2.bucketInstanceId ∉ currentIDs))) := by
  induction zoomIndexes generalizing tilesChanged with
  | nil => simp [removeStaleZoom]
  | cons it rest ih =>
    unfold removeStaleZoom
    by_cases h : it.2.bucketInstanceId ∈ currentIDs
    · simp [h, ih]
    · simp [h, ih]

theorem removeStaleLoop_fst (currentIDs : List Nat)
    (indexes : List (Nat × List (OverscaledTileID × TileLayerIndex))) (tilesChanged : Bool) :
    (removeStaleLoop currentIDs indexes tilesChanged).1 =
      indexes.map (fun zoomIndexes =>
        (zoomIndexes.1,
          zoomIndexes.2.filter (fun it => decide (it.2.bucketInstanceId ∈ currentIDs)))) := by
  induction indexes generalizing tilesChanged with
  | nil => rfl
  | cons zi rest ih =>
    unfold removeStaleLoop
    simp [removeStaleZoom_fst, ih]

theorem removeStaleLoop_snd (currentIDs : List Nat)
    (indexes : List (Nat × List (OverscaledTileID × TileLayerIndex))) (tilesChanged : Bool) :
    (removeStaleLoop currentIDs indexes tilesChanged).2 =
      (tilesChanged || indexes.any (fun zoomIndexes =>
        zoomIndexes.2.any (fun it => decide (it.2.bucketInstanceId ∉ currentIDs)))) := by
  induction indexes generalizing tilesChanged with
  | nil => simp [removeStaleLoop]
  | cons zi rest ih =>
    unfold removeStaleLoop
    simp [removeStaleZoom_snd, ih, Bool.or_assoc]

theorem mapFind_map_values {K V : Type} [DecidableEq K] (m : List (K × V)) (f : V → V) (k : K) :
    mapFind (m.map (fun e => (e.1, f e.2))) k = (mapFind m k).map f := by
  induction m with
  | nil => rfl
  | cons e m ih =>
    by_cases h : e.1 = k
    · simp [mapFind, h]
    · simp [mapFind, h, ih]

theorem mapFind_none_of_not_mem_keys {K V : Type} [DecidableEq K] (m : List (K × V)) (k : K)
    (h : k ∉ m.map Prod.fst) : mapFind m k = none := by
  induction m with
  | nil => rfl
  | cons e m ih =>
    simp only [List.map_cons, List.mem_cons, not_or] at h
    have h1 : ¬ e.1 = k := fun h2 => h.1 h2.symm
    simp only [mapFind, h1, if_false]
    exact ih h.2

theorem mapFind_filter_of_nodup {K V : Type} [DecidableEq K] (m : List (K × V))
    (p : K × V → Bool) (k : K) (hnd : (m.map Prod.fst).Nodup) :
    mapFind (m.filter p) k = (mapFind m k).bind (fun v => if p (k, v) then some v else none) := by
  induction m with
  | nil => rfl
  | cons e m ih =>
    obtain ⟨ek, ev⟩ := e
    simp only [List.map_cons, List.nodup_cons] at hnd
    by_cases hk : ek = k
    · subst hk
      by_cases hp : p (ek, ev) = true
      · simp [List.filter_cons, hp, mapFind]
      · have hnone : mapFind (m.filter p) ek = none := by
          apply mapFind_none_of_not_mem_keys
          intro hmem
          obtain ⟨e', he', hfst⟩ := List.mem_map.1 hmem
          exact hnd.1 (List.mem_map.2 ⟨e', (List.mem_filter.1 he').1, hfst⟩)
        simp [List.filter_cons, hp, mapFind, hnone]
    · by_cases hp : p (ek, ev) = true
      · simp [List.filter_cons, hp, mapFind, hk, ih hnd.2]
      · simp [List.filter_cons, hp, mapFind, hk, ih hnd.2]

/-- C10: after `removeStaleBuckets(S)` every zoom level holds exactly the
entries it held before whose generation id is in `S`, unchanged, at the same
coordinate and in the same order; so no held index has a generation id
outside `S`, no index that a later `addBucket` scans has one, and (keys being
unique in a map) the index held at a coordinate is the one held before if its
generation id is in `S` and none otherwise. -/
theorem removeStaleBuckets_keeps_live (self : CrossTileSymbolLayerIndex)
    (currentIDs : List Nat) :
    (self.removeStaleBuckets currentIDs).1.indexes =
      self.indexes.map (fun zoomIndexes =>
        (zoomIndexes.1,
          zoomIndexes.2.filter (fun it => decide (it.2.bucketInstanceId ∈ currentIDs)))) ∧
    (∀ zoom zoomIndexes t idx,
      (zoom, zoomIndexes) ∈ (self.removeStaleBuckets currentIDs).1.indexes →
      (t, idx) ∈ zoomIndexes → idx.bucketInstanceId ∈ currentIDs) ∧
    (∀ tileID zoom idx, Scanned (self.removeStaleBuckets currentIDs).1 tileID zoom idx →
      idx.bucketInstanceId ∈ currentIDs) ∧
    ((∀ zoomIndexes ∈ self.indexes, (zoomIndexes.2.map Prod.fst).Nodup) →
      ∀ zoom t, (self.removeStaleBuckets currentIDs).1.heldAt zoom t =
        (self.heldAt zoom t).bind (fun idx =>
          if idx.bucketInstanceId ∈ currentIDs then some idx else none)) := by
  have hidx : (self.removeStaleBuckets currentIDs).1.indexes =
      self.indexes.map (fun zoomIndexes =>
        (zoomIndexes.1,
          zoomIndexes.2.filter (fun it => decide (it.2.bucketInstanceId ∈ currentIDs)))) :=
    removeStaleLoop_fst currentIDs self.indexes false
  have hmem : ∀ zoom zoomIndexes t idx,
      (zoom, zoomIndexes) ∈ (self.removeStaleBuckets currentIDs).1.indexes →
      (t, idx) ∈ zoomIndexes → idx.bucketInstanceId ∈ currentIDs := by
    intro zoom zoomIndexes t idx hz ht
    rw [hidx] at hz
    obtain ⟨zi, _, heq⟩ := List.mem_map.1 hz
    simp only [Prod.mk.injEq] at heq
    rw [← heq.2] at ht
    simpa using (List.mem_filter.1 ht).2
  refine ⟨hidx, hmem, ?_, ?_⟩
  · rintro tileID zoom idx ⟨zoomIndexes, hz, h | h⟩
    · exact hmem zoom zoomIndexes _ idx hz (mapFind_mem _ _ _ h.2)
    · obtain ⟨_, _, t, ht⟩ := h
      exact hmem zoom zoomIndexes t idx hz ht
  · intro hnd zoom t
    unfold CrossTileSymbolLayerIndex.heldAt
    rw [hidx, mapFind_map_values self.indexes
      (fun m => m.filter (fun it => decide (it.2.bucketInstanceId ∈ currentIDs))) zoom]
    cases hz : mapFind self.indexes zoom with
    | none => rfl
    | some zoomIndexes =>
      simp only [Option.map_some']
      rw [mapFind_filter_of_nodup _ _ _ (hnd _ (mapFind_mem _ _ _ hz))]
      cases mapFind zoomIndexes t <;> simp

/-- C10 at a concrete input: three tiles with generation ids 5, 6 and 7 are
held; after `removeStaleBuckets([5, 6])` tile A (id 5) is still held with its
index and nothing is held at tile C (id 7). -/
theorem removeStaleBuckets_keeps_live_witness :
    (exLayer567.removeStaleBuckets [5, 6]).1.heldAt 10 exTileA = some exIndexA ∧
    (exLayer567.removeStaleBuckets [5, 6]).1.heldAt 10 exTileC = none := by
  have h := (removeStaleBuckets_keeps_live exLayer567 [5, 6]).2.2.2 (by decide)
  exact ⟨by rw [h 10 exTileA]; decide, by rw [h 10 exTileC]; decide⟩

/-! ## The identity-counter invariant -/

theorem mem_mapInsertSorted {K V : Type} (lt : K → K → Bool) (m : List (K × V)) (k : K) (v : V) (e : K × V)
    (h : e ∈ mapInsertSorted lt m k v) : e = (k, v) ∨ e ∈ m := by
  induction m with
  | nil => simpa [mapInsertSorted] using h
  | cons a m ih =>
    unfold mapInsertSorted at h
    split at h
    · rcases List.mem_cons.1 h with h | h
      · exact Or.inl h
      · exact Or.inr h
    · rcases List.mem_cons.1 h with h | h
      · exact Or.inr (h ▸ List.mem_cons_self _ _)
      · rcases ih h with h | h
        · exact Or.inl h
        · exact Or.inr (List.mem_cons_of_mem _ h)

theorem mem_mapEmplace {K V : Type} [DecidableEq K] (lt : K → K → Bool) (m : List (K × V)) (k : K) (v : V) (e : K × V)
    (h : e ∈ mapEmplace lt m k v) : e = (k, v) ∨ e ∈ m := by
  unfold mapEmplace at h
  split at h
  · exact Or.inr h
  · exact mem_mapInsertSorted lt m k v e h

theorem mem_mapSubscript {K V : Type} [DecidableEq K] (lt : K → K → Bool) (m : List (K × V)) (k : K) (d : V) (e : K × V)
    (h : e ∈ mapSubscript lt m k d) : e = (k, d) ∨ e ∈ m :=
  mem_mapEmplace lt m k d e h

theorem mem_mapErase {K V : Type} [DecidableEq K] (m : List (K × V)) (k : K) (e : K × V) (h : e ∈ mapErase m k) : e ∈ m :=
  (List.mem_filter.1 h).1

theorem mem_mapModify {K V : Type} [DecidableEq K] (m : List (K × V)) (k : K) (f : V → V) (e : K × V)
    (h : e ∈ mapModify m k f) : e ∈ m ∨ ∃ v, (k, v) ∈ m ∧ e = (k, f v) := by
  unfold mapModify at h
  obtain ⟨a, ha, heq⟩ := List.mem_map.1 h
  by_cases hk : a.1 = k
  · simp only [hk, if_true] at heq
    exact Or.inr ⟨a.2, by rw [← hk]; exact ha, heq.symm⟩
  · simp only [hk, if_false] at heq
    exact Or.inl (heq ▸ ha)

theorem RecordsBounded_mono {c c' : Nat} (h : c ≤ c') (idx : TileLayerIndex)
    (hb : RecordsBounded c idx) : RecordsBounded c' idx :=
  fun kv hkv r hr => ⟨(hb kv hkv r hr).1, Nat.le_trans (hb kv hkv r hr).2 h⟩

theorem IdsBounded_mono {c c' : Nat} (h : c ≤ c') (self : CrossTileSymbolLayerIndex)
    (hb : IdsBounded self c) : IdsBounded self c' :=
  fun zi hzi it hit => RecordsBounded_mono h it.2 (hb zi hzi it hit)

theorem RecordsBounded_indexInstance (c : Nat) (idx : TileLayerIndex) (s : SymbolInstance)
    (hb : RecordsBounded c idx) (hs : s.crossTileID ≠ 0 ∧ s.crossTileID ≤ c) :
    RecordsBounded c (idx.indexInstance s) := by
  intro kv hkv r hr
  unfold TileLayerIndex.indexInstance at hkv
  simp only at hkv
  rcases mem_mapModify (mapSubscript keyLt idx.indexedSymbolInstances s.key []) s.key _ kv hkv
    with h | ⟨v, hv, heq⟩
  · rcases mem_mapSubscript _ _ _ _ _ h with h | h
    · subst h; simp at hr
    · exact hb kv h r hr
  · subst heq
    rcases List.mem_append.1 hr with hr | hr
    · rcases mem_mapSubscript _ _ _ _ _ hv with h | h
      · simp only [Prod.mk.injEq] at h
        rw [h.2] at hr
        simp at hr
      · exact hb _ h r hr
    · simp only [List.mem_singleton] at hr
      subst hr
      exact hs

theorem RecordsBounded_ctor (c : Nat) (coord : OverscaledTileID)
    (symbolInstances : List SymbolInstance) (bucketInstanceId : Nat)
    (hs : ∀ s ∈ symbolInstances, s.crossTileID ≠ 0 ∧ s.crossTileID ≤ c) :
    RecordsBounded c (TileLayerIndex.ctor coord symbolInstances bucketInstanceId) := by
  unfold TileLayerIndex.ctor
  have hgen : ∀ (l : List SymbolInstance) (acc : TileLayerIndex), RecordsBounded c acc →
      (∀ s ∈ l, s.crossTileID ≠ 0 ∧ s.crossTileID ≤ c) →
      RecordsBounded c (l.foldl TileLayerIndex.indexInstance acc) := by
    intro l
    induction l with
    | nil => intro acc hacc _; exact hacc
    | cons a rest ih =>
      intro acc hacc hl
      simp only [List.foldl_cons]
      exact ih _ (RecordsBounded_indexInstance c acc a hacc (hl a (List.mem_cons_self _ _)))
        (fun s hs' => hl s (List.mem_cons_of_mem _ hs'))
  apply hgen _ _ _ hs
  intro kv hkv
  simp at hkv

theorem IdsBounded_replaceIndex (c : Nat)
    (indexes : List (Nat × List (OverscaledTileID × TileLayerIndex)))
    (tileID : OverscaledTileID) (index : TileLayerIndex)
    (hb : IdsBounded ⟨indexes⟩ c) (hi : RecordsBounded c index) :
    IdsBounded ⟨replaceIndex indexes tileID index⟩ c := by
  intro zi hzi it hit
  unfold replaceIndex at hzi
  simp only at hzi
  have hsub : ∀ zi' ∈ mapSubscript zoomLt indexes tileID.overscaledZ [],
      ∀ it' ∈ zi'.2, RecordsBounded c it'.2 := by
    intro zi' hzi' it' hit'
    rcases mem_mapSubscript _ _ _ _ _ hzi' with h | h
    · subst h; simp at hit'
    · exact hb zi' h it' hit'
  have hmod : ∀ zi' ∈ mapModify (mapSubscript zoomLt indexes tileID.overscaledZ [])
      tileID.overscaledZ (fun zoomIndexes => mapErase zoomIndexes tileID),
      ∀ it' ∈ zi'.2, RecordsBounded c it'.2 := by
    intro zi' hzi' it' hit'
    rcases mem_mapModify _ _ _ _ hzi' with h | ⟨v, hv, heq⟩
    · exact hsub zi' h it' hit'
    · subst heq
      exact hsub _ hv it' (mem_mapErase _ _ _ hit')
  have hsub2 : ∀ zi' ∈ mapSubscript zoomLt
      (mapModify (mapSubscript zoomLt indexes tileID.overscaledZ [])
        tileID.overscaledZ (fun zoomIndexes => mapErase zoomIndexes tileID))
      tileID.overscaledZ [], ∀ it' ∈ zi'.2, RecordsBounded c it'.2 := by
    intro zi' hzi' it' hit'
    rcases mem_mapSubscript _ _ _ _ _ hzi' with h | h
    · subst h; simp at hit'
    · exact hmod zi' h it' hit'
  rcases mem_mapModify _ _ _ _ hzi with h | ⟨v, hv, heq⟩
  · exact hsub2 zi h it hit
  · subst heq
    rcases mem_mapEmplace _ _ _ _ _ hit with h | h
    · subst h; exact hi
    · exact hsub2 _ hv it h

/-- A record matching an instance in a scanned index of a bounded layer index
is bounded. -/
theorem matched_bounded (self : CrossTileSymbolLayerIndex) (c : Nat) (hb : IdsBounded self c)
    (tileID : OverscaledTileID) (idx : TileLayerIndex)
    (hidx : idx ∈ scannedIndexes self.indexes tileID) (s : SymbolInstance)
    (r : IndexedSymbolInstance) (hr : MatchesRecord idx tileID s r) :
    r.crossTileID ≠ 0 ∧ r.crossTileID ≤ c := by
  obtain ⟨zoom, zoomIndexes, hz, h⟩ := (mem_scannedIndexes_iff self tileID idx).1 hidx
  obtain ⟨records, hfind, hmem, _⟩ := hr
  have hkv := mapFind_mem _ _ _ hfind
  rcases h with ⟨_, hf⟩ | ⟨_, _, t, ht⟩
  · exact hb _ hz _ (mapFind_mem _ _ _ hf) _ hkv r hmem
  · exact hb _ hz _ ht _ hkv r hmem

/-- In a bounded layer index the scan leaves identities that are at most the
counter. -/
theorem afterScan_bounded (self : CrossTileSymbolLayerIndex) (c : Nat) (hb : IdsBounded self c)
    (tileID : OverscaledTileID) (bucket : SymbolBucket) :
    ∀ s ∈ self.afterScan tileID bucket, s.crossTileID ≤ c := by
  intro s hs
  rw [afterScan_eq_map] at hs
  obtain ⟨s0, _, heq⟩ := List.mem_map.1 hs
  subst heq
  rcases matchAll_origin (scannedIndexes self.indexes tileID) tileID
    { s0 with crossTileID := 0 } rfl with h | ⟨idx, hidx, r, hr, hid⟩
  · rw [h]; exact Nat.zero_le _
  · rw [hid]
    exact (matched_bounded self c hb tileID idx hidx _ r hr).2

theorem assignNewIDs_bounded (l : List SymbolInstance) (c : Nat)
    (hc : c + countUnassigned l < 2 ^ 32) (hl : ∀ s ∈ l, s.crossTileID ≤ c) :
    ∀ s ∈ (assignNewIDs l c).1, s.crossTileID ≤ c + countUnassigned l := by
  induction l generalizing c with
  | nil => simp [assignNewIDs]
  | cons a rest ih =>
    rw [countUnassigned_cons] at hc ⊢
    unfold assignNewIDs
    by_cases h : a.crossTileID = 0
    · simp only [h, if_true] at hc ⊢
      have hmod : (c + 1) % 2 ^ 32 = c + 1 := Nat.mod_eq_of_lt (by omega)
      rw [hmod]
      intro t ht
      rcases List.mem_cons.1 ht with ht | ht
      · subst ht; simp only; omega
      · have := ih (c + 1) (by omega)
          (fun s hs => Nat.le_succ_of_le (hl s (List.mem_cons_of_mem _ hs))) t ht
        omega
    · simp only [h, if_false] at hc ⊢
      intro t ht
      rcases List.mem_cons.1 ht with ht | ht
      · subst ht
        have := hl t (List.mem_cons_self _ _)
        omega
      · have := ih c (by omega) (fun s hs => hl s (List.mem_cons_of_mem _ hs)) t ht
        omega

/-- Without overflow the identities handed out by the last loop of
`addBucket` are `c + 1, ..., c + n`, in order. -/
theorem freshIDs_assignNewIDs (l : List SymbolInstance) (c : Nat)
    (hc : c + countUnassigned l < 2 ^ 32) :
    freshIDs l (assignNewIDs l c).1 = List.range' (c + 1) (countUnassigned l) := by
  induction l generalizing c with
  | nil => simp [freshIDs, assignNewIDs, countUnassigned]
  | cons a rest ih =>
    rw [countUnassigned_cons] at hc ⊢
    unfold assignNewIDs
    by_cases h : a.crossTileID = 0
    · simp only [h, if_true] at hc ⊢
      have hmod : (c + 1) % 2 ^ 32 = c + 1 := Nat.mod_eq_of_lt (by omega)
      rw [hmod]
      have ih' := ih (c + 1) (by omega)
      unfold freshIDs at ih' ⊢
      simp only [List.zip_cons_cons, List.filter_cons, h, decide_True, if_true, List.map_cons, ih']
      rw [Nat.add_comm 1 (countUnassigned rest), List.range'_succ]
    · simp only [h, if_false] at hc ⊢
      have ih' := ih c (by omega)
      unfold freshIDs at ih' ⊢
      simp only [List.zip_cons_cons, List.filter_cons, h, decide_False, Nat.zero_add,
        Bool.false_eq_true, if_false]
      exact ih'

theorem freshIDs_length (l : List SymbolInstance) (c : Nat) :
    (freshIDs l (assignNewIDs l c).1).length = countUnassigned l := by
  induction l generalizing c with
  | nil => simp [freshIDs, assignNewIDs, countUnassigned]
  | cons a rest ih =>
    rw [countUnassigned_cons]
    unfold assignNewIDs
    by_cases h : a.crossTileID = 0
    · simp only [h, if_true]
      have ih' := ih ((c + 1) % 2 ^ 32)
      unfold freshIDs at ih' ⊢
      simp only [List.zip_cons_cons, List.filter_cons, h, decide_True, if_true, List.map_cons,
        List.length_cons, ih']
      omega
    · simp only [h, if_false]
      have ih' := ih c
      unfold freshIDs at ih' ⊢
      simp only [List.zip_cons_cons, List.filter_cons, h, decide_False, Nat.zero_add,
        Bool.false_eq_true, if_false]
      exact ih'

theorem handedOut_length (self : CrossTileSymbolLayerIndex) (tileID : OverscaledTileID)
    (bucket : SymbolBucket) (c : Nat) (h : (self.addBucket tileID bucket c).changed = true) :
    (self.handedOut tileID bucket c).length = countUnassigned (self.afterScan tileID bucket) := by
  unfold CrossTileSymbolLayerIndex.handedOut
  simp only [h, if_true]
  rw [addBucket_of_changed self tileID bucket c h]
  exact freshIDs_length _ _

theorem IdsBounded_mapSubscript (c : Nat)
    (indexes : List (Nat × List (OverscaledTileID × TileLayerIndex))) (zoom : Nat)
    (hb : IdsBounded ⟨indexes⟩ c) : IdsBounded ⟨mapSubscript zoomLt indexes zoom []⟩ c := by
  intro zi hzi it hit
  rcases mem_mapSubscript _ _ _ _ _ hzi with h | h
  · subst h; simp at hit
  · exact hb zi h it hit

/-- One `addBucket` call on a bounded layer index, without overflow: the
layer index stays bounded by the new counter, the counter grows by the number
of identities handed out, and these are the next consecutive numbers. -/
theorem addBucket_invariant (self : CrossTileSymbolLayerIndex) (tileID : OverscaledTileID)
    (bucket : SymbolBucket) (c : Nat) (hb : IdsBounded self c)
    (hno : c + (self.handedOut tileID bucket c).length < 2 ^ 32) :
    IdsBounded (self.addBucket tileID bucket c).self (self.addBucket tileID bucket c).maxCrossTileID ∧
    (self.addBucket tileID bucket c).maxCrossTileID =
      c + (self.handedOut tileID bucket c).length ∧
    self.handedOut tileID bucket c =
      List.range' (c + 1) (self.handedOut tileID bucket c).length := by
  cases h : (self.addBucket tileID bucket c).changed with
  | false =>
    have hout : self.handedOut tileID bucket c = [] := by
      simp [CrossTileSymbolLayerIndex.handedOut, h]
    rw [hout, addBucket_of_unchanged self tileID bucket c h]
    exact ⟨hb, rfl, rfl⟩
  | true =>
    have hlen := handedOut_length self tileID bucket c h
    rw [hlen] at hno ⊢
    have hout : self.handedOut tileID bucket c =
        freshIDs (self.afterScan tileID bucket)
          (assignNewIDs (self.afterScan tileID bucket) c).1 := by
      unfold CrossTileSymbolLayerIndex.handedOut
      simp only [h, if_true]
      rw [addBucket_of_changed self tileID bucket c h]
    rw [hout, addBucket_of_changed self tileID bucket c h]
    simp only
    rw [assignNewIDs_counter _ _ hno]
    refine ⟨?_, rfl, freshIDs_assignNewIDs _ _ hno⟩
    apply IdsBounded_replaceIndex
    · exact IdsBounded_mapSubscript _ _ _ (IdsBounded_mono (Nat.le_add_right _ _) self hb)
    · apply RecordsBounded_ctor
      intro s hs
      exact ⟨assignNewIDs_nonzero _ _ hno s hs,
        assignNewIDs_bounded _ _ hno (afterScan_bounded self c hb tileID bucket) s hs⟩

theorem IdsBounded_removeStaleBuckets (self : CrossTileSymbolLayerIndex) (c : Nat)
    (currentIDs : List Nat) (hb : IdsBounded self c) :
    IdsBounded (self.removeStaleBuckets currentIDs).1 c := by
  intro zi hzi it hit
  have hidx : (self.removeStaleBuckets currentIDs).1.indexes =
      self.indexes.map (fun zoomIndexes =>
        (zoomIndexes.1,
          zoomIndexes.2.filter (fun it => decide (it.2.bucketInstanceId ∈ currentIDs)))) :=
    removeStaleLoop_fst currentIDs self.indexes false
  rw [hidx] at hzi
  obtain ⟨zi', hzi', heq⟩ := List.mem_map.1 hzi
  subst heq
  exact hb zi' hzi' it (List.mem_filter.1 hit).1

theorem IdsBounded_empty (c : Nat) : IdsBounded ⟨[]⟩ c := by
  intro zi hzi
  simp at hzi

theorem IdsBounded_layerIndex (st : CrossTileSymbolIndex) (layerID : List Nat)
    (hb : st.StoredIdsBounded) : IdsBounded (st.layerIndex layerID) st.maxCrossTileID := by
  unfold CrossTileSymbolIndex.layerIndex
  rw [mapFind_mapSubscript_self]
  cases h : mapFind st.layerIndexes layerID with
  | none => exact IdsBounded_empty _
  | some li => exact hb _ (mapFind_mem _ _ _ h)

/-- Writing a bounded layer index back into `layerIndexes[layerID]`. -/
theorem bounded_write_back (layerIndexes : List (List Nat × CrossTileSymbolLayerIndex))
    (layerID : List Nat) (li : CrossTileSymbolLayerIndex) (c : Nat)
    (hb : ∀ layer ∈ layerIndexes, IdsBounded layer.2 c) (hli : IdsBounded li c) :
    ∀ layer ∈ mapModify (mapSubscript keyLt layerIndexes layerID ⟨[]⟩) layerID (fun _ => li),
      IdsBounded layer.2 c := by
  intro layer hl
  rcases mem_mapModify _ _ _ _ hl with h | ⟨v, _, heq⟩
  · rcases mem_mapSubscript _ _ _ _ _ h with h | h
    · subst h; exact IdsBounded_empty _
    · exact hb layer h
  · subst heq; exact hli

theorem addLayerHandedOut_skip (st : AddLayerLoop) (renderTile : RenderTile)
    (rest : List RenderTile) (h : renderTile.renderable = false) :
    addLayerHandedOut st (renderTile :: rest) =
      addLayerHandedOut (addLayerStep st renderTile) rest := by
  simp [addLayerHandedOut, h]

theorem addLayerHandedOut_renderable (st : AddLayerLoop) (renderTile : RenderTile)
    (rest : List RenderTile) (h : renderTile.renderable = true) :
    addLayerHandedOut st (renderTile :: rest) =
      st.layerIndex.handedOut renderTile.id
          (stampBucket renderTile.bucket st.maxBucketInstanceId).1 st.maxCrossTileID ++
        addLayerHandedOut (addLayerStep st renderTile) rest := by
  simp [addLayerHandedOut, h]

theorem addLayerStep_skip (st : AddLayerLoop) (renderTile : RenderTile)
    (h : renderTile.renderable = false) :
    addLayerStep st renderTile = { st with renderTiles := st.renderTiles ++ [renderTile] } := by
  simp [addLayerStep, h]

theorem addLayerStep_renderable (st : AddLayerLoop) (t : RenderTile)
    (h : t.renderable = true) :
    addLayerStep st t =
      { layerIndex := (st.layerIndex.addBucket t.id
          (stampBucket t.bucket st.maxBucketInstanceId).1 st.maxCrossTileID).self
        maxCrossTileID := (st.layerIndex.addBucket t.id
          (stampBucket t.bucket st.maxBucketInstanceId).1 st.maxCrossTileID).maxCrossTileID
        maxBucketInstanceId := (stampBucket t.bucket st.maxBucketInstanceId).2
        symbolBucketsChanged := st.symbolBucketsChanged ||
          (st.layerIndex.addBucket t.id
            (stampBucket t.bucket st.maxBucketInstanceId).1 st.maxCrossTileID).changed
        currentBucketIDs := (st.layerIndex.addBucket t.id
          (stampBucket t.bucket st.maxBucketInstanceId).1
            st.maxCrossTileID).bucket.bucketInstanceId :: st.currentBucketIDs
        renderTiles := st.renderTiles ++ [{ t with bucket := (st.layerIndex.addBucket t.id
          (stampBucket t.bucket st.maxBucketInstanceId).1 st.maxCrossTileID).bucket }] } := by
  simp [addLayerStep, h]

theorem range'_append_range' (a m n : Nat) :
    List.range' a m ++ List.range' (a + m) n = List.range' a (m + n) := by
  induction m generalizing a with
  | zero => simp
  | succ k ih =>
    rw [List.range'_succ, List.cons_append, Nat.add_right_comm k 1 n, List.range'_succ]
    congr 1
    rw [show a + (k + 1) = a + 1 + k by omega]
    exact ih (a + 1)

/-- The loop of `addLayer` on a bounded layer index, without overflow. -/
theorem addLayer_loop_invariant (renderTiles : List RenderTile) (st : AddLayerLoop)
    (hb : IdsBounded st.layerIndex st.maxCrossTileID)
    (hno : st.maxCrossTileID + (addLayerHandedOut st renderTiles).length < 2 ^ 32) :
    IdsBounded (renderTiles.foldl addLayerStep st).layerIndex
      (renderTiles.foldl addLayerStep st).maxCrossTileID ∧
    (renderTiles.foldl addLayerStep st).maxCrossTileID =
      st.maxCrossTileID + (addLayerHandedOut st renderTiles).length ∧
    addLayerHandedOut st renderTiles =
      List.range' (st.maxCrossTileID + 1) (addLayerHandedOut st renderTiles).length := by
  induction renderTiles generalizing st with
  | nil => exact ⟨hb, rfl, rfl⟩
  | cons t rest ih =>
    simp only [List.foldl_cons]
    cases hr : t.renderable with
    | false =>
      rw [addLayerHandedOut_skip st t rest hr] at hno ⊢
      have hstep := addLayerStep_skip st t hr
      have hc' : (addLayerStep st t).maxCrossTileID = st.maxCrossTileID := by rw [hstep]
      have hb' : IdsBounded (addLayerStep st t).layerIndex (addLayerStep st t).maxCrossTileID := by
        rw [hstep]; exact hb
      obtain ⟨g1, g2, g3⟩ := ih (addLayerStep st t) hb' (by rw [hc']; exact hno)
      rw [hc'] at g2 g3
      exact ⟨g1, g2, g3⟩
    | true =>
      rw [addLayerHandedOut_renderable st t rest hr] at hno ⊢
      rw [List.length_append] at hno ⊢
      have hstep := addLayerStep_renderable st t hr
      obtain ⟨h1, h2, h3⟩ := addBucket_invariant st.layerIndex t.id
        (stampBucket t.bucket st.maxBucketInstanceId).1 st.maxCrossTileID hb (by omega)
      have hc' : (addLayerStep st t).maxCrossTileID = st.maxCrossTileID +
          (st.layerIndex.handedOut t.id (stampBucket t.bucket st.maxBucketInstanceId).1
            st.maxCrossTileID).length := by rw [hstep]; exact h2
      have hb' : IdsBounded (addLayerStep st t).layerIndex (addLayerStep st t).maxCrossTileID := by
        rw [hstep]; exact h1
      obtain ⟨g1, g2, g3⟩ := ih (addLayerStep st t) hb' (by rw [hc']; omega)
      refine ⟨g1, by rw [g2, hc']; omega, ?_⟩
      rw [← range'_append_range', ← h3]
      congr 1
      rw [hc'] at g3
      rw [Nat.add_right_comm]
      exact g3

/-- A call to `addLayer` from a bounded top-level state, without overflow. -/
theorem addLayer_invariant (st : CrossTileSymbolIndex) (symbolLayer : RenderSymbolLayer)
    (hb : st.StoredIdsBounded)
    (hno : st.maxCrossTileID + (st.handedOut symbolLayer).length < 2 ^ 32) :
    (st.addLayer symbolLayer).self.StoredIdsBounded ∧
    (st.addLayer symbolLayer).self.maxCrossTileID =
      st.maxCrossTileID + (st.handedOut symbolLayer).length ∧
    st.handedOut symbolLayer =
      List.range' (st.maxCrossTileID + 1) (st.handedOut symbolLayer).length := by
  obtain ⟨h1, h2, h3⟩ := addLayer_loop_invariant symbolLayer.renderTiles
    (st.loopEntry symbolLayer.id) (IdsBounded_layerIndex st symbolLayer.id hb) hno
  refine ⟨?_, h2, h3⟩
  have hle : st.maxCrossTileID ≤
      (symbolLayer.renderTiles.foldl addLayerStep (st.loopEntry symbolLayer.id)).maxCrossTileID := by
    rw [h2]; exact Nat.le_add_right _ _
  exact bounded_write_back st.layerIndexes symbolLayer.id _ _
    (fun layer hl => IdsBounded_mono hle layer.2 (hb layer hl))
    (IdsBounded_removeStaleBuckets _ _ _ h1)

/-- Along every run without overflow the stored identities are bounded by the
counter and the identities handed out are `1, ..., maxCrossTileID`. -/
theorem run_invariant (st : CrossTileSymbolIndex) (ids : List Nat) (h : Run st ids) :
    st.StoredIdsBounded ∧ ids = List.range' 1 st.maxCrossTileID := by
  induction h with
  | init =>
    refine ⟨?_, rfl⟩
    intro layer hl
    simp [CrossTileSymbolIndex.empty] at hl
  | addLayer st ids symbolLayer _ hno ih =>
    obtain ⟨h1, h2, h3⟩ := addLayer_invariant st symbolLayer ih.1 hno
    refine ⟨h1, ?_⟩
    rw [h2, ih.2]
    conv_lhs => rw [h3]
    rw [Nat.add_comm st.maxCrossTileID 1, range'_append_range']
  | addBucket st ids layerID tileID bucket _ hno ih =>
    obtain ⟨h1, h2, h3⟩ := addBucket_invariant (st.layerIndex layerID) tileID bucket
      st.maxCrossTileID (IdsBounded_layerIndex st layerID ih.1) hno
    have hc : (st.afterAddBucket layerID tileID bucket).maxCrossTileID =
        st.maxCrossTileID +
          ((st.layerIndex layerID).handedOut tileID bucket st.maxCrossTileID).length := h2
    refine ⟨?_, ?_⟩
    · have hle : st.maxCrossTileID ≤ (st.afterAddBucket layerID tileID bucket).maxCrossTileID := by
        rw [hc]; exact Nat.le_add_right _ _
      exact bounded_write_back st.layerIndexes layerID _ _
        (fun layer hl => IdsBounded_mono hle layer.2 (ih.1 layer hl)) h1
    · rw [hc, ih.2]
      conv_lhs => rw [h3]
      rw [Nat.add_comm st.maxCrossTileID 1, range'_append_range']
  | removeStaleBuckets st ids layerID currentIDs _ ih =>
    refine ⟨?_, ih.2⟩
    exact bounded_write_back st.layerIndexes layerID _ _ ih.1
      (IdsBounded_removeStaleBuckets _ _ _ (IdsBounded_layerIndex st layerID ih.1))
  | reset st ids _ ih =>
    refine ⟨?_, ih.2⟩
    intro layer hl
    simp [CrossTileSymbolIndex.reset] at hl

/-- C4: along every run from the empty index in which the identity counter
does not wrap, every identity stored in a record of a held per-tile index is
non-zero and at most the counter `maxCrossTileID`; the identities handed out
so far are `1, 2, ..., maxCrossTileID` in the order of their hand-out, so each
is strictly greater than every identity handed out before it, none is handed
out twice, and all are non-zero and at most the counter. -/
theorem identity_counter_invariant (st : CrossTileSymbolIndex) (ids : List Nat)
    (h : Run st ids) :
    (∀ layer ∈ st.layerIndexes, ∀ zoomIndexes ∈ layer.2.indexes, ∀ it ∈ zoomIndexes.2,
      ∀ kv ∈ it.2.indexedSymbolInstances, ∀ r ∈ kv.2,
        r.crossTileID ≠ 0 ∧ r.crossTileID ≤ st.maxCrossTileID) ∧
    ids = List.range' 1 st.maxCrossTileID ∧
    ids.Pairwise (fun a b => a < b) ∧
    (∀ a ∈ ids, a ≠ 0 ∧ a ≤ st.maxCrossTileID) := by
  have key := run_invariant st ids h
  refine ⟨key.1, key.2, ?_, ?_⟩
  · rw [key.2]
    exact List.pairwise_lt_range' 1 st.maxCrossTileID
  · intro a ha
    rw [key.2] at ha
    have := List.mem_range'_1.1 ha
    omega

/-- C4 at a concrete run: one `addLayer` call from the empty index with a
tile A, its child B (one instance matching A's, one with a new key) and a
tile that is not renderable hands out the identities 1 and 2 and leaves the
counter at 2. -/
theorem identity_counter_invariant_witness :
    Run (CrossTileSymbolIndex.empty.addLayer exSymbolLayer).self [1, 2] ∧
    (CrossTileSymbolIndex.empty.addLayer exSymbolLayer).self.maxCrossTileID = 2 ∧
    [1, 2] = List.range' 1 (CrossTileSymbolIndex.empty.addLayer exSymbolLayer).self.maxCrossTileID := by
  have hrun : Run (CrossTileSymbolIndex.empty.addLayer exSymbolLayer).self
      ([] ++ CrossTileSymbolIndex.empty.handedOut exSymbolLayer) :=
    Run.addLayer _ _ exSymbolLayer Run.init (by decide)
  have heq : ([] : List Nat) ++ CrossTileSymbolIndex.empty.handedOut exSymbolLayer = [1, 2] := by
    decide
  rw [heq] at hrun
  exact ⟨hrun, by decide, (identity_counter_invariant _ _ hrun).2.1⟩

/-! ## Identities within one bucket -/

theorem countUnassigned_take_lt (l : List SymbolInstance) (i j : Nat) (s : SymbolInstance)
    (hs : l[i]? = some s) (h0 : s.crossTileID = 0) (hij : i < j) :
    countUnassigned (l.take i) < countUnassigned (l.take j) := by
  induction l generalizing i j with
  | nil => simp at hs
  | cons a rest ih =>
    cases j with
    | zero => omega
    | succ j' =>
      cases i with
      | zero =>
        simp only [List.getElem?_cons_zero, Option.some.injEq] at hs
        subst hs
        simp only [List.take_zero, List.take_succ_cons, countUnassigned_cons, h0, if_true]
        simp [countUnassigned]
      | succ i' =>
        simp only [List.getElem?_cons_succ] at hs
        simp only [List.take_succ_cons, countUnassigned_cons]
        have := ih i' j' hs (by omega)
        omega

/-- C5 (amended): from a state reached by a run without overflow, when
`addBucket` returns true without overflow, every instance of the bucket ends
with a non-zero identity, and two instances at different positions carry
different identities as soon as one of them was left without identity by the
scan; two instances can share an identity only when both took it from stored
records. -/
theorem addBucket_fresh_unique (st : CrossTileSymbolIndex) (ids : List Nat) (layerID : List Nat)
    (tileID : OverscaledTileID) (bucket : SymbolBucket) (i j : Nat) (si sj : SymbolInstance)
    (hrun : Run st ids)
    (hchanged : ((st.layerIndex layerID).addBucket tileID bucket st.maxCrossTileID).changed = true)
    (hno : st.maxCrossTileID +
      countUnassigned ((st.layerIndex layerID).afterScan tileID bucket) < 2 ^ 32)
    (hij : i ≠ j)
    (hsi : ((st.layerIndex layerID).afterScan tileID bucket)[i]? = some si)
    (hsj : ((st.layerIndex layerID).afterScan tileID bucket)[j]? = some sj)
    (hfresh : si.crossTileID = 0) :
    (∀ s ∈ ((st.layerIndex layerID).addBucket tileID bucket
      st.maxCrossTileID).bucket.symbolInstances, s.crossTileID ≠ 0) ∧
    ∃ oi oj,
      ((st.layerIndex layerID).addBucket tileID bucket
        st.maxCrossTileID).bucket.symbolInstances[i]? = some oi ∧
      ((st.layerIndex layerID).addBucket tileID bucket
        st.maxCrossTileID).bucket.symbolInstances[j]? = some oj ∧
      oi.crossTileID ≠ oj.crossTileID := by
  have hb := IdsBounded_layerIndex st layerID (run_invariant st ids hrun).1
  rw [addBucket_of_changed _ tileID bucket _ hchanged]
  simp only
  refine ⟨assignNewIDs_nonzero _ _ hno, ?_⟩
  have hi := assignNewIDs_getElem? _ _ hno i
  have hj := assignNewIDs_getElem? _ _ hno j
  rw [hsi] at hi
  rw [hsj] at hj
  simp only [Option.map_some'] at hi hj
  refine ⟨_, _, hi, hj, ?_⟩
  simp only [hfresh, if_true]
  by_cases hj0 : sj.crossTileID = 0
  · simp only [hj0, if_true]
    rcases Nat.lt_or_gt_of_ne hij with h | h
    · have := countUnassigned_take_lt _ i j si hsi hfresh h
      omega
    · have := countUnassigned_take_lt _ j i sj hsj hj0 h
      omega
  · simp only [hj0, if_false]
    have := afterScan_bounded _ _ hb tileID bucket sj (List.getElem?_mem hsj)
    omega

/-- C5 (amended) at a concrete input: with tile A held (identity 1) a bucket
for the child tile B whose first instance matches A's record and whose two
other instances have a new key ends with the identities 1, 2, 3; the two
fresh ones differ. -/
theorem addBucket_fresh_unique_witness :
    Run exStateA [1] ∧
    ∃ oi oj,
      ((exStateA.layerIndex [1]).addBucket exTileB exBucketMixed
        exStateA.maxCrossTileID).bucket.symbolInstances[1]? = some oi ∧
      ((exStateA.layerIndex [1]).addBucket exTileB exBucketMixed
        exStateA.maxCrossTileID).bucket.symbolInstances[2]? = some oj ∧
      oi.crossTileID ≠ oj.crossTileID := by
  have hrun : Run (CrossTileSymbolIndex.empty.afterAddBucket [1] exTileA exBucketA)
      ([] ++ (CrossTileSymbolIndex.empty.layerIndex [1]).handedOut exTileA exBucketA
        CrossTileSymbolIndex.empty.maxCrossTileID) :=
    Run.addBucket _ _ [1] exTileA exBucketA Run.init (by decide)
  have hst : CrossTileSymbolIndex.empty.afterAddBucket [1] exTileA exBucketA = exStateA := by
    decide
  have hids : ([] : List Nat) ++ (CrossTileSymbolIndex.empty.layerIndex [1]).handedOut exTileA
      exBucketA CrossTileSymbolIndex.empty.maxCrossTileID = [1] := by decide
  rw [hst, hids] at hrun
  exact ⟨hrun, (addBucket_fresh_unique exStateA [1] [1] exTileB exBucketMixed 1 2
    exInstK exInstK hrun (by decide) (by decide) (by decide) (by decide) (by decide) rfl).2⟩

/-- C5 fails as stated: in the state reached from the empty index by
`addBucket` for tile A (one instance, identity 1), `addBucket` for the child
tile B with two instances of the same key at the same anchor returns true and
gives both instances the identity 1 of A's record. -/
theorem addBucket_unique_counterexample :
    CrossTileSymbolIndex.empty.afterAddBucket [1] exTileA exBucketA = exStateA ∧
    exStateA.layerIndex [1] = exLayerA ∧
    (exLayerA.addBucket exTileB exBucketTwins exStateA.maxCrossTileID).changed = true ∧
    (exLayerA.addBucket exTileB exBucketTwins exStateA.maxCrossTileID).bucket.symbolInstances =
      [{ exInstB with crossTileID := 1 }, { exInstB with crossTileID := 1 }] := by
  decide

/-! ## Concrete instances of the `addBucket` theorems -/

/-- C3 at a concrete input: with tile A held and the counter at 1, the bucket
for tile B with one matched and two unmatched instances leaves the counter at
`1 + 2`, and the second unmatched instance receives `1 + 2`. -/
theorem addBucket_fresh_consecutive_witness :
    (exLayerA.addBucket exTileB exBucketMixed 1).maxCrossTileID =
      1 + countUnassigned (exLayerA.afterScan exTileB exBucketMixed) ∧
    countUnassigned (exLayerA.afterScan exTileB exBucketMixed) = 2 ∧
    (exLayerA.addBucket exTileB exBucketMixed 1).bucket.symbolInstances[2]? =
      some { exInstK with crossTileID := 3 } := by
  have h := addBucket_fresh_consecutive exLayerA exTileB exBucketMixed 1 (by decide) (by decide)
  refine ⟨h.1, by decide, ?_⟩
  rw [h.2.2.2 2 exInstK (by decide)]
  decide

/-- C8 at a concrete input: tile B is not held, `addBucket` returns true and
every instance of its bucket ends with a non-zero identity. -/
theorem addBucket_fully_identifies_witness :
    (exLayerA.addBucket exTileB exBucketMixed 1).changed = true ∧
    ∀ s ∈ (exLayerA.addBucket exTileB exBucketMixed 1).bucket.symbolInstances,
      s.crossTileID ≠ 0 :=
  ⟨by decide,
    ((addBucket_fully_identifies exLayerA exTileB exBucketMixed 1).2 (by decide) (by decide)).2⟩

/-- C9 at a concrete input: after `addBucket` for tile B on a layer index
holding tile A, an index with B's generation id 6 is held at B, and the index
held at A is the one held before. -/
theorem addBucket_replaces_own_entry_witness :
    (exLayerA.addBucket exTileB exBucketB 1).changed = true ∧
    (∃ idx, (exLayerA.addBucket exTileB exBucketB 1).self.held exTileB = some idx ∧
      idx.bucketInstanceId = 6) ∧
    (exLayerA.addBucket exTileB exBucketB 1).self.heldAt 10 exTileA = exLayerA.heldAt 10 exTileA := by
  have h := addBucket_replaces_own_entry exLayerA exTileB exBucketB 1 (by decide)
  obtain ⟨⟨idx, h1, _, h3, _⟩, h5⟩ := h
  exact ⟨by decide, ⟨idx, h1, h3⟩, h5 10 exTileA (Or.inl (by decide))⟩

/-! ## The return value of `removeStaleBuckets` -/

theorem removeStaleLoop_fixed (currentIDs : List Nat)
    (indexes : List (Nat × List (OverscaledTileID × TileLayerIndex))) :
    (indexes.map (fun zoomIndexes =>
        (zoomIndexes.1,
          zoomIndexes.2.filter (fun it => decide (it.2.bucketInstanceId ∈ currentIDs))))).map
      (fun zoomIndexes =>
        (zoomIndexes.1,
          zoomIndexes.2.filter (fun it => decide (it.2.bucketInstanceId ∈ currentIDs)))) =
    indexes.map (fun zoomIndexes =>
        (zoomIndexes.1,
          zoomIndexes.2.filter (fun it => decide (it.2.bucketInstanceId ∈ currentIDs)))) := by
  simp [List.map_map, Function.comp_def, List.filter_filter]

/-- C11: `removeStaleBuckets(S)` returns true exactly when some held per-tile
index has a generation id outside `S` on entry; a second call with the same
`S` returns false and leaves the layer index as the first call left it. -/
theorem removeStaleBuckets_return (self : CrossTileSymbolLayerIndex) (currentIDs : List Nat) :
    ((self.removeStaleBuckets currentIDs).2 = true ↔
      ∃ zoomIndexes ∈ self.indexes, ∃ it ∈ zoomIndexes.2,
        it.2.bucketInstanceId ∉ currentIDs) ∧
    (self.removeStaleBuckets currentIDs).1.removeStaleBuckets currentIDs =
      ((self.removeStaleBuckets currentIDs).1, false) := by
  constructor
  · unfold CrossTileSymbolLayerIndex.removeStaleBuckets
    simp only [removeStaleLoop_snd, Bool.false_or, List.any_eq_true, decide_eq_true_eq]
  · have h1 : (self.removeStaleBuckets currentIDs).1.indexes =
        self.indexes.map (fun zoomIndexes =>
          (zoomIndexes.1,
            zoomIndexes.2.filter (fun it => decide (it.2.bucketInstanceId ∈ currentIDs)))) :=
      removeStaleLoop_fst currentIDs self.indexes false
    have h2 : ((self.removeStaleBuckets currentIDs).1.removeStaleBuckets currentIDs).1.indexes =
        (self.removeStaleBuckets currentIDs).1.indexes := by
      show (removeStaleLoop currentIDs (self.removeStaleBuckets currentIDs).1.indexes false).1 = _
      rw [removeStaleLoop_fst, h1]
      exact removeStaleLoop_fixed currentIDs self.indexes
    have h3 : ((self.removeStaleBuckets currentIDs).1.removeStaleBuckets currentIDs).2 = false := by
      show (removeStaleLoop currentIDs (self.removeStaleBuckets currentIDs).1.indexes false).2 = _
      rw [removeStaleLoop_snd, h1]
      simp only [Bool.false_or, List.any_eq_false, List.mem_map, decide_eq_true_eq,
        forall_exists_index, and_imp]
      intro zi zi' _ heq hany
      subst heq
      obtain ⟨it, hit, hout⟩ := List.any_eq_true.1 hany
      simp only [List.mem_filter, decide_eq_true_eq] at hit
      simp only [decide_eq_true_eq] at hout
      exact hout hit.2
    apply Prod.ext
    · cases hx : ((self.removeStaleBuckets currentIDs).1.removeStaleBuckets currentIDs).1
      rw [hx] at h2
      simp only at h2
      rw [h2]
    · exact h3

/-- C11 at the input of scenario 2: the layer holds tiles with the generation
ids 5, 6 and 7; `removeStaleBuckets([5, 6])` drops the entry with id 7 (tile C)
and returns true. -/
theorem removeStaleBuckets_return_witness :
    (exLayer567.removeStaleBuckets [5, 6]).2 = true ∧
    (exLayer567.removeStaleBuckets [5, 6]).1 =
      ⟨[(10, [(exTileA, exIndexA)]), (11, [(exTileB, exIndexB)])]⟩ ∧
    (exLayer567.removeStaleBuckets [5, 6]).1.removeStaleBuckets [5, 6] =
      ((exLayer567.removeStaleBuckets [5, 6]).1, false) :=
  ⟨((removeStaleBuckets_return exLayer567 [5, 6]).1).2
      ⟨(10, [(exTileA, exIndexA), (exTileC, exIndexC)]), by simp [exLayer567],
        (exTileC, exIndexC), by simp, by decide⟩,
    by decide, (removeStaleBuckets_return exLayer567 [5, 6]).2⟩

/-! ## The loop of `addLayer`, tile by tile -/

theorem addBucket_bucketInstanceId (self : CrossTileSymbolLayerIndex) (tileID : OverscaledTileID)
    (bucket : SymbolBucket) (c : Nat) :
    (self.addBucket tileID bucket c).bucket.bucketInstanceId = bucket.bucketInstanceId := by
  cases h : (self.addBucket tileID bucket c).changed with
  | false => rw [addBucket_of_unchanged self tileID bucket c h]
  | true => rw [addBucket_of_changed self tileID bucket c h]

theorem addLayerStep_renderable' (st : AddLayerLoop) (t : RenderTile)
    (h : t.renderable = true) :
    addLayerStep st t =
      { layerIndex := (st.addBucketFor t).self
        maxCrossTileID := (st.addBucketFor t).maxCrossTileID
        maxBucketInstanceId := (stampBucket t.bucket st.maxBucketInstanceId).2
        symbolBucketsChanged := st.symbolBucketsChanged || (st.addBucketFor t).changed
        currentBucketIDs := (st.addBucketFor t).bucket.bucketInstanceId :: st.currentBucketIDs
        renderTiles := st.renderTiles ++ [st.visit t] } := by
  rw [addLayerStep_renderable st t h]
  simp [AddLayerLoop.addBucketFor, AddLayerLoop.visit, h]

theorem addLayerStep_renderTiles (st : AddLayerLoop) (t : RenderTile) :
    (addLayerStep st t).renderTiles = st.renderTiles ++ [st.visit t] := by
  cases h : t.renderable with
  | false => rw [addLayerStep_skip st t h]; simp [AddLayerLoop.visit, h]
  | true => rw [addLayerStep_renderable' st t h]

/-- The tiles that the loop hands back: the tile at position `i` is the input
tile as its own iteration left it. -/
theorem foldl_addLayerStep_renderTiles (tiles : List RenderTile) (st : AddLayerLoop) :
    (tiles.foldl addLayerStep st).renderTiles.length = st.renderTiles.length + tiles.length ∧
    ∀ (i : Nat) (t : RenderTile), tiles[i]? = some t →
      (tiles.foldl addLayerStep st).renderTiles[st.renderTiles.length + i]? =
        some (((tiles.take i).foldl addLayerStep st).visit t) := by
  induction tiles generalizing st with
  | nil => exact ⟨rfl, fun i t h => by simp at h⟩
  | cons a rest ih =>
    simp only [List.foldl_cons]
    obtain ⟨h1, h2⟩ := ih (addLayerStep st a)
    rw [addLayerStep_renderTiles] at h1 h2
    simp only [List.length_append, List.length_singleton, List.length_cons, List.length_nil] at h1 h2 ⊢
    refine ⟨by omega, ?_⟩
    intro i t hi
    cases i with
    | zero =>
      simp only [List.getElem?_cons_zero, Option.some.injEq] at hi
      subst hi
      simp only [List.take_zero, List.foldl_nil, Nat.add_zero]
      have hpre : ∀ (l : List RenderTile) (s : AddLayerLoop) (k : Nat) (x : RenderTile),
          s.renderTiles[k]? = some x → (l.foldl addLayerStep s).renderTiles[k]? = some x := by
        intro l
        induction l with
        | nil => intro s k x hx; exact hx
        | cons b l ihl =>
          intro s k x hx
          simp only [List.foldl_cons]
          apply ihl
          rw [addLayerStep_renderTiles]
          rw [List.getElem?_append_left (by
            have := (List.getElem?_eq_some.1 hx).1; exact this)]
          exact hx
      apply hpre
      rw [addLayerStep_renderTiles]
      simp
    | succ j =>
      simp only [List.getElem?_cons_succ] at hi
      simp only [List.take_succ_cons, List.foldl_cons]
      have := h2 j t hi
      rw [show st.renderTiles.length + (j + 1) = st.renderTiles.length + 1 + j by omega]
      exact this

/-- The generation ids that the loop records as live: those it already had
and those of the buckets of the renderable tiles, as the loop left them. -/
theorem foldl_addLayerStep_currentBucketIDs (tiles : List RenderTile) (st : AddLayerLoop)
    (g : Nat) :
    g ∈ (tiles.foldl addLayerStep st).currentBucketIDs ↔
      g ∈ st.currentBucketIDs ∨
        ∃ (i : Nat) (t : RenderTile), tiles[i]? = some t ∧ t.renderable = true ∧
          g = (((tiles.take i).foldl addLayerStep st).visit t).bucket.bucketInstanceId := by
  induction tiles generalizing st with
  | nil => simp
  | cons a rest ih =>
    simp only [List.foldl_cons]
    rw [ih (addLayerStep st a)]
    cases ha : a.renderable with
    | false =>
      rw [addLayerStep_skip st a ha] at *
      constructor
      · rintro (h | ⟨i, t, hi, hr, hg⟩)
        · exact Or.inl h
        · exact Or.inr ⟨i + 1, t, by simpa using hi, hr, by
            simpa [List.take_succ_cons, addLayerStep_skip st a ha] using hg⟩
      · rintro (h | ⟨i, t, hi, hr, hg⟩)
        · exact Or.inl h
        · cases i with
          | zero =>
            simp only [List.getElem?_cons_zero, Option.some.injEq] at hi
            subst hi
            rw [ha] at hr
            exact Bool.noConfusion hr
          | succ j =>
            exact Or.inr ⟨j, t, by simpa using hi, hr, by
              simpa [List.take_succ_cons, addLayerStep_skip st a ha] using hg⟩
    | true =>
      have hstep := addLayerStep_renderable' st a ha
      have hvisit : (st.visit a).bucket = (st.addBucketFor a).bucket := by
        simp [AddLayerLoop.visit, ha]
      constructor
      · rintro (h | ⟨i, t, hi, hr, hg⟩)
        · rw [hstep] at h
          rcases List.mem_cons.1 h with h | h
          · exact Or.inr ⟨0, a, by simp, ha, by simpa [hvisit] using h⟩
          · exact Or.inl h
        · exact Or.inr ⟨i + 1, t, by simpa using hi, hr, by
            simpa [List.take_succ_cons] using hg⟩
      · rintro (h | ⟨i, t, hi, hr, hg⟩)
        · left; rw [hstep]; exact List.mem_cons_of_mem _ h
        · cases i with
          | zero =>
            simp only [List.getElem?_cons_zero, Option.some.injEq] at hi
            subst hi
            left
            rw [hstep]
            simp only [List.take_zero, List.foldl_nil, hvisit] at hg
            rw [hg]
            exact List.mem_cons_self _ _
          | succ j =>
            exact Or.inr ⟨j, t, by simpa using hi, hr, by
              simpa [List.take_succ_cons] using hg⟩

/-! ## Generation-id stamping -/

theorem stampCount_cons (t : RenderTile) (rest : List RenderTile) :
    stampCount (t :: rest) =
      (if t.renderable = true ∧ t.bucket.bucketInstanceId = 0 then 1 else 0) + stampCount rest := by
  unfold stampCount
  by_cases h : t.renderable = true ∧ t.bucket.bucketInstanceId = 0
  · simp [List.filter_cons, h]; omega
  · simp only [List.filter_cons, h, if_false, Nat.zero_add]
    have : (t.renderable && decide (t.bucket.bucketInstanceId = 0)) = false := by
      cases hr : t.renderable <;> simp_all
    simp [this]

theorem stampCount_take_le (tiles : List RenderTile) (i : Nat) :
    stampCount (tiles.take i) ≤ stampCount tiles := by
  induction tiles generalizing i with
  | nil => simp
  | cons a rest ih =>
    cases i with
    | zero => simp [stampCount]
    | succ j =>
      simp only [List.take_succ_cons, stampCount_cons]
      have := ih j
      omega

theorem stampCount_take_lt (tiles : List RenderTile) (i j : Nat) (t : RenderTile)
    (ht : tiles[i]? = some t) (hr : t.renderable = true) (h0 : t.bucket.bucketInstanceId = 0)
    (hij : i < j) : stampCount (tiles.take i) < stampCount (tiles.take j) := by
  induction tiles generalizing i j with
  | nil => simp at ht
  | cons a rest ih =>
    cases j with
    | zero => omega
    | succ j' =>
      cases i with
      | zero =>
        simp only [List.getElem?_cons_zero, Option.some.injEq] at ht
        subst ht
        simp only [List.take_zero, List.take_succ_cons, stampCount_cons, hr, h0, and_self, if_true]
        simp [stampCount]
      | succ i' =>
        simp only [List.getElem?_cons_succ] at ht
        simp only [List.take_succ_cons, stampCount_cons]
        have := ih i' j' ht (by omega)
        omega

theorem addLayerStep_maxBucketInstanceId (st : AddLayerLoop) (t : RenderTile) :
    (addLayerStep st t).maxBucketInstanceId =
      if t.renderable = true ∧ t.bucket.bucketInstanceId = 0 then
        (st.maxBucketInstanceId + 1) % 2 ^ 32
      else st.maxBucketInstanceId := by
  cases hr : t.renderable with
  | false => rw [addLayerStep_skip st t hr]; simp
  | true =>
    rw [addLayerStep_renderable' st t hr]
    by_cases h0 : t.bucket.bucketInstanceId = 0
    · simp [stampBucket, h0]
    · simp [stampBucket, h0]

/-- Without overflow the generation counter grows by the number of buckets
stamped. -/
theorem foldl_addLayerStep_maxBucketInstanceId (tiles : List RenderTile) (st : AddLayerLoop)
    (hno : st.maxBucketInstanceId + stampCount tiles < 2 ^ 32) :
    (tiles.foldl addLayerStep st).maxBucketInstanceId =
      st.maxBucketInstanceId + stampCount tiles := by
  induction tiles generalizing st with
  | nil => simp [stampCount]
  | cons a rest ih =>
    rw [stampCount_cons] at hno ⊢
    simp only [List.foldl_cons]
    have hstep := addLayerStep_maxBucketInstanceId st a
    by_cases h : a.renderable = true ∧ a.bucket.bucketInstanceId = 0
    · simp only [h, and_self, if_true] at hstep hno ⊢
      rw [Nat.mod_eq_of_lt (by omega)] at hstep
      rw [ih _ (by rw [hstep]; omega), hstep]
      omega
    · simp only [h, if_false] at hstep hno ⊢
      rw [ih _ (by rw [hstep]; omega), hstep]
      omega

theorem visit_fields (st : AddLayerLoop) (t : RenderTile) :
    (st.visit t).id = t.id ∧ (st.visit t).renderable = t.renderable ∧
    (st.visit t).bucket.bucketInstanceId =
      if t.renderable = true ∧ t.bucket.bucketInstanceId = 0 then
        (st.maxBucketInstanceId + 1) % 2 ^ 32
      else t.bucket.bucketInstanceId := by
  cases hr : t.renderable with
  | false => simp [AddLayerLoop.visit, hr]
  | true =>
    simp only [AddLayerLoop.visit, hr, Bool.true_eq_false, if_false, true_and,
      AddLayerLoop.addBucketFor, addBucket_bucketInstanceId]
    by_cases h0 : t.bucket.bucketInstanceId = 0
    · simp [stampBucket, h0]
    · simp [stampBucket, h0]

theorem visit_not_renderable (st : AddLayerLoop) (t : RenderTile) (h : t.renderable = false) :
    st.visit t = t := by
  simp [AddLayerLoop.visit, h]

/-- The tile at position `i` of the layer that `addLayer` hands back. -/
theorem addLayer_renderTiles (self : CrossTileSymbolIndex) (symbolLayer : RenderSymbolLayer) :
    (self.addLayer symbolLayer).symbolLayer.renderTiles.length =
      symbolLayer.renderTiles.length ∧
    ∀ (i : Nat) (t : RenderTile), symbolLayer.renderTiles[i]? = some t →
      (self.addLayer symbolLayer).symbolLayer.renderTiles[i]? =
        some ((self.loopBefore symbolLayer i).visit t) := by
  have h := foldl_addLayerStep_renderTiles symbolLayer.renderTiles
    (self.loopEntry symbolLayer.id)
  have h0 : (self.loopEntry symbolLayer.id).renderTiles.length = 0 := rfl
  rw [h0] at h
  simp only [Nat.zero_add] at h
  exact h

/-- C14: in `addLayer` without overflow of the generation counter, a
renderable tile's bucket without generation id is stamped with the counter
value of that moment plus one, which is the entry value plus one plus the
number of buckets stamped before it; a bucket with a generation id keeps it
and a tile that is not renderable is handed back as it was; so every
renderable tile's bucket ends with a non-zero generation id, the stamped ids
exceed the entry value of the counter and increase strictly along the tiles
(they are pairwise distinct), and the counter grows by the number of buckets
stamped. -/
theorem addLayer_stamping (self : CrossTileSymbolIndex) (symbolLayer : RenderSymbolLayer)
    (hno : self.maxBucketInstanceId + stampCount symbolLayer.renderTiles < 2 ^ 32) :
    (self.addLayer symbolLayer).self.maxBucketInstanceId =
      self.maxBucketInstanceId + stampCount symbolLayer.renderTiles ∧
    (self.addLayer symbolLayer).symbolLayer.renderTiles.length =
      symbolLayer.renderTiles.length ∧
    (∀ (i : Nat) (t : RenderTile), symbolLayer.renderTiles[i]? = some t →
      ∃ o, (self.addLayer symbolLayer).symbolLayer.renderTiles[i]? = some o ∧
        o.id = t.id ∧ o.renderable = t.renderable ∧
        (t.renderable = false → o = t) ∧
        (t.renderable = true → t.bucket.bucketInstanceId ≠ 0 →
          o.bucket.bucketInstanceId = t.bucket.bucketInstanceId) ∧
        (t.renderable = true → t.bucket.bucketInstanceId = 0 →
          o.bucket.bucketInstanceId = (self.loopBefore symbolLayer i).maxBucketInstanceId + 1 ∧
          o.bucket.bucketInstanceId =
            self.maxBucketInstanceId + 1 + stampCount (symbolLayer.renderTiles.take i) ∧
          self.maxBucketInstanceId < o.bucket.bucketInstanceId) ∧
        (t.renderable = true → o.bucket.bucketInstanceId ≠ 0)) ∧
    (∀ (i j : Nat) (ti tj oi oj : RenderTile), i < j →
      symbolLayer.renderTiles[i]? = some ti → symbolLayer.renderTiles[j]? = some tj →
      ti.renderable = true → ti.bucket.bucketInstanceId = 0 →
      tj.renderable = true → tj.bucket.bucketInstanceId = 0 →
      (self.addLayer symbolLayer).symbolLayer.renderTiles[i]? = some oi →
      (self.addLayer symbolLayer).symbolLayer.renderTiles[j]? = some oj →
      oi.bucket.bucketInstanceId < oj.bucket.bucketInstanceId) := by
  have hexit : (self.addLayer symbolLayer).self.maxBucketInstanceId =
      self.maxBucketInstanceId + stampCount symbolLayer.renderTiles :=
    foldl_addLayerStep_maxBucketInstanceId symbolLayer.renderTiles
      (self.loopEntry symbolLayer.id) hno
  have hpre : ∀ i, (self.loopBefore symbolLayer i).maxBucketInstanceId =
      self.maxBucketInstanceId + stampCount (symbolLayer.renderTiles.take i) := by
    intro i
    have := stampCount_take_le symbolLayer.renderTiles i
    exact foldl_addLayerStep_maxBucketInstanceId (symbolLayer.renderTiles.take i)
      (self.loopEntry symbolLayer.id) (by
        show self.maxBucketInstanceId + _ < _
        omega)
  have hstamped : ∀ (i : Nat) (t : RenderTile), symbolLayer.renderTiles[i]? = some t →
      t.renderable = true → t.bucket.bucketInstanceId = 0 →
      ((self.loopBefore symbolLayer i).visit t).bucket.bucketInstanceId =
        self.maxBucketInstanceId + 1 + stampCount (symbolLayer.renderTiles.take i) := by
    intro i t ht hr h0
    rw [(visit_fields _ t).2.2]
    simp only [hr, h0, and_self, if_true]
    rw [hpre i]
    have h1 := stampCount_take_lt symbolLayer.renderTiles i (i + 1) t ht hr h0 (by omega)
    have h2 := stampCount_take_le symbolLayer.renderTiles (i + 1)
    rw [Nat.mod_eq_of_lt (by omega)]
    omega
  obtain ⟨hlen, hget⟩ := addLayer_renderTiles self symbolLayer
  refine ⟨hexit, hlen, ?_, ?_⟩
  · intro i t ht
    refine ⟨_, hget i t ht, (visit_fields _ t).1, (visit_fields _ t).2.1,
      visit_not_renderable _ t, ?_, ?_, ?_⟩
    · intro hr hnz
      rw [(visit_fields _ t).2.2]
      simp [hnz]
    · intro hr h0
      have h := hstamped i t ht hr h0
      refine ⟨?_, h, by omega⟩
      rw [h, hpre i]
      omega
    · intro hr
      by_cases h0 : t.bucket.bucketInstanceId = 0
      · rw [hstamped i t ht hr h0]; omega
      · rw [(visit_fields _ t).2.2]
        simp [h0]
  · intro i j ti tj oi oj hij hti htj hri h0i hrj h0j hoi hoj
    rw [hget i ti hti] at hoi
    rw [hget j tj htj] at hoj
    simp only [Option.some.injEq] at hoi hoj
    rw [← hoi, ← hoj, hstamped i ti hti hri h0i, hstamped j tj htj hrj h0j]
    have := stampCount_take_lt symbolLayer.renderTiles i j ti hti hri h0i hij
    omega

/-- C14 at a concrete input: from the empty index, `addLayer` on a layer with
two renderable tiles and one that is not renderable, all without generation
id, stamps the two renderable buckets and leaves the counter at 2. -/
theorem addLayer_stamping_witness :
    (CrossTileSymbolIndex.empty.addLayer exSymbolLayer).self.maxBucketInstanceId =
      CrossTileSymbolIndex.empty.maxBucketInstanceId + stampCount exSymbolLayer.renderTiles ∧
    stampCount exSymbolLayer.renderTiles = 2 ∧
    (CrossTileSymbolIndex.empty.addLayer exSymbolLayer).symbolLayer.renderTiles.map
      (fun t => t.bucket.bucketInstanceId) = [1, 2, 0] :=
  ⟨(addLayer_stamping CrossTileSymbolIndex.empty exSymbolLayer (by decide)).1, by decide,
    by decide⟩

/-! ## The state that `addLayer` leaves -/

theorem mapFind_filter_of_found {K V : Type} [DecidableEq K] (m : List (K × V))
    (p : K × V → Bool) (k : K) (v : V) (h : mapFind m k = some v) (hp : p (k, v) = true) :
    mapFind (m.filter p) k = some v := by
  induction m with
  | nil => simp [mapFind] at h
  | cons e m ih =>
    obtain ⟨ek, ev⟩ := e
    by_cases hk : ek = k
    · subst hk
      simp only [mapFind, if_true, Option.some.injEq] at h
      subst h
      simp [List.filter_cons, hp, mapFind]
    · simp only [mapFind, hk, if_false] at h
      by_cases hq : p (ek, ev) = true
      · simp [List.filter_cons, hq, mapFind, hk, ih h]
      · simp [List.filter_cons, hq, ih h]

/-- The layer index that `addLayer` leaves for its layer: the one of the loop
exit, pruned. -/
theorem addLayer_layerIndex (self : CrossTileSymbolIndex) (symbolLayer : RenderSymbolLayer) :
    (self.addLayer symbolLayer).self.layerIndex symbolLayer.id =
      ((self.loopExit symbolLayer).layerIndex.removeStaleBuckets
        (self.loopExit symbolLayer).currentBucketIDs).1 := by
  unfold CrossTileSymbolIndex.layerIndex
  rw [mapFind_mapSubscript_self]
  have h : (self.addLayer symbolLayer).self.layerIndexes =
      mapModify (mapSubscript keyLt self.layerIndexes symbolLayer.id ⟨[]⟩) symbolLayer.id
        (fun _ => ((self.loopExit symbolLayer).layerIndex.removeStaleBuckets
          (self.loopExit symbolLayer).currentBucketIDs).1) := rfl
  rw [h, mapFind_mapModify, if_pos rfl, mapFind_mapSubscript_self]
  rfl

/-- After the iteration for a renderable tile, an index with the generation id
of the tile's bucket is held at the tile. -/
theorem held_after_visit (st : AddLayerLoop) (t : RenderTile) (hr : t.renderable = true) :
    ∃ idx, (addLayerStep st t).layerIndex.held t.id = some idx ∧
      idx.bucketInstanceId = (st.visit t).bucket.bucketInstanceId := by
  have hv : (st.visit t).bucket.bucketInstanceId =
      (stampBucket t.bucket st.maxBucketInstanceId).1.bucketInstanceId := by
    simp [AddLayerLoop.visit, hr, AddLayerLoop.addBucketFor, addBucket_bucketInstanceId]
  rw [addLayerStep_renderable' st t hr, hv]
  simp only [AddLayerLoop.addBucketFor]
  cases hc : (st.layerIndex.addBucket t.id (stampBucket t.bucket st.maxBucketInstanceId).1
      st.maxCrossTileID).changed with
  | true =>
    exact ⟨_, held_addBucket _ _ _ _ hc, ctor_bucketInstanceId _ _ _⟩
  | false =>
    have hex : ∃ idx, st.layerIndex.held t.id = some idx ∧ idx.bucketInstanceId =
        (stampBucket t.bucket st.maxBucketInstanceId).1.bucketInstanceId := by
      by_contra hcon
      rw [(addBucket_changed_iff _ _ _ _).2 hcon] at hc
      exact Bool.noConfusion hc
    rw [addBucket_of_unchanged _ _ _ _ hc]
    exact hex

/-- Iterations for tiles at other coordinates leave the entry of a coordinate
as it is. -/
theorem held_preserved_foldl (tiles : List RenderTile) (st : AddLayerLoop)
    (tileID : OverscaledTileID)
    (hne : ∀ t ∈ tiles, t.renderable = true → t.id ≠ tileID) :
    (tiles.foldl addLayerStep st).layerIndex.held tileID = st.layerIndex.held tileID := by
  induction tiles generalizing st with
  | nil => rfl
  | cons a rest ih =>
    simp only [List.foldl_cons]
    rw [ih _ (fun t ht => hne t (List.mem_cons_of_mem _ ht))]
    cases hr : a.renderable with
    | false => rw [addLayerStep_skip st a hr]
    | true =>
      rw [addLayerStep_renderable' st a hr]
      exact heldAt_addBucket_ne _ _ _ _ _ _
        (Or.inr (fun h => hne a (List.mem_cons_self _ _) hr h.symm))

theorem foldl_split_at (tiles : List RenderTile) (st : AddLayerLoop) (i : Nat) (t : RenderTile)
    (ht : tiles[i]? = some t) :
    tiles.foldl addLayerStep st =
      (tiles.drop (i + 1)).foldl addLayerStep
        (addLayerStep ((tiles.take i).foldl addLayerStep st) t) := by
  obtain ⟨hi, hget⟩ := List.getElem?_eq_some.1 ht
  have hsplit : tiles = tiles.take i ++ t :: tiles.drop (i + 1) := by
    rw [← hget, ← List.drop_eq_getElem_cons hi, List.take_append_drop]
  conv_lhs => rw [hsplit]
  rw [List.foldl_append, List.foldl_cons]

theorem mem_removeStaleBuckets (self : CrossTileSymbolLayerIndex) (currentIDs : List Nat)
    (zoomIndexes : Nat × List (OverscaledTileID × TileLayerIndex))
    (hz : zoomIndexes ∈ (self.removeStaleBuckets currentIDs).1.indexes)
    (it : OverscaledTileID × TileLayerIndex) (hit : it ∈ zoomIndexes.2) :
    it.2.bucketInstanceId ∈ currentIDs ∧ ∃ zoomIndexes' ∈ self.indexes, it ∈ zoomIndexes'.2 := by
  have hidx : (self.removeStaleBuckets currentIDs).1.indexes =
      self.indexes.map (fun zoomIndexes =>
        (zoomIndexes.1,
          zoomIndexes.2.filter (fun it => decide (it.2.bucketInstanceId ∈ currentIDs)))) :=
    removeStaleLoop_fst currentIDs self.indexes false
  rw [hidx] at hz
  obtain ⟨zi, hzi, heq⟩ := List.mem_map.1 hz
  subst heq
  have := List.mem_filter.1 hit
  exact ⟨by simpa using this.2, zi, hzi, this.1⟩

theorem held_removeStaleBuckets (self : CrossTileSymbolLayerIndex) (currentIDs : List Nat)
    (tileID : OverscaledTileID) (idx : TileLayerIndex) (h : self.held tileID = some idx)
    (hmem : idx.bucketInstanceId ∈ currentIDs) :
    (self.removeStaleBuckets currentIDs).1.held tileID = some idx := by
  have hidx : (self.removeStaleBuckets currentIDs).1.indexes =
      self.indexes.map (fun zoomIndexes =>
        (zoomIndexes.1,
          zoomIndexes.2.filter (fun it => decide (it.2.bucketInstanceId ∈ currentIDs)))) :=
    removeStaleLoop_fst currentIDs self.indexes false
  unfold CrossTileSymbolLayerIndex.held CrossTileSymbolLayerIndex.heldAt at h ⊢
  rw [hidx, mapFind_map_values self.indexes
    (fun m => m.filter (fun it => decide (it.2.bucketInstanceId ∈ currentIDs)))]
  cases hz : mapFind self.indexes tileID.overscaledZ with
  | none => rw [hz] at h; exact Option.noConfusion h
  | some zoomIndexes =>
    rw [hz] at h
    simp only [Option.map_some'] at h ⊢
    exact mapFind_filter_of_found _ _ _ _ h (by simpa using hmem)

/-- For a renderable tile whose coordinate differs from those of the other
renderable tiles, `addLayer` leaves an index with the generation id of the
tile's bucket at the tile's coordinate. -/
theorem addLayer_held_renderable (self : CrossTileSymbolIndex) (symbolLayer : RenderSymbolLayer)
    (i : Nat) (t : RenderTile) (ht : symbolLayer.renderTiles[i]? = some t)
    (hr : t.renderable = true)
    (hdist : ∀ (j : Nat) (t' : RenderTile), j ≠ i → symbolLayer.renderTiles[j]? = some t' →
      t'.renderable = true → t'.id ≠ t.id) :
    ∃ idx, ((self.addLayer symbolLayer).self.layerIndex symbolLayer.id).held t.id = some idx ∧
      idx.bucketInstanceId = ((self.loopBefore symbolLayer i).visit t).bucket.bucketInstanceId := by
  have hids := foldl_addLayerStep_currentBucketIDs symbolLayer.renderTiles
    (self.loopEntry symbolLayer.id)
  obtain ⟨idx, hheld, hgen⟩ := held_after_visit (self.loopBefore symbolLayer i) t hr
  refine ⟨idx, ?_, hgen⟩
  rw [addLayer_layerIndex]
  apply held_removeStaleBuckets
  · unfold CrossTileSymbolIndex.loopExit
    rw [foldl_split_at symbolLayer.renderTiles _ i t ht, held_preserved_foldl]
    · exact hheld
    · intro t' ht' hr'
      obtain ⟨k, hk⟩ := List.mem_iff_getElem?.1 ht'
      rw [List.getElem?_drop] at hk
      exact hdist (i + 1 + k) t' (by omega) hk hr'
  · rw [hgen]
    exact (hids _).2 (Or.inr ⟨i, t, ht, hr, rfl⟩)

/-- Every index that `addLayer` leaves in the layer's index has the generation
id of the bucket of a renderable tile, as handed back. -/
theorem addLayer_entries_live (self : CrossTileSymbolIndex) (symbolLayer : RenderSymbolLayer)
    (zoomIndexes : Nat × List (OverscaledTileID × TileLayerIndex))
    (hzi : zoomIndexes ∈ ((self.addLayer symbolLayer).self.layerIndex symbolLayer.id).indexes)
    (it : OverscaledTileID × TileLayerIndex) (hit : it ∈ zoomIndexes.2) :
    ∃ (i : Nat) (t : RenderTile), symbolLayer.renderTiles[i]? = some t ∧ t.renderable = true ∧
      it.2.bucketInstanceId =
        ((self.loopBefore symbolLayer i).visit t).bucket.bucketInstanceId := by
  have hids := foldl_addLayerStep_currentBucketIDs symbolLayer.renderTiles
    (self.loopEntry symbolLayer.id)
  rw [addLayer_layerIndex] at hzi
  have hg := (mem_removeStaleBuckets _ _ zoomIndexes hzi it hit).1
  rcases (hids _).1 hg with h | ⟨i, t, ht, hr, heq⟩
  · simp [CrossTileSymbolIndex.loopEntry] at h
  · exact ⟨i, t, ht, hr, heq⟩

/-- C12: after `addLayer`, every per-tile index held in the layer's index has
the generation id that the bucket of one of the layer's renderable tiles has
on return; a tile that is not renderable is handed back untouched; and for a
renderable tile whose coordinate differs from those of the other renderable
tiles, an index with the generation id of its bucket is held at its
coordinate. -/
theorem addLayer_post_state (self : CrossTileSymbolIndex) (symbolLayer : RenderSymbolLayer) :
    (∀ zoomIndexes ∈ ((self.addLayer symbolLayer).self.layerIndex symbolLayer.id).indexes,
      ∀ it ∈ zoomIndexes.2, ∃ (i : Nat) (t o : RenderTile),
        symbolLayer.renderTiles[i]? = some t ∧ t.renderable = true ∧
        (self.addLayer symbolLayer).symbolLayer.renderTiles[i]? = some o ∧
        it.2.bucketInstanceId = o.bucket.bucketInstanceId) ∧
    (∀ (i : Nat) (t : RenderTile), symbolLayer.renderTiles[i]? = some t →
      t.renderable = false →
      (self.addLayer symbolLayer).symbolLayer.renderTiles[i]? = some t) ∧
    (∀ (i : Nat) (t : RenderTile), symbolLayer.renderTiles[i]? = some t →
      t.renderable = true →
      (∀ (j : Nat) (t' : RenderTile), j ≠ i → symbolLayer.renderTiles[j]? = some t' →
        t'.renderable = true → t'.id ≠ t.id) →
      ∃ o idx, (self.addLayer symbolLayer).symbolLayer.renderTiles[i]? = some o ∧
        ((self.addLayer symbolLayer).self.layerIndex symbolLayer.id).held t.id = some idx ∧
        idx.bucketInstanceId = o.bucket.bucketInstanceId) := by
  obtain ⟨_, hget⟩ := addLayer_renderTiles self symbolLayer
  refine ⟨?_, ?_, ?_⟩
  · intro zi hzi it hit
    obtain ⟨i, t, ht, hr, heq⟩ := addLayer_entries_live self symbolLayer zi hzi it hit
    exact ⟨i, t, _, ht, hr, hget i t ht, heq⟩
  · intro i t ht hr
    rw [hget i t ht, visit_not_renderable _ t hr]
  · intro i t ht hr hdist
    obtain ⟨idx, h1, h2⟩ := addLayer_held_renderable self symbolLayer i t ht hr hdist
    exact ⟨_, idx, hget i t ht, h1, h2⟩

/-- C12 at a concrete input: after `addLayer` from the empty index on a layer
with the renderable tiles A and B (distinct coordinates), indexes with the
stamped generation ids 1 and 2 are held at A and B. -/
theorem addLayer_post_state_witness :
    (∃ o idx, (CrossTileSymbolIndex.empty.addLayer exSymbolLayer).symbolLayer.renderTiles[1]? =
        some o ∧
      ((CrossTileSymbolIndex.empty.addLayer exSymbolLayer).self.layerIndex
        exSymbolLayer.id).held exTileB = some idx ∧
      idx.bucketInstanceId = o.bucket.bucketInstanceId) ∧
    (CrossTileSymbolIndex.empty.addLayer exSymbolLayer).symbolLayer.renderTiles[2]? =
      some ⟨exTileC, false, ⟨0, [exInstA]⟩⟩ := by
  have h := addLayer_post_state CrossTileSymbolIndex.empty exSymbolLayer
  refine ⟨h.2.2 1 ⟨exTileB, true, ⟨0, [exInstB, exInstK]⟩⟩ rfl rfl ?_,
    h.2.1 2 ⟨exTileC, false, ⟨0, [exInstA]⟩⟩ rfl rfl⟩
  intro j t' hj ht' hr'
  have hlt : j < 3 := (List.getElem?_eq_some.1 ht').1
  interval_cases j
  · simp [exSymbolLayer] at ht'
    subst ht'
    decide
  · exact absurd rfl hj
  · simp [exSymbolLayer] at ht'
    subst ht'
    exact absurd hr' (by decide)

/-! ## The changed signal settles -/

theorem removeStaleBuckets_of_all_live (self : CrossTileSymbolLayerIndex)
    (currentIDs : List Nat)
    (h : ∀ zoomIndexes ∈ self.indexes, ∀ it ∈ zoomIndexes.2,
      it.2.bucketInstanceId ∈ currentIDs) :
    self.removeStaleBuckets currentIDs = (self, false) := by
  unfold CrossTileSymbolLayerIndex.removeStaleBuckets
  rw [removeStaleLoop_fst, removeStaleLoop_snd]
  have h1 : self.indexes.map (fun zoomIndexes =>
      (zoomIndexes.1,
        zoomIndexes.2.filter (fun it => decide (it.2.bucketInstanceId ∈ currentIDs)))) =
      self.indexes := by
    conv_rhs => rw [← List.map_id self.indexes]
    apply List.map_congr_left
    intro zi hzi
    have : zi.2.filter (fun it => decide (it.2.bucketInstanceId ∈ currentIDs)) = zi.2 := by
      rw [List.filter_eq_self]
      intro it hit
      simpa using h zi hzi it hit
    rw [this]
    rfl
  have h2 : (self.indexes.any (fun zoomIndexes =>
      zoomIndexes.2.any (fun it => decide (it.2.bucketInstanceId ∉ currentIDs)))) = false := by
    rw [List.any_eq_false]
    intro zi hzi hany
    obtain ⟨it, hit, hout⟩ := List.any_eq_true.1 hany
    simp only [decide_eq_true_eq] at hout
    exact hout (h zi hzi it hit)
  rw [h1, h2]
  rfl

theorem mapModify_const_idem {K V : Type} [DecidableEq K] (m : List (K × V)) (k : K) (v : V) :
    mapModify (mapModify m k (fun _ => v)) k (fun _ => v) = mapModify m k (fun _ => v) := by
  unfold mapModify
  rw [List.map_map]
  apply List.map_congr_left
  intro e _
  by_cases h : e.1 = k
  · simp [h]
  · simp [h]

/-- The loop of `addLayer` over tiles whose renderable members all have a
generation id that is held at their coordinate: nothing moves but the record
of live ids and the list of visited tiles. -/
theorem foldl_addLayerStep_settled (tiles : List RenderTile) (st : AddLayerLoop)
    (h : ∀ t ∈ tiles, t.renderable = true → t.bucket.bucketInstanceId ≠ 0 ∧
      ∃ idx, st.layerIndex.held t.id = some idx ∧
        idx.bucketInstanceId = t.bucket.bucketInstanceId) :
    (tiles.foldl addLayerStep st).layerIndex = st.layerIndex ∧
    (tiles.foldl addLayerStep st).maxCrossTileID = st.maxCrossTileID ∧
    (tiles.foldl addLayerStep st).maxBucketInstanceId = st.maxBucketInstanceId ∧
    (tiles.foldl addLayerStep st).symbolBucketsChanged = st.symbolBucketsChanged ∧
    (tiles.foldl addLayerStep st).renderTiles = st.renderTiles ++ tiles ∧
    (∀ g, g ∈ (tiles.foldl addLayerStep st).currentBucketIDs ↔
      g ∈ st.currentBucketIDs ∨
        ∃ t ∈ tiles, t.renderable = true ∧ g = t.bucket.bucketInstanceId) := by
  induction tiles generalizing st with
  | nil => simp
  | cons a rest ih =>
    simp only [List.foldl_cons]
    cases hr : a.renderable with
    | false =>
      rw [addLayerStep_skip st a hr]
      obtain ⟨g1, g2, g3, g4, g5, g6⟩ := ih { st with renderTiles := st.renderTiles ++ [a] }
        (fun t ht => h t (List.mem_cons_of_mem _ ht))
      simp only at g1 g2 g3 g4 g5 g6
      refine ⟨g1, g2, g3, g4, by simpa using g5, ?_⟩
      intro g
      rw [g6 g]
      constructor
      · rintro (hg | ⟨t, ht, htr, hg⟩)
        · exact Or.inl hg
        · exact Or.inr ⟨t, List.mem_cons_of_mem _ ht, htr, hg⟩
      · rintro (hg | ⟨t, ht, htr, hg⟩)
        · exact Or.inl hg
        · rcases List.mem_cons.1 ht with ht | ht
          · subst ht; rw [hr] at htr; exact Bool.noConfusion htr
          · exact Or.inr ⟨t, ht, htr, hg⟩
    | true =>
      obtain ⟨hnz, idx, hheld, hgen⟩ := h a (List.mem_cons_self _ _) hr
      have hstamp : stampBucket a.bucket st.maxBucketInstanceId =
          (a.bucket, st.maxBucketInstanceId) := by
        simp [stampBucket, hnz]
      have hunch : (st.layerIndex.addBucket a.id a.bucket st.maxCrossTileID).changed = false := by
        cases hc : (st.layerIndex.addBucket a.id a.bucket st.maxCrossTileID).changed with
        | false => rfl
        | true =>
          exact absurd ⟨idx, hheld, hgen⟩ ((addBucket_changed_iff _ _ _ _).1 hc)
      have hres := addBucket_of_unchanged _ _ _ _ hunch
      have hstep : addLayerStep st a =
          { st with
            currentBucketIDs := a.bucket.bucketInstanceId :: st.currentBucketIDs
            renderTiles := st.renderTiles ++ [a] } := by
        rw [addLayerStep_renderable st a hr, hstamp]
        simp only [hres, Bool.or_false]
      rw [hstep]
      obtain ⟨g1, g2, g3, g4, g5, g6⟩ := ih
        { st with
          currentBucketIDs := a.bucket.bucketInstanceId :: st.currentBucketIDs
          renderTiles := st.renderTiles ++ [a] }
        (fun t ht => h t (List.mem_cons_of_mem _ ht))
      simp only at g1 g2 g3 g4 g5 g6
      refine ⟨g1, g2, g3, g4, by simpa using g5, ?_⟩
      intro g
      rw [g6 g]
      constructor
      · rintro (hg | ⟨t, ht, htr, hg⟩)
        · rcases List.mem_cons.1 hg with hg | hg
          · exact Or.inr ⟨a, List.mem_cons_self _ _, hr, hg⟩
          · exact Or.inl hg
        · exact Or.inr ⟨t, List.mem_cons_of_mem _ ht, htr, hg⟩
      · rintro (hg | ⟨t, ht, htr, hg⟩)
        · exact Or.inl (List.mem_cons_of_mem _ hg)
        · rcases List.mem_cons.1 ht with ht | ht
          · subst ht; exact Or.inl (hg ▸ List.mem_cons_self _ _)
          · exact Or.inr ⟨t, ht, htr, hg⟩

theorem addLayer_eq (self : CrossTileSymbolIndex) (symbolLayer : RenderSymbolLayer) :
    self.addLayer symbolLayer =
      ⟨(self.loopExit symbolLayer).symbolBucketsChanged ||
          ((self.loopExit symbolLayer).layerIndex.removeStaleBuckets
            (self.loopExit symbolLayer).currentBucketIDs).2,
        ⟨mapModify (mapSubscript keyLt self.layerIndexes symbolLayer.id ⟨[]⟩) symbolLayer.id
            (fun _ => ((self.loopExit symbolLayer).layerIndex.removeStaleBuckets
              (self.loopExit symbolLayer).currentBucketIDs).1),
          (self.loopExit symbolLayer).maxCrossTileID,
          (self.loopExit symbolLayer).maxBucketInstanceId⟩,
        { symbolLayer with renderTiles := (self.loopExit symbolLayer).renderTiles }⟩ := rfl

/-- C13 (amended): let the renderable tiles of the layer have pairwise
distinct coordinates and let every renderable tile's bucket have a non-zero
generation id after `addLayer` (the generation counter did not wrap to 0).
Then a second `addLayer` with the layer as the first call handed it back
returns false and leaves the top-level index (all held indexes, both
counters) and the layer (all identities and generation ids) unchanged. -/
theorem addLayer_settles (self : CrossTileSymbolIndex) (symbolLayer : RenderSymbolLayer)
    (hdist : ∀ (i j : Nat) (ti tj : RenderTile), i ≠ j →
      symbolLayer.renderTiles[i]? = some ti → symbolLayer.renderTiles[j]? = some tj →
      ti.renderable = true → tj.renderable = true → ti.id ≠ tj.id)
    (hnz : ∀ o ∈ (self.addLayer symbolLayer).symbolLayer.renderTiles, o.renderable = true →
      o.bucket.bucketInstanceId ≠ 0) :
    (self.addLayer symbolLayer).self.addLayer (self.addLayer symbolLayer).symbolLayer =
      ⟨false, (self.addLayer symbolLayer).self, (self.addLayer symbolLayer).symbolLayer⟩ := by
  obtain ⟨hlen, hget⟩ := addLayer_renderTiles self symbolLayer
  have hid : (self.addLayer symbolLayer).symbolLayer.id = symbolLayer.id := rfl
  -- every tile handed back is the visit of an input tile
  have hout : ∀ o ∈ (self.addLayer symbolLayer).symbolLayer.renderTiles,
      ∃ (i : Nat) (t : RenderTile), symbolLayer.renderTiles[i]? = some t ∧
        o = (self.loopBefore symbolLayer i).visit t := by
    intro o ho
    obtain ⟨i, hi⟩ := List.mem_iff_getElem?.1 ho
    have hlt : i < symbolLayer.renderTiles.length := by
      rw [← hlen]; exact (List.getElem?_eq_some.1 hi).1
    have ht : symbolLayer.renderTiles[i]? = some (symbolLayer.renderTiles[i]) :=
      List.getElem?_eq_getElem hlt
    rw [hget i _ ht] at hi
    exact ⟨i, _, ht, (Option.some.inj hi).symm⟩
  -- the second loop finds every renderable tile settled
  have hsettled : ∀ o ∈ (self.addLayer symbolLayer).symbolLayer.renderTiles,
      o.renderable = true → o.bucket.bucketInstanceId ≠ 0 ∧
      ∃ idx, ((self.addLayer symbolLayer).self.loopEntry symbolLayer.id).layerIndex.held o.id =
          some idx ∧ idx.bucketInstanceId = o.bucket.bucketInstanceId := by
    intro o ho hr
    refine ⟨hnz o ho hr, ?_⟩
    obtain ⟨i, t, ht, heq⟩ := hout o ho
    have hrt : t.renderable = true := by
      rw [← (visit_fields (self.loopBefore symbolLayer i) t).2.1, ← heq]; exact hr
    have hidt : o.id = t.id := by
      rw [heq]; exact (visit_fields (self.loopBefore symbolLayer i) t).1
    obtain ⟨idx, h1, h2⟩ := addLayer_held_renderable self symbolLayer i t ht hrt
      (fun j t' hj ht' hr' => hdist j i t' t hj ht' ht hr' hrt)
    rw [hidt, heq]
    exact ⟨idx, h1, h2⟩
  obtain ⟨g1, g2, g3, g4, g5, g6⟩ := foldl_addLayerStep_settled
    (self.addLayer symbolLayer).symbolLayer.renderTiles
    ((self.addLayer symbolLayer).self.loopEntry symbolLayer.id) hsettled
  -- nothing is stale in the second call
  have hlive : ∀ zoomIndexes ∈
      ((self.addLayer symbolLayer).self.layerIndex symbolLayer.id).indexes,
      ∀ it ∈ zoomIndexes.2, it.2.bucketInstanceId ∈
        ((self.addLayer symbolLayer).self.loopExit (self.addLayer symbolLayer).symbolLayer).currentBucketIDs := by
    intro zi hzi it hit
    obtain ⟨i, t, ht, hr, heq⟩ := addLayer_entries_live self symbolLayer zi hzi it hit
    apply (g6 _).2
    refine Or.inr ⟨(self.loopBefore symbolLayer i).visit t, ?_, ?_, heq⟩
    · exact List.getElem?_mem (hget i t ht)
    · rw [(visit_fields _ t).2.1]; exact hr
  have hexitIdx : ((self.addLayer symbolLayer).self.loopExit
      (self.addLayer symbolLayer).symbolLayer).layerIndex =
      (self.addLayer symbolLayer).self.layerIndex symbolLayer.id := g1
  have hprune := removeStaleBuckets_of_all_live
    ((self.addLayer symbolLayer).self.loopExit (self.addLayer symbolLayer).symbolLayer).layerIndex
    ((self.addLayer symbolLayer).self.loopExit
      (self.addLayer symbolLayer).symbolLayer).currentBucketIDs
    (by rw [hexitIdx]; exact hlive)
  rw [addLayer_eq (self.addLayer symbolLayer).self (self.addLayer symbolLayer).symbolLayer]
  rw [hprune]
  have hc : ((self.addLayer symbolLayer).self.loopExit
      (self.addLayer symbolLayer).symbolLayer).maxCrossTileID =
      (self.addLayer symbolLayer).self.maxCrossTileID := g2
  have hg : ((self.addLayer symbolLayer).self.loopExit
      (self.addLayer symbolLayer).symbolLayer).maxBucketInstanceId =
      (self.addLayer symbolLayer).self.maxBucketInstanceId := g3
  have hch : ((self.addLayer symbolLayer).self.loopExit
      (self.addLayer symbolLayer).symbolLayer).symbolBucketsChanged = false := g4
  have hrt : ((self.addLayer symbolLayer).self.loopExit
      (self.addLayer symbolLayer).symbolLayer).renderTiles =
      (self.addLayer symbolLayer).symbolLayer.renderTiles := by
    have := g5
    simpa [CrossTileSymbolIndex.loopEntry] using this
  rw [hc, hg, hch, hrt, hexitIdx]
  have hmap : mapModify
      (mapSubscript keyLt (self.addLayer symbolLayer).self.layerIndexes
        (self.addLayer symbolLayer).symbolLayer.id ⟨[]⟩)
      (self.addLayer symbolLayer).symbolLayer.id
      (fun _ => (self.addLayer symbolLayer).self.layerIndex symbolLayer.id) =
      (self.addLayer symbolLayer).self.layerIndexes := by
    rw [hid, addLayer_layerIndex]
    have hX : (self.addLayer symbolLayer).self.layerIndexes =
        mapModify (mapSubscript keyLt self.layerIndexes symbolLayer.id ⟨[]⟩) symbolLayer.id
          (fun _ => ((self.loopExit symbolLayer).layerIndex.removeStaleBuckets
            (self.loopExit symbolLayer).currentBucketIDs).1) := rfl
    have hfind : mapFind (self.addLayer symbolLayer).self.layerIndexes symbolLayer.id =
        some ((self.loopExit symbolLayer).layerIndex.removeStaleBuckets
            (self.loopExit symbolLayer).currentBucketIDs).1 := by
      rw [hX, mapFind_mapModify, if_pos rfl, mapFind_mapSubscript_self]
      rfl
    rw [mapSubscript_of_present keyLt _ _ _ _ hfind, hX, mapModify_const_idem]
  rw [hmap]
  rfl

/-- C13 (amended) at a concrete input: a second `addLayer` from the empty
index with the layer of tiles A, B and the tile C that is not renderable
returns false and changes nothing. -/
theorem addLayer_settles_witness :
    ((CrossTileSymbolIndex.empty.addLayer exSymbolLayer).self.addLayer
      (CrossTileSymbolIndex.empty.addLayer exSymbolLayer).symbolLayer).changed = false := by
  rw [addLayer_settles CrossTileSymbolIndex.empty exSymbolLayer ?_ (by decide)]
  intro i j ti tj hij hi hj hri hrj
  have hi3 : i < 3 := (List.getElem?_eq_some.1 hi).1
  have hj3 : j < 3 := (List.getElem?_eq_some.1 hj).1
  interval_cases i <;> interval_cases j <;>
    simp [exSymbolLayer] at hi hj <;> subst hi <;> subst hj <;>
    first
      | exact absurd rfl hij
      | exact absurd hri (by decide)
      | exact absurd hrj (by decide)
      | decide

/-- C13 fails as stated: with the generation counter at `2 ^ 32 - 1`, the
first `addLayer` stamps the bucket of the renderable tile A with the wrapped
value 0; the second `addLayer` with the same tile and bucket takes the bucket
for one without generation id, stamps it with 1, re-indexes the tile and
returns true, and the generation counter has moved. -/
theorem addLayer_settles_counterexample :
    (exStateGenMax.addLayer exLayerOneTile).symbolLayer.renderTiles.map
      (fun t => t.bucket.bucketInstanceId) = [0] ∧
    ((exStateGenMax.addLayer exLayerOneTile).self.addLayer
      (exStateGenMax.addLayer exLayerOneTile).symbolLayer).changed = true ∧
    (exStateGenMax.addLayer exLayerOneTile).self.maxBucketInstanceId = 0 ∧
    ((exStateGenMax.addLayer exLayerOneTile).self.addLayer
      (exStateGenMax.addLayer exLayerOneTile).symbolLayer).self.maxBucketInstanceId = 1 := by
  decide

/-! ## A new generation of a bucket -/

theorem clearIDs_eq_of_same (l1 l2 : List SymbolInstance)
    (h : l1.map (fun s => (s.key, s.anchor)) = l2.map (fun s => (s.key, s.anchor))) :
    clearIDs l1 = clearIDs l2 := by
  have hc : ∀ l : List SymbolInstance, clearIDs l =
      (l.map (fun s => (s.key, s.anchor))).map (fun p => (⟨p.1, p.2, 0⟩ : SymbolInstance)) := by
    intro l
    simp [clearIDs, List.map_map, Function.comp_def]
  rw [hc l1, hc l2, h]

/-- C17: two buckets with the same generation id, not held at the tile, and
the same keys and anchors in the same order, whatever identities their
instances carry on entry, give the same result of `addBucket`: the same
final identities, the same stored index and the same counter. -/
theorem addBucket_ignores_incoming_identities (self : CrossTileSymbolLayerIndex)
    (tileID : OverscaledTileID) (b1 b2 : SymbolBucket) (c : Nat)
    (hgen : b1.bucketInstanceId = b2.bucketInstanceId)
    (hsame : b1.symbolInstances.map (fun s => (s.key, s.anchor)) =
      b2.symbolInstances.map (fun s => (s.key, s.anchor)))
    (hnew : (self.addBucket tileID b1 c).changed = true) :
    self.addBucket tileID b1 c = self.addBucket tileID b2 c := by
  have hnew2 : (self.addBucket tileID b2 c).changed = true := by
    rw [addBucket_changed_iff] at hnew ⊢
    rw [← hgen]; exact hnew
  have hscan : self.afterScan tileID b1 = self.afterScan tileID b2 := by
    unfold CrossTileSymbolLayerIndex.afterScan
    rw [clearIDs_eq_of_same _ _ hsame]
  rw [addBucket_of_changed self tileID b1 c hnew, addBucket_of_changed self tileID b2 c hnew2,
    hscan, hgen]

/-- C17 at a concrete input: the bucket of tile B with a left-over identity 77
and the same bucket with identity 0 give the same result. -/
theorem addBucket_ignores_incoming_identities_witness :
    exLayerA.addBucket exTileB exBucketB 1 =
      exLayerA.addBucket exTileB ⟨6, [{ exInstB with crossTileID := 0 }]⟩ 1 :=
  addBucket_ignores_incoming_identities exLayerA exTileB exBucketB
    ⟨6, [{ exInstB with crossTileID := 0 }]⟩ 1 rfl rfl (by decide)

theorem scaledTo_self (tileID : OverscaledTileID)
    (hvalid : tileID.canonical.z ≤ tileID.overscaledZ) :
    tileID.scaledTo tileID.overscaledZ = tileID := by
  unfold OverscaledTileID.scaledTo
  simp [hvalid]

theorem filter_key_singleton (l : List SymbolInstance) (s : SymbolInstance)
    (hnd : (l.map (fun x => x.key)).Nodup) (hs : s ∈ l) :
    l.filter (fun x => decide (x.key = s.key)) = [s] := by
  induction l with
  | nil => simp at hs
  | cons a rest ih =>
    simp only [List.map_cons, List.nodup_cons] at hnd
    rcases List.mem_cons.1 hs with h | h
    · subst h
      have hrest : rest.filter (fun x => decide (x.key = s.key)) = [] := by
        rw [List.filter_eq_nil_iff]
        intro x hx hk
        simp only [decide_eq_true_eq] at hk
        exact hnd.1 (hk ▸ List.mem_map.2 ⟨x, hx, rfl⟩)
      simp [List.filter_cons, hrest]
    · have hne : ¬ a.key = s.key := fun hk => hnd.1 (hk ▸ List.mem_map.2 ⟨s, h, rfl⟩)
      simp [List.filter_cons, hne, ih hnd.2 h]

theorem withinTolerance_self (tolerance : Nat) (r : IndexedSymbolInstance) :
    withinTolerance tolerance r r.coord = true := by
  simp [withinTolerance]

theorem assignNewIDs_of_all_assigned (l : List SymbolInstance) (c : Nat)
    (h : ∀ s ∈ l, s.crossTileID ≠ 0) : assignNewIDs l c = (l, c) := by
  induction l with
  | nil => rfl
  | cons a rest ih =>
    unfold assignNewIDs
    have ha : a.crossTileID ≠ 0 := h a (List.mem_cons_self _ _)
    simp only [ha, if_false]
    rw [ih (fun s hs => h s (List.mem_cons_of_mem _ hs))]

/-- What an index built from instances with distinct keys stores under the key
of one of them: the record of that instance alone. -/
theorem ctor_find_singleton (coord : OverscaledTileID) (symbolInstances : List SymbolInstance)
    (bucketInstanceId : Nat) (s : SymbolInstance)
    (hnd : (symbolInstances.map (fun x => x.key)).Nodup) (hs : s ∈ symbolInstances) :
    mapFind (TileLayerIndex.ctor coord symbolInstances bucketInstanceId).indexedSymbolInstances
      s.key = some [recordOf coord s] := by
  rw [ctor_find, filter_key_singleton symbolInstances s hnd hs]
  simp

/-- C16 (amended): let the tile coordinate be well formed (overscaled zoom not
below the canonical zoom), let the layer index hold at it an index built from
instances with pairwise distinct keys and non-zero identities, and let every
index that `addBucket` scans for the tile be that index. Then `addBucket` with
a bucket of another generation id whose instances have the same keys and
anchors, in any order, gives every instance the identity that the old
instance with its key had, and leaves the counter unchanged. -/
theorem addBucket_regeneration (self : CrossTileSymbolLayerIndex) (tileID : OverscaledTileID)
    (oldInstances : List SymbolInstance) (oldId : Nat) (bucket : SymbolBucket) (c : Nat)
    (hvalid : tileID.canonical.z ≤ tileID.overscaledZ)
    (hheld : self.held tileID = some (TileLayerIndex.ctor tileID oldInstances oldId))
    (hkeys : (oldInstances.map (fun s => s.key)).Nodup)
    (hnz : ∀ s ∈ oldInstances, s.crossTileID ≠ 0)
    (honly : ∀ zoom idx, Scanned self tileID zoom idx →
      idx = TileLayerIndex.ctor tileID oldInstances oldId)
    (hgen : bucket.bucketInstanceId ≠ oldId)
    (hperm : (bucket.symbolInstances.map (fun s => (s.key, s.anchor))).Perm
      (oldInstances.map (fun s => (s.key, s.anchor)))) :
    (self.addBucket tileID bucket c).changed = true ∧
    (self.addBucket tileID bucket c).maxCrossTileID = c ∧
    (self.addBucket tileID bucket c).bucket.symbolInstances.length =
      bucket.symbolInstances.length ∧
    ∀ (i : Nat) (s' : SymbolInstance), bucket.symbolInstances[i]? = some s' →
      ∃ s ∈ oldInstances, s.key = s'.key ∧ s.anchor = s'.anchor ∧
        (self.addBucket tileID bucket c).bucket.symbolInstances[i]? =
          some { s' with crossTileID := s.crossTileID } := by
  have hchanged : (self.addBucket tileID bucket c).changed = true := by
    rw [addBucket_changed_iff]
    rintro ⟨idx, hidx, hid⟩
    rw [hheld] at hidx
    simp only [Option.some.injEq] at hidx
    rw [← hidx, ctor_bucketInstanceId] at hid
    exact hgen hid.symm
  -- the old index is scanned
  have hscanned : TileLayerIndex.ctor tileID oldInstances oldId ∈
      scannedIndexes self.indexes tileID := by
    rw [mem_scannedIndexes_iff]
    unfold CrossTileSymbolLayerIndex.held CrossTileSymbolLayerIndex.heldAt at hheld
    cases hz : mapFind self.indexes tileID.overscaledZ with
    | none => rw [hz] at hheld; exact Option.noConfusion hheld
    | some zoomIndexes =>
      rw [hz] at hheld
      exact ⟨tileID.overscaledZ, zoomIndexes, mapFind_mem _ _ _ hz,
        Or.inl ⟨Nat.le_refl _, by rw [scaledTo_self tileID hvalid]; exact hheld⟩⟩
  -- what the scan gives to one instance
  have hone : ∀ (s' : SymbolInstance), s' ∈ bucket.symbolInstances →
      ∃ s ∈ oldInstances, s.key = s'.key ∧ s.anchor = s'.anchor ∧
        matchAll (scannedIndexes self.indexes tileID) tileID { s' with crossTileID := 0 } =
          { s' with crossTileID := s.crossTileID } := by
    intro s' hs'
    have hmem : (s'.key, s'.anchor) ∈ oldInstances.map (fun s => (s.key, s.anchor)) :=
      hperm.subset (List.mem_map.2 ⟨s', hs', rfl⟩)
    obtain ⟨s, hs, heq⟩ := List.mem_map.1 hmem
    simp only [Prod.mk.injEq] at heq
    obtain ⟨hk, ha⟩ := heq
    refine ⟨s, hs, hk, ha, ?_⟩
    have hfind := ctor_find_singleton tileID oldInstances oldId s hkeys hs
    have hcoord : (TileLayerIndex.ctor tileID oldInstances oldId).getScaledCoordinates
        { s' with crossTileID := 0 } tileID = (recordOf tileID s).coord := by
      unfold recordOf TileLayerIndex.getScaledCoordinates
      simp only [ctor_coord, ha]
    have hmatch : MatchesRecord (TileLayerIndex.ctor tileID oldInstances oldId) tileID
        { s' with crossTileID := 0 } (recordOf tileID s) := by
      refine ⟨[recordOf tileID s], ?_, List.mem_singleton.2 rfl, ?_⟩
      · show mapFind _ s'.key = _
        rw [← hk]; exact hfind
      · rw [hcoord]; exact withinTolerance_self _ _
    have hall : ∀ idx ∈ scannedIndexes self.indexes tileID, ∀ r,
        MatchesRecord idx tileID { s' with crossTileID := 0 } r → r = recordOf tileID s := by
      intro idx hidx r hr
      obtain ⟨zoom, hz⟩ := (mem_scannedIndexes_iff self tileID idx).1 hidx
      rw [honly zoom idx hz] at hr
      obtain ⟨records, hrec, hrmem, _⟩ := hr
      have hrec' : mapFind (TileLayerIndex.ctor tileID oldInstances oldId).indexedSymbolInstances
          s.key = some records := by rw [hk]; exact hrec
      rw [hfind] at hrec'
      simp only [Option.some.injEq] at hrec'
      rw [← hrec'] at hrmem
      exact List.mem_singleton.1 hrmem
    have hne : (matchAll (scannedIndexes self.indexes tileID) tileID
        { s' with crossTileID := 0 }).crossTileID ≠ 0 := by
      apply matchAll_nonzero _ _ _ rfl ⟨_, hscanned, _, hmatch⟩
      intro idx hidx r hr
      rw [hall idx hidx r hr]
      exact hnz s hs
    have hid : (matchAll (scannedIndexes self.indexes tileID) tileID
        { s' with crossTileID := 0 }).crossTileID = s.crossTileID := by
      rcases matchAll_origin (scannedIndexes self.indexes tileID) tileID
        { s' with crossTileID := 0 } rfl with h | ⟨idx, hidx, r, hr, hrid⟩
      · exact absurd h hne
      · rw [hrid, hall idx hidx r hr]; rfl
    have hka := matchAll_key (scannedIndexes self.indexes tileID) tileID
      { s' with crossTileID := 0 }
    cases hm : matchAll (scannedIndexes self.indexes tileID) tileID { s' with crossTileID := 0 }
    rw [hm] at hid hka
    simp only at hid hka
    rw [hka.1, hka.2, hid]
  -- the scan leaves no instance without identity
  have hscan : self.afterScan tileID bucket =
      bucket.symbolInstances.map (fun s' =>
        matchAll (scannedIndexes self.indexes tileID) tileID { s' with crossTileID := 0 }) :=
    afterScan_eq_map self tileID bucket
  have hassigned : ∀ x ∈ self.afterScan tileID bucket, x.crossTileID ≠ 0 := by
    intro x hx
    rw [hscan] at hx
    obtain ⟨s', hs', heq⟩ := List.mem_map.1 hx
    obtain ⟨s, hs, _, _, hres⟩ := hone s' hs'
    rw [← heq, hres]
    exact hnz s hs
  have hres := addBucket_of_changed self tileID bucket c hchanged
  rw [assignNewIDs_of_all_assigned _ c hassigned] at hres
  rw [hres]
  refine ⟨rfl, rfl, afterScan_length self tileID bucket, ?_⟩
  intro i s' hs'
  obtain ⟨s, hs, hk, ha, hm⟩ := hone s' (List.getElem?_mem hs')
  refine ⟨s, hs, hk, ha, ?_⟩
  show (self.afterScan tileID bucket)[i]? = _
  rw [hscan, List.getElem?_map, hs']
  simp only [Option.map_some', hm]

theorem scanned_exLayerPair (zoom : Nat) (idx : TileLayerIndex)
    (h : Scanned exLayerPair exTileA zoom idx) : idx = TileLayerIndex.ctor exTileA exPair 5 := by
  have hmem := (mem_scannedIndexes_iff exLayerPair exTileA idx).2 ⟨zoom, h⟩
  have hl : scannedIndexes exLayerPair.indexes exTileA =
      [TileLayerIndex.ctor exTileA exPair 5] := by decide
  rw [hl] at hmem
  simpa using hmem

/-- C16 (amended) at a concrete input: tile A is held with the identities 1
and 2 for the keys `[1]` and `[2]`; the regenerated bucket (generation id 9)
with the two instances in the other order gets the identities 2 and 1, and
the counter stays at 2. -/
theorem addBucket_regeneration_witness :
    (exLayerPair.addBucket exTileA exBucketPairRegen 2).maxCrossTileID = 2 ∧
    (exLayerPair.addBucket exTileA exBucketPairRegen 2).bucket.symbolInstances.map
      (fun s => s.crossTileID) = [2, 1] := by
  have h := addBucket_regeneration exLayerPair exTileA exPair 5
    exBucketPairRegen 2 (by decide) (by decide) (by decide) (by decide) scanned_exLayerPair
    (by decide) (by decide)
  exact ⟨h.2.1, by decide⟩

/-- C16 fails as stated, for an old index whose record carries the identity
0: tile A is held, built from one instance with key `[1]` and identity 0, and
no other index is held; `addBucket` with the same instance under a new
generation id gives it the fresh identity 42 and moves the counter from 41 to
42. -/
theorem addBucket_regeneration_counterexample :
    exLayerZero.held exTileA = some (TileLayerIndex.ctor exTileA [exInstA] 5) ∧
    exLayerZero.indexes = [(10, [(exTileA, TileLayerIndex.ctor exTileA [exInstA] 5)])] ∧
    exBucketARegen.symbolInstances = [exInstA] ∧
    (exLayerZero.addBucket exTileA exBucketARegen 41).bucket.symbolInstances =
      [{ exInstA with crossTileID := 42 }] ∧
    (exLayerZero.addBucket exTileA exBucketARegen 41).maxCrossTileID = 42 := by
  decide

/-! ## Identities after `reset` -/

theorem IdsAbove_empty (c : Nat) : IdsAbove ⟨[]⟩ c := by
  intro zi hzi
  simp at hzi

theorem IdsAbove_mapSubscript (c : Nat)
    (indexes : List (Nat × List (OverscaledTileID × TileLayerIndex))) (zoom : Nat)
    (hb : IdsAbove ⟨indexes⟩ c) : IdsAbove ⟨mapSubscript zoomLt indexes zoom []⟩ c := by
  intro zi hzi it hit
  rcases mem_mapSubscript _ _ _ _ _ hzi with h | h
  · subst h; simp at hit
  · exact hb zi h it hit

theorem above_indexInstance (c : Nat) (idx : TileLayerIndex) (s : SymbolInstance)
    (hb : ∀ kv ∈ idx.indexedSymbolInstances, ∀ r ∈ kv.2, c < r.crossTileID)
    (hs : c < s.crossTileID) :
    ∀ kv ∈ (idx.indexInstance s).indexedSymbolInstances, ∀ r ∈ kv.2, c < r.crossTileID := by
  intro kv hkv r hr
  unfold TileLayerIndex.indexInstance at hkv
  simp only at hkv
  rcases mem_mapModify (mapSubscript keyLt idx.indexedSymbolInstances s.key []) s.key _ kv hkv
    with h | ⟨v, hv, heq⟩
  · rcases mem_mapSubscript _ _ _ _ _ h with h | h
    · subst h; simp at hr
    · exact hb kv h r hr
  · subst heq
    rcases List.mem_append.1 hr with hr | hr
    · rcases mem_mapSubscript _ _ _ _ _ hv with h | h
      · simp only [Prod.mk.injEq] at h
        rw [h.2] at hr
        simp at hr
      · exact hb _ h r hr
    · simp only [List.mem_singleton] at hr
      subst hr
      exact hs

theorem above_ctor (c : Nat) (coord : OverscaledTileID)
    (symbolInstances : List SymbolInstance) (bucketInstanceId : Nat)
    (hs : ∀ s ∈ symbolInstances, c < s.crossTileID) :
    ∀ kv ∈ (TileLayerIndex.ctor coord symbolInstances bucketInstanceId).indexedSymbolInstances,
      ∀ r ∈ kv.2, c < r.crossTileID := by
  unfold TileLayerIndex.ctor
  have hgen : ∀ (l : List SymbolInstance) (acc : TileLayerIndex),
      (∀ kv ∈ acc.indexedSymbolInstances, ∀ r ∈ kv.2, c < r.crossTileID) →
      (∀ s ∈ l, c < s.crossTileID) →
      ∀ kv ∈ (l.foldl TileLayerIndex.indexInstance acc).indexedSymbolInstances,
        ∀ r ∈ kv.2, c < r.crossTileID := by
    intro l
    induction l with
    | nil => intro acc hacc _; exact hacc
    | cons a rest ih =>
      intro acc hacc hl
      simp only [List.foldl_cons]
      exact ih _ (above_indexInstance c acc a hacc (hl a (List.mem_cons_self _ _)))
        (fun s hs' => hl s (List.mem_cons_of_mem _ hs'))
  apply hgen _ _ _ hs
  intro kv hkv
  simp at hkv

theorem IdsAbove_replaceIndex (c : Nat)
    (indexes : List (Nat × List (OverscaledTileID × TileLayerIndex)))
    (tileID : OverscaledTileID) (index : TileLayerIndex)
    (hb : IdsAbove ⟨indexes⟩ c)
    (hi : ∀ kv ∈ index.indexedSymbolInstances, ∀ r ∈ kv.2, c < r.crossTileID) :
    IdsAbove ⟨replaceIndex indexes tileID index⟩ c := by
  intro zi hzi it hit
  unfold replaceIndex at hzi
  simp only at hzi
  have hsub : ∀ zi' ∈ mapSubscript zoomLt indexes tileID.overscaledZ [],
      ∀ it' ∈ zi'.2, ∀ kv ∈ it'.2.indexedSymbolInstances, ∀ r ∈ kv.2, c < r.crossTileID := by
    intro zi' hzi' it' hit'
    rcases mem_mapSubscript _ _ _ _ _ hzi' with h | h
    · subst h; simp at hit'
    · exact hb zi' h it' hit'
  have hmod : ∀ zi' ∈ mapModify (mapSubscript zoomLt indexes tileID.overscaledZ [])
      tileID.overscaledZ (fun zoomIndexes => mapErase zoomIndexes tileID),
      ∀ it' ∈ zi'.2, ∀ kv ∈ it'.2.indexedSymbolInstances, ∀ r ∈ kv.2, c < r.crossTileID := by
    intro zi' hzi' it' hit'
    rcases mem_mapModify _ _ _ _ hzi' with h | ⟨v, hv, heq⟩
    · exact hsub zi' h it' hit'
    · subst heq
      exact hsub _ hv it' (mem_mapErase _ _ _ hit')
  have hsub2 : ∀ zi' ∈ mapSubscript zoomLt
      (mapModify (mapSubscript zoomLt indexes tileID.overscaledZ [])
        tileID.overscaledZ (fun zoomIndexes => mapErase zoomIndexes tileID))
      tileID.overscaledZ [], ∀ it' ∈ zi'.2,
        ∀ kv ∈ it'.2.indexedSymbolInstances, ∀ r ∈ kv.2, c < r.crossTileID := by
    intro zi' hzi' it' hit'
    rcases mem_mapSubscript _ _ _ _ _ hzi' with h | h
    · subst h; simp at hit'
    · exact hmod zi' h it' hit'
  rcases mem_mapModify _ _ _ _ hzi with h | ⟨v, hv, heq⟩
  · exact hsub2 zi h it hit
  · subst heq
    rcases mem_mapEmplace _ _ _ _ _ hit with h | h
    · subst h; exact hi
    · exact hsub2 _ hv it h

/-- In a layer index whose identities are above `c0` the scan leaves
identities that are 0 or above `c0`. -/
theorem afterScan_above (self : CrossTileSymbolLayerIndex) (c0 : Nat) (hb : IdsAbove self c0)
    (tileID : OverscaledTileID) (bucket : SymbolBucket) :
    ∀ s ∈ self.afterScan tileID bucket, s.crossTileID = 0 ∨ c0 < s.crossTileID := by
  intro s hs
  rw [afterScan_eq_map] at hs
  obtain ⟨s0, _, heq⟩ := List.mem_map.1 hs
  subst heq
  rcases matchAll_origin (scannedIndexes self.indexes tileID) tileID
    { s0 with crossTileID := 0 } rfl with h | ⟨idx, hidx, r, hr, hid⟩
  · exact Or.inl h
  · right
    rw [hid]
    obtain ⟨zoom, zoomIndexes, hz, h⟩ := (mem_scannedIndexes_iff self tileID idx).1 hidx
    obtain ⟨records, hfind, hmem, _⟩ := hr
    have hkv := mapFind_mem _ _ _ hfind
    rcases h with ⟨_, hf⟩ | ⟨_, _, t, ht⟩
    · exact hb _ hz _ (mapFind_mem _ _ _ hf) _ hkv r hmem
    · exact hb _ hz _ ht _ hkv r hmem

theorem assignNewIDs_above (l : List SymbolInstance) (c c0 : Nat) (hc0 : c0 ≤ c)
    (hc : c + countUnassigned l < 2 ^ 32)
    (hl : ∀ s ∈ l, s.crossTileID = 0 ∨ c0 < s.crossTileID) :
    ∀ s ∈ (assignNewIDs l c).1, c0 < s.crossTileID := by
  induction l generalizing c with
  | nil => simp [assignNewIDs]
  | cons a rest ih =>
    rw [countUnassigned_cons] at hc
    unfold assignNewIDs
    by_cases h : a.crossTileID = 0
    · simp only [h, if_true] at hc ⊢
      rw [Nat.mod_eq_of_lt (by omega)]
      intro t ht
      rcases List.mem_cons.1 ht with ht | ht
      · subst ht; simp only; omega
      · exact ih (c + 1) (by omega) (by omega)
          (fun s hs => hl s (List.mem_cons_of_mem _ hs)) t ht
    · simp only [h, if_false] at hc ⊢
      intro t ht
      rcases List.mem_cons.1 ht with ht | ht
      · subst ht
        rcases hl t (List.mem_cons_self _ _) with h' | h'
        · exact absurd h' h
        · exact h'
      · exact ih c hc0 (by omega) (fun s hs => hl s (List.mem_cons_of_mem _ hs)) t ht

/-- One `addBucket` call, without overflow, on a layer index whose identities
are above `c0`, with a counter that is at least `c0`: the identities stay
above `c0`, and when the call does not return early every instance of the
bucket ends with an identity above `c0`. -/
theorem addBucket_above (self : CrossTileSymbolLayerIndex) (tileID : OverscaledTileID)
    (bucket : SymbolBucket) (c c0 : Nat) (hb : IdsAbove self c0) (hc0 : c0 ≤ c)
    (hno : c + (self.handedOut tileID bucket c).length < 2 ^ 32) :
    IdsAbove (self.addBucket tileID bucket c).self c0 ∧
    ((self.addBucket tileID bucket c).changed = true →
      ∀ s ∈ (self.addBucket tileID bucket c).bucket.symbolInstances, c0 < s.crossTileID) := by
  cases h : (self.addBucket tileID bucket c).changed with
  | false =>
    rw [addBucket_of_unchanged self tileID bucket c h]
    exact ⟨hb, fun hf => Bool.noConfusion hf⟩
  | true =>
    rw [handedOut_length self tileID bucket c h] at hno
    have hall := assignNewIDs_above _ c c0 hc0 hno (afterScan_above self c0 hb tileID bucket)
    rw [addBucket_of_changed self tileID bucket c h]
    refine ⟨?_, fun _ => hall⟩
    apply IdsAbove_replaceIndex
    · exact IdsAbove_mapSubscript _ _ _ hb
    · exact above_ctor _ _ _ _ hall

theorem IdsAbove_removeStaleBuckets (self : CrossTileSymbolLayerIndex) (c : Nat)
    (currentIDs : List Nat) (hb : IdsAbove self c) :
    IdsAbove (self.removeStaleBuckets currentIDs).1 c := by
  intro zi hzi it hit
  obtain ⟨_, zi', hzi', hit'⟩ := mem_removeStaleBuckets self currentIDs zi hzi it hit
  exact hb zi' hzi' it hit'

theorem IdsAbove_layerIndex (st : CrossTileSymbolIndex) (layerID : List Nat) (c0 : Nat)
    (hb : ∀ layer ∈ st.layerIndexes, IdsAbove layer.2 c0) :
    IdsAbove (st.layerIndex layerID) c0 := by
  unfold CrossTileSymbolIndex.layerIndex
  rw [mapFind_mapSubscript_self]
  cases h : mapFind st.layerIndexes layerID with
  | none => exact IdsAbove_empty _
  | some li => exact hb _ (mapFind_mem _ _ _ h)

theorem above_write_back (layerIndexes : List (List Nat × CrossTileSymbolLayerIndex))
    (layerID : List Nat) (li : CrossTileSymbolLayerIndex) (c : Nat)
    (hb : ∀ layer ∈ layerIndexes, IdsAbove layer.2 c) (hli : IdsAbove li c) :
    ∀ layer ∈ mapModify (mapSubscript keyLt layerIndexes layerID ⟨[]⟩) layerID (fun _ => li),
      IdsAbove layer.2 c := by
  intro layer hl
  rcases mem_mapModify _ _ _ _ hl with h | ⟨v, _, heq⟩
  · rcases mem_mapSubscript _ _ _ _ _ h with h | h
    · subst h; exact IdsAbove_empty _
    · exact hb layer h
  · subst heq; exact hli

/-- The loop of `addLayer`, without overflow, on a layer index whose
identities lie above `c0` and at most the counter. -/
theorem addLayer_loop_above (renderTiles : List RenderTile) (st : AddLayerLoop) (c0 : Nat)
    (hb : IdsBounded st.layerIndex st.maxCrossTileID) (ha : IdsAbove st.layerIndex c0)
    (hc0 : c0 ≤ st.maxCrossTileID)
    (hno : st.maxCrossTileID + (addLayerHandedOut st renderTiles).length < 2 ^ 32) :
    IdsAbove (renderTiles.foldl addLayerStep st).layerIndex c0 := by
  induction renderTiles generalizing st with
  | nil => exact ha
  | cons t rest ih =>
    simp only [List.foldl_cons]
    cases hr : t.renderable with
    | false =>
      rw [addLayerHandedOut_skip st t rest hr] at hno
      have hstep := addLayerStep_skip st t hr
      apply ih
      · rw [hstep]; exact hb
      · rw [hstep]; exact ha
      · rw [hstep]; exact hc0
      · have hc' : (addLayerStep st t).maxCrossTileID = st.maxCrossTileID := by rw [hstep]
        rw [hc']; exact hno
    | true =>
      rw [addLayerHandedOut_renderable st t rest hr, List.length_append] at hno
      have hstep := addLayerStep_renderable st t hr
      obtain ⟨h1, h2, _⟩ := addBucket_invariant st.layerIndex t.id
        (stampBucket t.bucket st.maxBucketInstanceId).1 st.maxCrossTileID hb (by omega)
      obtain ⟨a1, _⟩ := addBucket_above st.layerIndex t.id
        (stampBucket t.bucket st.maxBucketInstanceId).1 st.maxCrossTileID c0 ha hc0 (by omega)
      have hc' : (addLayerStep st t).maxCrossTileID = st.maxCrossTileID +
          (st.layerIndex.handedOut t.id (stampBucket t.bucket st.maxBucketInstanceId).1
            st.maxCrossTileID).length := by rw [hstep]; exact h2
      apply ih
      · rw [hstep]; exact h1
      · rw [hstep]; exact a1
      · rw [hc']; omega
      · rw [hc']; omega

theorem addLayerHandedOut_append (l1 l2 : List RenderTile) (st : AddLayerLoop) :
    addLayerHandedOut st (l1 ++ l2) =
      addLayerHandedOut st l1 ++ addLayerHandedOut (l1.foldl addLayerStep st) l2 := by
  induction l1 generalizing st with
  | nil => simp [addLayerHandedOut]
  | cons a rest ih =>
    show addLayerHandedOut st (a :: (rest ++ l2)) = _
    simp only [addLayerHandedOut, List.foldl_cons, ih, List.append_assoc]

/-- Along every run without overflow from a state whose stored identities lie
above `c0` and at most the counter, they stay so, the counter does not
decrease and the identities handed out are the next consecutive numbers. -/
theorem runFrom_invariant (st1 : CrossTileSymbolIndex) (c0 : Nat)
    (hb1 : st1.StoredIdsBounded) (ha1 : ∀ layer ∈ st1.layerIndexes, IdsAbove layer.2 c0)
    (hc1 : c0 ≤ st1.maxCrossTileID) (st : CrossTileSymbolIndex) (ids : List Nat)
    (h : RunFrom st1 st ids) :
    st.StoredIdsBounded ∧ (∀ layer ∈ st.layerIndexes, IdsAbove layer.2 c0) ∧
    st1.maxCrossTileID ≤ st.maxCrossTileID ∧
    ids = List.range' (st1.maxCrossTileID + 1) (st.maxCrossTileID - st1.maxCrossTileID) := by
  induction h with
  | start => exact ⟨hb1, ha1, Nat.le_refl _, by simp⟩
  | addLayer st ids symbolLayer _ hno ih =>
    obtain ⟨ihb, iha, ihc, ihids⟩ := ih
    obtain ⟨h1, h2, h3⟩ := addLayer_invariant st symbolLayer ihb hno
    refine ⟨h1, ?_, by rw [h2]; omega, ?_⟩
    · exact above_write_back st.layerIndexes symbolLayer.id _ c0 iha
        (IdsAbove_removeStaleBuckets _ _ _
          (addLayer_loop_above symbolLayer.renderTiles (st.loopEntry symbolLayer.id) c0
            (IdsBounded_layerIndex st symbolLayer.id ihb)
            (IdsAbove_layerIndex st symbolLayer.id c0 iha)
            (Nat.le_trans hc1 ihc) hno))
    · rw [h2, ihids]
      conv_lhs => rw [h3]
      rw [show st.maxCrossTileID + 1 =
        st1.maxCrossTileID + 1 + (st.maxCrossTileID - st1.maxCrossTileID) by omega,
        range'_append_range']
      congr 1
      omega
  | addBucket st ids layerID tileID bucket _ hno ih =>
    obtain ⟨ihb, iha, ihc, ihids⟩ := ih
    obtain ⟨h1, h2, h3⟩ := addBucket_invariant (st.layerIndex layerID) tileID bucket
      st.maxCrossTileID (IdsBounded_layerIndex st layerID ihb) hno
    obtain ⟨a1, _⟩ := addBucket_above (st.layerIndex layerID) tileID bucket
      st.maxCrossTileID c0 (IdsAbove_layerIndex st layerID c0 iha) (Nat.le_trans hc1 ihc) hno
    have hc : (st.afterAddBucket layerID tileID bucket).maxCrossTileID =
        st.maxCrossTileID +
          ((st.layerIndex layerID).handedOut tileID bucket st.maxCrossTileID).length := h2
    refine ⟨?_, ?_, by rw [hc]; omega, ?_⟩
    · have hle : st.maxCrossTileID ≤ (st.afterAddBucket layerID tileID bucket).maxCrossTileID := by
        rw [hc]; exact Nat.le_add_right _ _
      exact bounded_write_back st.layerIndexes layerID _ _
        (fun layer hl => IdsBounded_mono hle layer.2 (ihb layer hl)) h1
    · exact above_write_back st.layerIndexes layerID _ c0 iha a1
    · rw [hc, ihids]
      conv_lhs => rw [h3]
      rw [show st.maxCrossTileID + 1 =
        st1.maxCrossTileID + 1 + (st.maxCrossTileID - st1.maxCrossTileID) by omega,
        range'_append_range']
      congr 1
      omega
  | removeStaleBuckets st ids layerID currentIDs _ ih =>
    obtain ⟨ihb, iha, ihc, ihids⟩ := ih
    refine ⟨?_, ?_, ihc, ihids⟩
    · exact bounded_write_back st.layerIndexes layerID _ _ ihb
        (IdsBounded_removeStaleBuckets _ _ _ (IdsBounded_layerIndex st layerID ihb))
    · exact above_write_back st.layerIndexes layerID _ c0 iha
        (IdsAbove_removeStaleBuckets _ _ _ (IdsAbove_layerIndex st layerID c0 iha))
  | reset st ids _ ih =>
    obtain ⟨_, _, ihc, ihids⟩ := ih
    refine ⟨?_, ?_, ihc, ihids⟩
    · intro layer hl
      simp [CrossTileSymbolIndex.reset] at hl
    · intro layer hl
      simp [CrossTileSymbolIndex.reset] at hl

/-- C15 (amended): `reset` empties the map of layer indexes and leaves both
counters unchanged; and along every run from the state after the reset in
which the identity counter does not wrap, with `c` the counter at the time of
the reset: the counter is at least `c`, every identity handed out is above
`c`, every stored identity is above `c`, every instance of a bucket that an
`addBucket` call processes (returns true for) ends with an identity above
`c`, and so does every instance of a renderable tile's bucket that an
`addLayer` call processes. -/
theorem reset_keeps_counters (st0 st : CrossTileSymbolIndex) (ids : List Nat)
    (h : RunFrom st0.reset st ids) :
    st0.reset.layerIndexes = [] ∧
    st0.reset.maxCrossTileID = st0.maxCrossTileID ∧
    st0.reset.maxBucketInstanceId = st0.maxBucketInstanceId ∧
    st0.maxCrossTileID ≤ st.maxCrossTileID ∧
    (∀ a ∈ ids, st0.maxCrossTileID < a) ∧
    (∀ layer ∈ st.layerIndexes, ∀ zoomIndexes ∈ layer.2.indexes, ∀ it ∈ zoomIndexes.2,
      ∀ kv ∈ it.2.indexedSymbolInstances, ∀ r ∈ kv.2, st0.maxCrossTileID < r.crossTileID) ∧
    (∀ (layerID : List Nat) (tileID : OverscaledTileID) (bucket : SymbolBucket),
      st.maxCrossTileID +
        ((st.layerIndex layerID).handedOut tileID bucket st.maxCrossTileID).length < 2 ^ 32 →
      ((st.layerIndex layerID).addBucket tileID bucket st.maxCrossTileID).changed = true →
      ∀ s ∈ ((st.layerIndex layerID).addBucket tileID bucket
        st.maxCrossTileID).bucket.symbolInstances, st0.maxCrossTileID < s.crossTileID) ∧
    (∀ (symbolLayer : RenderSymbolLayer) (i : Nat) (t : RenderTile),
      st.maxCrossTileID + (st.handedOut symbolLayer).length < 2 ^ 32 →
      symbolLayer.renderTiles[i]? = some t → t.renderable = true →
      ((st.loopBefore symbolLayer i).addBucketFor t).changed = true →
      ∃ o, (st.addLayer symbolLayer).symbolLayer.renderTiles[i]? = some o ∧
        ∀ s ∈ o.bucket.symbolInstances, st0.maxCrossTileID < s.crossTileID) := by
  have hinv := runFrom_invariant st0.reset st0.maxCrossTileID
    (by intro layer hl; simp [CrossTileSymbolIndex.reset] at hl)
    (by intro layer hl; simp [CrossTileSymbolIndex.reset] at hl)
    (Nat.le_refl _) st ids h
  obtain ⟨hb, ha, hc, hids⟩ := hinv
  have hc' : st0.maxCrossTileID ≤ st.maxCrossTileID := hc
  refine ⟨rfl, rfl, rfl, hc', ?_, ha, ?_, ?_⟩
  · intro a hmem
    rw [hids] at hmem
    have := List.mem_range'_1.1 hmem
    have h0 : st0.reset.maxCrossTileID = st0.maxCrossTileID := rfl
    omega
  · intro layerID tileID bucket hno hchanged
    exact (addBucket_above (st.layerIndex layerID) tileID bucket st.maxCrossTileID
      st0.maxCrossTileID (IdsAbove_layerIndex st layerID _ ha) hc' hno).2 hchanged
  · intro symbolLayer i t hno ht hr hchanged
    obtain ⟨_, hget⟩ := addLayer_renderTiles st symbolLayer
    refine ⟨_, hget i t ht, ?_⟩
    -- split the hand-out of the loop at position i
    obtain ⟨hi, hgeti⟩ := List.getElem?_eq_some.1 ht
    have hsplit : symbolLayer.renderTiles =
        symbolLayer.renderTiles.take i ++ t :: symbolLayer.renderTiles.drop (i + 1) := by
      rw [← hgeti, ← List.drop_eq_getElem_cons hi, List.take_append_drop]
    have hout : st.handedOut symbolLayer =
        addLayerHandedOut (st.loopEntry symbolLayer.id) (symbolLayer.renderTiles.take i) ++
          ((st.loopBefore symbolLayer i).layerIndex.handedOut t.id
              (stampBucket t.bucket (st.loopBefore symbolLayer i).maxBucketInstanceId).1
              (st.loopBefore symbolLayer i).maxCrossTileID ++
            addLayerHandedOut (addLayerStep (st.loopBefore symbolLayer i) t)
              (symbolLayer.renderTiles.drop (i + 1))) := by
      unfold CrossTileSymbolIndex.handedOut
      conv_lhs => rw [hsplit]
      rw [addLayerHandedOut_append, addLayerHandedOut_renderable _ t _ hr]
      rfl
    rw [hout, List.length_append, List.length_append] at hno
    have hentryb := IdsBounded_layerIndex st symbolLayer.id hb
    have hentrya := IdsAbove_layerIndex st symbolLayer.id st0.maxCrossTileID ha
    have hpre := addLayer_loop_invariant (symbolLayer.renderTiles.take i)
      (st.loopEntry symbolLayer.id) hentryb (by
        show st.maxCrossTileID + _ < _
        omega)
    have hprea := addLayer_loop_above (symbolLayer.renderTiles.take i)
      (st.loopEntry symbolLayer.id) st0.maxCrossTileID hentryb hentrya hc' (by
        show st.maxCrossTileID + _ < _
        omega)
    have hprec : (st.loopBefore symbolLayer i).maxCrossTileID =
        st.maxCrossTileID + (addLayerHandedOut (st.loopEntry symbolLayer.id)
          (symbolLayer.renderTiles.take i)).length := hpre.2.1
    have hbucket : ((st.loopBefore symbolLayer i).visit t).bucket =
        ((st.loopBefore symbolLayer i).addBucketFor t).bucket := by
      simp [AddLayerLoop.visit, hr]
    rw [hbucket]
    exact (addBucket_above (st.loopBefore symbolLayer i).layerIndex t.id
      (stampBucket t.bucket (st.loopBefore symbolLayer i).maxBucketInstanceId).1
      (st.loopBefore symbolLayer i).maxCrossTileID st0.maxCrossTileID hprea
      (by omega) (by omega)).2 hchanged

/-- C15 (amended) at a concrete run: after `reset` of an index whose identity
counter is 5, one `addBucket` for tile A hands out the identity 6. -/
theorem reset_keeps_counters_witness :
    RunFrom exStateFive.reset (exStateFive.reset.afterAddBucket [1] exTileA exBucketA) [6] ∧
    ∀ a ∈ [6], exStateFive.maxCrossTileID < a := by
  have hrun : RunFrom exStateFive.reset (exStateFive.reset.afterAddBucket [1] exTileA exBucketA)
      ([] ++ (exStateFive.reset.layerIndex [1]).handedOut exTileA exBucketA
        exStateFive.reset.maxCrossTileID) :=
    RunFrom.addBucket _ _ [1] exTileA exBucketA RunFrom.start (by decide)
  have hids : ([] : List Nat) ++ (exStateFive.reset.layerIndex [1]).handedOut exTileA exBucketA
      exStateFive.reset.maxCrossTileID = [6] := by decide
  rw [hids] at hrun
  exact ⟨hrun, (reset_keeps_counters exStateFive _ _ hrun).2.2.2.2.1⟩

/-- C15 fails as stated. With the identity counter at `2 ^ 32 - 1` at the time
of `reset`, the next `addBucket` hands out the wrapped value 0, which is not
above the counter. And with the counter at 5, after `reset` and one
`addBucket` for tile A, a second `addBucket` for tile A with a bucket of the
same generation id returns early and leaves on its instance the identity 1
that the caller passed in. -/
theorem reset_keeps_counters_counterexample :
    exStateIdMax.reset.maxCrossTileID = 4294967295 ∧
    ((exStateIdMax.reset.layerIndex [1]).addBucket exTileA exBucketA
      exStateIdMax.reset.maxCrossTileID).bucket.symbolInstances =
        [{ exInstA with crossTileID := 0 }] ∧
    exStateFive.reset.maxCrossTileID = 5 ∧
    (((exStateFive.reset.afterAddBucket [1] exTileA exBucketA).layerIndex [1]).addBucket exTileA
      ⟨5, [{ exInstA with crossTileID := 1 }]⟩
      (exStateFive.reset.afterAddBucket [1] exTileA exBucketA).maxCrossTileID) =
      ⟨false, (exStateFive.reset.afterAddBucket [1] exTileA exBucketA).layerIndex [1],
        ⟨5, [{ exInstA with crossTileID := 1 }]⟩, 6⟩ := by
  decide

/-! ## Only related coordinates influence matching -/

/-- Two lists that are strictly ascending for an asymmetric relation and have
the same members are equal. -/
theorem pairwise_ext {α : Type} (r : α → α → Prop) (hasym : ∀ a b, r a b → ¬ r b a)
    (l1 l2 : List α) (h1 : l1.Pairwise r) (h2 : l2.Pairwise r)
    (hmem : ∀ a, a ∈ l1 ↔ a ∈ l2) : l1 = l2 := by
  have hirr : ∀ a, ¬ r a a := fun a h => hasym a a h h
  have n1 : l1.Pairwise (fun a b => a ≠ b) :=
    h1.imp (by intro a b hab heq; subst heq; exact hirr _ hab)
  have n2 : l2.Pairwise (fun a b => a ≠ b) :=
    h2.imp (by intro a b hab heq; subst heq; exact hirr _ hab)
  have hperm : l1.Perm l2 := (List.perm_ext_iff_of_nodup n1 n2).2 hmem
  haveI : IsAntisymm α r := ⟨fun a b hab hba => absurd hba (hasym a b hab)⟩
  exact List.eq_of_perm_of_sorted hperm h1 h2

theorem canonicalLt_asymm (a b : CanonicalTileID) (h : a.lt b = true) :
    ¬ b.lt a = true := by
  unfold CanonicalTileID.lt at h ⊢
  simp only [Bool.or_eq_true, Bool.and_eq_true, decide_eq_true_eq] at h ⊢
  omega

theorem overscaledLt_asymm (a b : OverscaledTileID) (h : a.lt b = true) :
    ¬ b.lt a = true := by
  unfold OverscaledTileID.lt at h ⊢
  simp only [Bool.or_eq_true, Bool.and_eq_true, decide_eq_true_eq] at h ⊢
  have hc := canonicalLt_asymm a.canonical b.canonical
  rcases h with h | ⟨h1, h | ⟨h2, h3⟩⟩
  · omega
  · omega
  · have := hc h3
    rintro (h' | ⟨_, h' | ⟨_, h'⟩⟩)
    · omega
    · omega
    · exact this h'

/-- In a list with distinct keys, membership of an entry is lookup. -/
theorem mem_iff_mapFind {K V : Type} [DecidableEq K] (m : List (K × V))
    (hnd : (m.map Prod.fst).Nodup) (k : K) (v : V) :
    (k, v) ∈ m ↔ mapFind m k = some v := by
  constructor
  · intro h
    induction m with
    | nil => simp at h
    | cons e m ih =>
      obtain ⟨ek, ev⟩ := e
      simp only [List.map_cons, List.nodup_cons] at hnd
      rcases List.mem_cons.1 h with h | h
      · simp only [Prod.mk.injEq] at h
        simp [mapFind, h.1, h.2]
      · have hne : ¬ ek = k := by
          intro heq
          exact hnd.1 (heq ▸ List.mem_map.2 ⟨(k, v), h, rfl⟩)
        simp only [mapFind, hne, if_false]
        exact ih hnd.2 h
  · exact mapFind_mem m k v

theorem nodup_keys_of_pairwise {K V : Type} (r : K → K → Prop) (hirr : ∀ a, ¬ r a a)
    (m : List (K × V)) (h : m.Pairwise (fun a b => r a.1 b.1)) : (m.map Prod.fst).Nodup := by
  rw [List.Nodup, List.pairwise_map]
  exact h.imp (by intro a b hab heq; rw [heq] at hab; exact hirr _ hab)

/-- The descendants that the scan consults at a finer zoom level depend only
on the lookups at descendant coordinates. -/
theorem scannedAtZoom_children_ext (tileID : OverscaledTileID) (zoom : Nat)
    (hz : zoom > tileID.overscaledZ)
    (m1 m2 : List (OverscaledTileID × TileLayerIndex))
    (s1 : m1.Pairwise (fun a b => OverscaledTileID.lt a.1 b.1 = true))
    (s2 : m2.Pairwise (fun a b => OverscaledTileID.lt a.1 b.1 = true))
    (c1 : ∀ it ∈ m1, it.2.coord = it.1) (c2 : ∀ it ∈ m2, it.2.coord = it.1)
    (h : ∀ t, t.isChildOf tileID = true → mapFind m1 t = mapFind m2 t) :
    scannedAtZoom tileID zoom m1 = scannedAtZoom tileID zoom m2 := by
  unfold scannedAtZoom
  simp only [hz, if_true]
  have hirr : ∀ a : OverscaledTileID, ¬ a.lt a = true := fun a ha =>
    overscaledLt_asymm a a ha ha
  have n1 := nodup_keys_of_pairwise (fun a b => OverscaledTileID.lt a b = true) hirr m1 s1
  have n2 := nodup_keys_of_pairwise (fun a b => OverscaledTileID.lt a b = true) hirr m2 s2
  have hfilter : m1.filter (fun childIndex => childIndex.2.coord.isChildOf tileID) =
      m2.filter (fun childIndex => childIndex.2.coord.isChildOf tileID) := by
    apply pairwise_ext (fun a b => OverscaledTileID.lt a.1 b.1 = true)
      (fun a b => overscaledLt_asymm a.1 b.1)
    · exact s1.sublist (List.filter_sublist _)
    · exact s2.sublist (List.filter_sublist _)
    · intro e
      obtain ⟨t, idx⟩ := e
      simp only [List.mem_filter]
      constructor
      · rintro ⟨hm, hc⟩
        have hco : idx.coord = t := c1 _ hm
        change idx.coord.isChildOf tileID = true at hc
        rw [hco] at hc
        have := (mem_iff_mapFind m1 n1 t idx).1 hm
        rw [h t hc] at this
        have hm2 := (mem_iff_mapFind m2 n2 t idx).2 this
        exact ⟨hm2, by change idx.coord.isChildOf tileID = true; rw [hco]; exact hc⟩
      · rintro ⟨hm, hc⟩
        have hco : idx.coord = t := c2 _ hm
        change idx.coord.isChildOf tileID = true at hc
        rw [hco] at hc
        have := (mem_iff_mapFind m2 n2 t idx).1 hm
        rw [← h t hc] at this
        have hm1 := (mem_iff_mapFind m1 n1 t idx).2 this
        exact ⟨hm1, by change idx.coord.isChildOf tileID = true; rw [hco]; exact hc⟩
  rw [hfilter]

/-- What the scan consults at one zoom level depends only on the lookups at
related coordinates. -/
theorem scannedAtZoom_ext (tileID : OverscaledTileID) (zoom : Nat)
    (m1 m2 : List (OverscaledTileID × TileLayerIndex))
    (s1 : m1.Pairwise (fun a b => OverscaledTileID.lt a.1 b.1 = true))
    (s2 : m2.Pairwise (fun a b => OverscaledTileID.lt a.1 b.1 = true))
    (c1 : ∀ it ∈ m1, it.2.coord = it.1) (c2 : ∀ it ∈ m2, it.2.coord = it.1)
    (h : ∀ t, Related tileID zoom t → mapFind m1 t = mapFind m2 t) :
    scannedAtZoom tileID zoom m1 = scannedAtZoom tileID zoom m2 := by
  by_cases hz : zoom > tileID.overscaledZ
  · exact scannedAtZoom_children_ext tileID zoom hz m1 m2 s1 s2 c1 c2
      (fun t ht => h t (Or.inr (Or.inr ⟨hz, ht⟩)))
  · unfold scannedAtZoom
    simp only [hz, if_false]
    rw [h _ (Or.inr (Or.inl ⟨by omega, rfl⟩))]
theorem scannedAtZoom_nil (tileID : OverscaledTileID) (zoom : Nat) :
    scannedAtZoom tileID zoom [] = [] := by
  unfold scannedAtZoom
  split <;> simp [mapFind]

/-- What the scan contributes at the zoom key `zoom`, a missing key read as an
empty level. -/
theorem heldAt_eq_getD (self : CrossTileSymbolLayerIndex) (zoom : Nat)
    (t : OverscaledTileID) :
    self.heldAt zoom t = mapFind ((mapFind self.indexes zoom).getD []) t := by
  unfold CrossTileSymbolLayerIndex.heldAt
  cases mapFind self.indexes zoom <;> simp [mapFind]

/-- Zoom levels that contribute nothing can be dropped from the scan. -/
theorem scannedIndexes_eq_filter
    (indexes : List (Nat × List (OverscaledTileID × TileLayerIndex)))
    (tileID : OverscaledTileID) :
    scannedIndexes indexes tileID =
      ((indexes.map (fun it => (it.1, scannedAtZoom tileID it.1 it.2))).filter
        (fun e => !e.2.isEmpty)).flatMap Prod.snd := by
  unfold scannedIndexes
  induction indexes with
  | nil => rfl
  | cons it rest ih =>
    simp only [List.flatMap_cons, List.map_cons, List.filter_cons]
    rw [ih]
    cases hs : scannedAtZoom tileID it.1 it.2 with
    | nil => simp
    | cons a l => simp

theorem mem_scanned_levels
    (indexes : List (Nat × List (OverscaledTileID × TileLayerIndex)))
    (hs : indexes.Pairwise (fun a b => a.1 < b.1))
    (tileID : OverscaledTileID) (zoom : Nat) (l : List TileLayerIndex) :
    (zoom, l) ∈ (indexes.map (fun it => (it.1, scannedAtZoom tileID it.1 it.2))).filter
        (fun e => !e.2.isEmpty) ↔
      l ≠ [] ∧ l = scannedAtZoom tileID zoom ((mapFind indexes zoom).getD []) := by
  have hnd : (indexes.map Prod.fst).Nodup :=
    nodup_keys_of_pairwise (fun a b : Nat => a < b) (fun a => Nat.lt_irrefl a) indexes hs
  simp only [List.mem_filter, List.mem_map, Bool.not_eq_true', List.isEmpty_eq_false]
  constructor
  · rintro ⟨⟨⟨z, m⟩, hm, heq⟩, hne⟩
    simp only [Prod.mk.injEq] at heq
    obtain ⟨hz, hl⟩ := heq
    subst hz
    refine ⟨hne, ?_⟩
    rw [(mem_iff_mapFind indexes hnd z m).1 hm]
    exact hl.symm
  · rintro ⟨hne, hl⟩
    refine ⟨?_, hne⟩
    cases hf : mapFind indexes zoom with
    | none =>
      rw [hf] at hl
      simp only [Option.getD_none, scannedAtZoom_nil] at hl
      exact absurd hl hne
    | some m =>
      rw [hf] at hl
      exact ⟨(zoom, m), mapFind_mem indexes zoom m hf, by simp [hl]⟩

/-- In a well-formed layer index the indexes that the scan consults depend
only on what is held at related coordinates. -/
theorem scannedIndexes_ext (st1 st2 : CrossTileSymbolLayerIndex) (tileID : OverscaledTileID)
    (w1 : st1.WellFormed) (w2 : st2.WellFormed)
    (h : ∀ zoom t, Related tileID zoom t → st1.heldAt zoom t = st2.heldAt zoom t) :
    scannedIndexes st1.indexes tileID = scannedIndexes st2.indexes tileID := by
  have hwf : ∀ (st : CrossTileSymbolLayerIndex), st.WellFormed → ∀ zoom,
      ((mapFind st.indexes zoom).getD []).Pairwise
          (fun a b => OverscaledTileID.lt a.1 b.1 = true) ∧
        ∀ it ∈ (mapFind st.indexes zoom).getD [], it.2.coord = it.1 := by
    intro st w zoom
    cases hf : mapFind st.indexes zoom with
    | none => simp
    | some m => exact w.2 _ (mapFind_mem st.indexes zoom m hf)
  have hcontrib : ∀ zoom,
      scannedAtZoom tileID zoom ((mapFind st1.indexes zoom).getD []) =
        scannedAtZoom tileID zoom ((mapFind st2.indexes zoom).getD []) := by
    intro zoom
    apply scannedAtZoom_ext tileID zoom _ _ (hwf st1 w1 zoom).1 (hwf st2 w2 zoom).1
      (hwf st1 w1 zoom).2 (hwf st2 w2 zoom).2
    intro t ht
    rw [← heldAt_eq_getD, ← heldAt_eq_getD]
    exact h zoom t ht
  rw [scannedIndexes_eq_filter st1.indexes, scannedIndexes_eq_filter st2.indexes]
  congr 1
  apply pairwise_ext (fun a b : Nat × List TileLayerIndex => a.1 < b.1)
    (fun a b hab hba => Nat.lt_asymm hab hba)
  · apply List.Pairwise.sublist (List.filter_sublist _)
    rw [List.pairwise_map]
    exact w1.1
  · apply List.Pairwise.sublist (List.filter_sublist _)
    rw [List.pairwise_map]
    exact w2.1
  · intro e
    obtain ⟨zoom, l⟩ := e
    rw [mem_scanned_levels st1.indexes w1.1, mem_scanned_levels st2.indexes w2.1,
      hcontrib zoom]
theorem wellFormed_empty : (⟨[]⟩ : CrossTileSymbolLayerIndex).WellFormed := by
  refine ⟨List.Pairwise.nil, ?_⟩
  intro zoomIndexes hz
  simp at hz

/-- Two well-formed layer indexes that hold the same per-tile indexes at the
coordinates related to `tileID` give the same return value, the same bucket
and the same counter. -/
theorem addBucket_ext (st1 st2 : CrossTileSymbolLayerIndex) (tileID : OverscaledTileID)
    (bucket : SymbolBucket) (c : Nat) (w1 : st1.WellFormed) (w2 : st2.WellFormed)
    (h : ∀ zoom t, Related tileID zoom t → st1.heldAt zoom t = st2.heldAt zoom t) :
    (st1.addBucket tileID bucket c).changed = (st2.addBucket tileID bucket c).changed ∧
    (st1.addBucket tileID bucket c).bucket = (st2.addBucket tileID bucket c).bucket ∧
    (st1.addBucket tileID bucket c).maxCrossTileID =
      (st2.addBucket tileID bucket c).maxCrossTileID := by
  have hheld : st1.held tileID = st2.held tileID :=
    h tileID.overscaledZ tileID (Or.inl ⟨rfl, rfl⟩)
  have hscan : st1.afterScan tileID bucket = st2.afterScan tileID bucket := by
    rw [afterScan_eq_map, afterScan_eq_map, scannedIndexes_ext st1 st2 tileID w1 w2 h]
  have hchanged : (st1.addBucket tileID bucket c).changed =
      (st2.addBucket tileID bucket c).changed := by
    have i1 := addBucket_changed_iff st1 tileID bucket c
    have i2 := addBucket_changed_iff st2 tileID bucket c
    rw [hheld] at i1
    cases h1 : (st1.addBucket tileID bucket c).changed with
    | true => exact (i2.2 (i1.1 h1)).symm
    | false =>
      cases h2 : (st2.addBucket tileID bucket c).changed with
      | true => rw [i1.2 (i2.1 h2)] at h1; exact Bool.noConfusion h1
      | false => rfl
  refine ⟨hchanged, ?_⟩
  cases h1 : (st1.addBucket tileID bucket c).changed with
  | true =>
    have h2 : (st2.addBucket tileID bucket c).changed = true := by rw [← hchanged]; exact h1
    rw [addBucket_of_changed st1 tileID bucket c h1, addBucket_of_changed st2 tileID bucket c h2,
      hscan]
    exact ⟨rfl, rfl⟩
  | false =>
    have h2 : (st2.addBucket tileID bucket c).changed = false := by rw [← hchanged]; exact h1
    rw [addBucket_of_unchanged st1 tileID bucket c h1,
      addBucket_of_unchanged st2 tileID bucket c h2]
    exact ⟨rfl, rfl⟩

theorem countUnassigned_clearIDs (l : List SymbolInstance) :
    countUnassigned (clearIDs l) = l.length := by
  unfold countUnassigned clearIDs
  rw [List.filter_eq_self.2]
  · simp
  · intro s hs
    obtain ⟨a, _, rfl⟩ := List.mem_map.1 hs
    simp

theorem take_clearIDs (l : List SymbolInstance) (i : Nat) :
    (clearIDs l).take i = clearIDs (l.take i) := by
  unfold clearIDs
  rw [List.map_take]

/-- On the empty layer index `addBucket` hands every instance a fresh
identity, in bucket order. -/
theorem addBucket_empty (tileID : OverscaledTileID) (bucket : SymbolBucket) (c : Nat) :
    ((⟨[]⟩ : CrossTileSymbolLayerIndex).addBucket tileID bucket c).changed = true ∧
    ((⟨[]⟩ : CrossTileSymbolLayerIndex).addBucket tileID bucket c).bucket.symbolInstances =
      (assignNewIDs (clearIDs bucket.symbolInstances) c).1 ∧
    ((⟨[]⟩ : CrossTileSymbolLayerIndex).addBucket tileID bucket c).maxCrossTileID =
      (assignNewIDs (clearIDs bucket.symbolInstances) c).2 := by
  have hch : ((⟨[]⟩ : CrossTileSymbolLayerIndex).addBucket tileID bucket c).changed = true := by
    rw [addBucket_changed_iff]
    rintro ⟨idx, hidx, _⟩
    simp [CrossTileSymbolLayerIndex.held, CrossTileSymbolLayerIndex.heldAt, mapFind] at hidx
  refine ⟨hch, ?_⟩
  rw [addBucket_of_changed _ tileID bucket c hch]
  have hscan : (⟨[]⟩ : CrossTileSymbolLayerIndex).afterScan tileID bucket =
      clearIDs bucket.symbolInstances := by
    rw [afterScan_eq_map]
    simp [scannedIndexes, matchAll, clearIDs]
  rw [hscan]
  exact ⟨rfl, rfl⟩

/-- C18: only what is held at related coordinates influences matching. For
two layer indexes that satisfy the representation invariant of the maps and
hold the same per-tile index (or none) at `tileID` itself, at the ancestor
coordinate of `tileID` at every zoom not finer, and at every descendant of
`tileID` under every finer zoom key, whatever they hold elsewhere, `addBucket`
returns the same value, leaves the same identities on the bucket and yields
the same counter. In particular, when nothing is held at a related
coordinate, `addBucket` returns true and the result is that of the empty
index: without overflow of the counter the `i`-th instance receives the fresh
identity `c + 1 + i` and the counter ends at `c + n`. -/
theorem addBucket_related_only (st1 st2 : CrossTileSymbolLayerIndex)
    (tileID : OverscaledTileID) (bucket : SymbolBucket) (c : Nat)
    (w1 : st1.WellFormed) (w2 : st2.WellFormed)
    (h : ∀ zoom t, Related tileID zoom t → st1.heldAt zoom t = st2.heldAt zoom t) :
    ((st1.addBucket tileID bucket c).changed = (st2.addBucket tileID bucket c).changed ∧
      (st1.addBucket tileID bucket c).bucket = (st2.addBucket tileID bucket c).bucket ∧
      (st1.addBucket tileID bucket c).maxCrossTileID =
        (st2.addBucket tileID bucket c).maxCrossTileID) ∧
    ((∀ zoom t, Related tileID zoom t → st1.heldAt zoom t = none) →
      (st1.addBucket tileID bucket c).changed = true ∧
      (st1.addBucket tileID bucket c).bucket.symbolInstances =
        (assignNewIDs (clearIDs bucket.symbolInstances) c).1 ∧
      (c + bucket.symbolInstances.length < 2 ^ 32 →
        (st1.addBucket tileID bucket c).maxCrossTileID = c + bucket.symbolInstances.length ∧
        ∀ (i : Nat) (s : SymbolInstance), bucket.symbolInstances[i]? = some s →
          (st1.addBucket tileID bucket c).bucket.symbolInstances[i]? =
            some { s with crossTileID := c + 1 + i })) := by
  refine ⟨addBucket_ext st1 st2 tileID bucket c w1 w2 h, ?_⟩
  intro hnone
  have hext := addBucket_ext st1 ⟨[]⟩ tileID bucket c w1 wellFormed_empty (by
    intro zoom t hr
    rw [hnone zoom t hr]
    simp [CrossTileSymbolLayerIndex.heldAt, mapFind])
  have hempty := addBucket_empty tileID bucket c
  refine ⟨by rw [hext.1]; exact hempty.1, by rw [hext.2.1]; exact hempty.2.1, ?_⟩
  intro hno
  have hcount : c + countUnassigned (clearIDs bucket.symbolInstances) < 2 ^ 32 := by
    rw [countUnassigned_clearIDs]; exact hno
  constructor
  · rw [hext.2.2, hempty.2.2, assignNewIDs_counter _ _ hcount, countUnassigned_clearIDs]
  · intro i s hs
    rw [hext.2.1, hempty.2.1, assignNewIDs_getElem? _ _ hcount]
    have hi : i < bucket.symbolInstances.length := by
      rcases Nat.lt_or_ge i bucket.symbolInstances.length with hlt | hge
      · exact hlt
      · rw [List.getElem?_eq_none hge] at hs
        exact Option.noConfusion hs
    have hget : (clearIDs bucket.symbolInstances)[i]? = some { s with crossTileID := 0 } := by
      simp [clearIDs, hs]
    rw [hget, take_clearIDs, countUnassigned_clearIDs, List.length_take]
    simp only [Option.map_some', if_true]
    rw [Nat.min_eq_left (Nat.le_of_lt hi)]

theorem wellFormed_exLayerUnrelated : exLayerUnrelated.WellFormed := by
  refine ⟨by simp [exLayerUnrelated], ?_⟩
  intro zoomIndexes hz
  simp only [exLayerUnrelated, List.mem_singleton] at hz
  subst hz
  refine ⟨by simp, ?_⟩
  intro it hit
  simp only [List.mem_singleton] at hit
  subst hit
  rfl

/-- C18 at a concrete input: the layer index holds, for the next world copy
of tile A, a record with the key `[1]` in the cell (771, 1286) where `exInstA`
falls; nothing is held at a coordinate related to tile A, and `addBucket` for
tile A with the counter at 9 gives `exInstA` the fresh identity 10, as on the
empty index. -/
theorem addBucket_related_only_witness :
    exLayerUnrelated.heldAt 10 exTileAWrap =
      some ⟨exTileAWrap, 7, [([1], [⟨9, ⟨771, 1286⟩⟩])]⟩ ∧
    recordOf exTileA exInstA = ⟨0, ⟨771, 1286⟩⟩ ∧
    (exLayerUnrelated.addBucket exTileA exBucketA 9).bucket =
      ((⟨[]⟩ : CrossTileSymbolLayerIndex).addBucket exTileA exBucketA 9).bucket ∧
    (exLayerUnrelated.addBucket exTileA exBucketA 9).bucket.symbolInstances[0]? =
      some { exInstA with crossTileID := 10 } ∧
    (exLayerUnrelated.addBucket exTileA exBucketA 9).maxCrossTileID = 10 := by
  have hnone : ∀ zoom t, Related exTileA zoom t → exLayerUnrelated.heldAt zoom t = none := by
    intro zoom t hr
    by_cases hz : zoom = 10
    · subst hz
      rcases hr with ⟨_, rfl⟩ | ⟨_, rfl⟩ | ⟨hgt, _⟩
      · decide
      · decide
      · exact absurd hgt (by decide)
    · have hz' : ¬ 10 = zoom := fun h => hz h.symm
      simp [CrossTileSymbolLayerIndex.heldAt, exLayerUnrelated, mapFind, hz']
  have h := addBucket_related_only exLayerUnrelated ⟨[]⟩ exTileA exBucketA 9
    wellFormed_exLayerUnrelated wellFormed_empty (by
      intro zoom t hr
      rw [hnone zoom t hr]
      simp [CrossTileSymbolLayerIndex.heldAt, mapFind])
  have h2 := (h.2 hnone).2.2 (by decide)
  exact ⟨by decide, by decide, h.1.2.1, h2.2 0 exInstA (by decide), h2.1⟩

/-! ## The representation invariant holds in every state the methods build -/

theorem canonicalLt_trans (a b c : CanonicalTileID) (h1 : a.lt b = true)
    (h2 : b.lt c = true) : a.lt c = true := by
  unfold CanonicalTileID.lt at h1 h2 ⊢
  simp only [Bool.or_eq_true, Bool.and_eq_true, decide_eq_true_eq] at h1 h2 ⊢
  omega

theorem canonicalLt_total (a b : CanonicalTileID) (h1 : ¬ a.lt b = true)
    (hne : a ≠ b) : b.lt a = true := by
  obtain ⟨az, ax, ay⟩ := a
  obtain ⟨bz, bx, byy⟩ := b
  unfold CanonicalTileID.lt at h1 ⊢
  simp only [Bool.or_eq_true, Bool.and_eq_true, decide_eq_true_eq, ne_eq,
    CanonicalTileID.mk.injEq] at h1 hne ⊢
  omega

theorem overscaledLt_trans (a b c : OverscaledTileID) (h1 : a.lt b = true)
    (h2 : b.lt c = true) : a.lt c = true := by
  unfold OverscaledTileID.lt at h1 h2 ⊢
  simp only [Bool.or_eq_true, Bool.and_eq_true, decide_eq_true_eq] at h1 h2 ⊢
  have ht := canonicalLt_trans a.canonical b.canonical c.canonical
  rcases h1 with h1 | ⟨e1, h1 | ⟨f1, g1⟩⟩ <;> rcases h2 with h2 | ⟨e2, h2 | ⟨f2, g2⟩⟩
  · left; omega
  · left; omega
  · left; omega
  · left; omega
  · right; exact ⟨by omega, Or.inl (by omega)⟩
  · right; exact ⟨by omega, Or.inl (by omega)⟩
  · left; omega
  · right; exact ⟨by omega, Or.inl (by omega)⟩
  · right; exact ⟨by omega, Or.inr ⟨by omega, ht g1 g2⟩⟩

theorem overscaledLt_total (a b : OverscaledTileID) (h1 : ¬ a.lt b = true)
    (hne : a ≠ b) : b.lt a = true := by
  obtain ⟨az, aw, ac⟩ := a
  obtain ⟨bz, bw, bc⟩ := b
  have ht := canonicalLt_total ac bc
  unfold OverscaledTileID.lt at h1 ⊢
  simp only [Bool.or_eq_true, Bool.and_eq_true, decide_eq_true_eq, ne_eq,
    OverscaledTileID.mk.injEq, not_or, not_and] at h1 hne ⊢
  by_cases hz : bz < az
  · exact Or.inl hz
  · right
    have ez : bz = az := by omega
    refine ⟨ez, ?_⟩
    by_cases hw : bw < aw
    · exact Or.inl hw
    · right
      have hw' := (h1.2 ez.symm).1
      have ew : bw = aw := by omega
      refine ⟨ew, ?_⟩
      have hc := (h1.2 ez.symm).2 ew.symm
      exact ht hc (fun hac => hne ez.symm ew.symm hac)

theorem mem_keys_of_mapFind_none {K V : Type} [DecidableEq K] (m : List (K × V)) (k : K)
    (h : mapFind m k = none) : ∀ e ∈ m, e.1 ≠ k := by
  induction m with
  | nil => intro e he; simp at he
  | cons a m ih =>
    intro e he
    by_cases ha : a.1 = k
    · simp [mapFind, ha] at h
    · simp only [mapFind, ha, if_false] at h
      rcases List.mem_cons.1 he with rfl | he
      · exact ha
      · exact ih h e he

/-- Insertion of an absent key at its place keeps the keys strictly
ascending, for a strict total order. -/
theorem pairwise_mapInsertSorted {K V : Type} (lt : K → K → Bool)
    (htrans : ∀ a b c, lt a b = true → lt b c = true → lt a c = true)
    (htotal : ∀ a b, ¬ lt a b = true → a ≠ b → lt b a = true)
    (m : List (K × V)) (hs : m.Pairwise (fun a b => lt a.1 b.1 = true)) (k : K) (v : V)
    (hk : ∀ e ∈ m, e.1 ≠ k) :
    (mapInsertSorted lt m k v).Pairwise (fun a b => lt a.1 b.1 = true) := by
  induction m with
  | nil => simp [mapInsertSorted]
  | cons e m ih =>
    rw [List.pairwise_cons] at hs
    unfold mapInsertSorted
    by_cases hlt : lt k e.1 = true
    · simp only [hlt, if_true]
      rw [List.pairwise_cons, List.pairwise_cons]
      refine ⟨?_, hs⟩
      intro x hx
      rcases List.mem_cons.1 hx with rfl | hx
      · exact hlt
      · exact htrans _ _ _ hlt (hs.1 x hx)
    · rw [if_neg hlt, List.pairwise_cons]
      refine ⟨?_, ih hs.2 (fun x hx => hk x (List.mem_cons_of_mem _ hx))⟩
      intro x hx
      rcases mem_mapInsertSorted lt m k v x hx with rfl | hx
      · exact htotal _ _ hlt (fun heq => hk e (List.mem_cons_self _ _) heq.symm)
      · exact hs.1 x hx

theorem pairwise_mapEmplace {K V : Type} [DecidableEq K] (lt : K → K → Bool)
    (htrans : ∀ a b c, lt a b = true → lt b c = true → lt a c = true)
    (htotal : ∀ a b, ¬ lt a b = true → a ≠ b → lt b a = true)
    (m : List (K × V)) (hs : m.Pairwise (fun a b => lt a.1 b.1 = true)) (k : K) (v : V) :
    (mapEmplace lt m k v).Pairwise (fun a b => lt a.1 b.1 = true) := by
  unfold mapEmplace
  cases hf : mapFind m k with
  | some _ => exact hs
  | none => exact pairwise_mapInsertSorted lt htrans htotal m hs k v (mem_keys_of_mapFind_none m k hf)

theorem pairwise_mapModify {K V : Type} [DecidableEq K] (r : K → K → Prop)
    (m : List (K × V)) (hs : m.Pairwise (fun a b => r a.1 b.1)) (k : K) (f : V → V) :
    (mapModify m k f).Pairwise (fun a b => r a.1 b.1) := by
  unfold mapModify
  rw [List.pairwise_map]
  refine hs.imp ?_
  intro a b hab
  by_cases ha : a.1 = k <;> by_cases hb : b.1 = k <;> simp [ha, hb] <;> simp_all

theorem zoomLt_iff (a b : Nat) : zoomLt a b = true ↔ a < b := by
  simp [zoomLt]

theorem wellFormed_mapSubscript (indexes : List (Nat × List (OverscaledTileID × TileLayerIndex)))
    (w : (⟨indexes⟩ : CrossTileSymbolLayerIndex).WellFormed) (zoom : Nat) :
    (⟨mapSubscript zoomLt indexes zoom []⟩ : CrossTileSymbolLayerIndex).WellFormed := by
  constructor
  · have hs : indexes.Pairwise (fun a b => zoomLt a.1 b.1 = true) :=
      w.1.imp (fun hab => (zoomLt_iff _ _).2 hab)
    have := pairwise_mapEmplace zoomLt
      (fun a b c h1 h2 => (zoomLt_iff _ _).2
        (Nat.lt_trans ((zoomLt_iff _ _).1 h1) ((zoomLt_iff _ _).1 h2)))
      (fun a b h1 hne => (zoomLt_iff _ _).2 (by
        have : ¬ a < b := fun h => h1 ((zoomLt_iff _ _).2 h)
        omega))
      indexes hs zoom []
    exact this.imp (fun hab => (zoomLt_iff _ _).1 hab)
  · intro zoomIndexes hz
    rcases mem_mapSubscript zoomLt indexes zoom [] zoomIndexes hz with rfl | hz
    · exact ⟨List.Pairwise.nil, by intro it hit; simp at hit⟩
    · exact w.2 zoomIndexes hz

theorem wellFormed_mapModify (indexes : List (Nat × List (OverscaledTileID × TileLayerIndex)))
    (w : (⟨indexes⟩ : CrossTileSymbolLayerIndex).WellFormed) (zoom : Nat)
    (f : List (OverscaledTileID × TileLayerIndex) → List (OverscaledTileID × TileLayerIndex))
    (hf : ∀ m : List (OverscaledTileID × TileLayerIndex),
      (m.Pairwise (fun a b => OverscaledTileID.lt a.1 b.1 = true) ∧
        ∀ it ∈ m, it.2.coord = it.1) →
      ((f m).Pairwise (fun a b => OverscaledTileID.lt a.1 b.1 = true) ∧
        ∀ it ∈ f m, it.2.coord = it.1)) :
    (⟨mapModify indexes zoom f⟩ : CrossTileSymbolLayerIndex).WellFormed := by
  constructor
  · exact pairwise_mapModify (fun a b : Nat => a < b) indexes w.1 zoom f
  · intro zoomIndexes hz
    rcases mem_mapModify indexes zoom f zoomIndexes hz with hz | ⟨v, hv, rfl⟩
    · exact w.2 zoomIndexes hz
    · exact hf v (w.2 _ hv)

/-- The layer index that `addBucket` leaves is well formed. -/
theorem wellFormed_addBucket (self : CrossTileSymbolLayerIndex) (tileID : OverscaledTileID)
    (bucket : SymbolBucket) (c : Nat) (w : self.WellFormed) :
    (self.addBucket tileID bucket c).self.WellFormed := by
  cases h : (self.addBucket tileID bucket c).changed with
  | false =>
    rw [addBucket_of_unchanged self tileID bucket c h]
    exact w
  | true =>
    rw [addBucket_of_changed self tileID bucket c h]
    unfold replaceIndex
    apply wellFormed_mapModify
    · apply wellFormed_mapSubscript
      apply wellFormed_mapModify
      · exact wellFormed_mapSubscript _ (wellFormed_mapSubscript self.indexes w _) _
      · intro m hm
        exact ⟨hm.1.sublist (List.filter_sublist _), fun it hit => hm.2 it (mem_mapErase m _ it hit)⟩
    · intro m hm
      refine ⟨pairwise_mapEmplace OverscaledTileID.lt overscaledLt_trans
        overscaledLt_total m hm.1 _ _, ?_⟩
      intro it hit
      rcases mem_mapEmplace OverscaledTileID.lt m _ _ it hit with rfl | hit
      · exact ctor_coord _ _ _
      · exact hm.2 it hit

/-- The layer index that `removeStaleBuckets` leaves is well formed. -/
theorem wellFormed_removeStaleBuckets (self : CrossTileSymbolLayerIndex)
    (currentIDs : List Nat) (w : self.WellFormed) :
    (self.removeStaleBuckets currentIDs).1.WellFormed := by
  unfold CrossTileSymbolLayerIndex.removeStaleBuckets
  simp only [removeStaleLoop_fst]
  constructor
  · rw [List.pairwise_map]
    exact w.1
  · intro zoomIndexes hz
    obtain ⟨zi, hzi, rfl⟩ := List.mem_map.1 hz
    have hw := w.2 zi hzi
    exact ⟨hw.1.sublist (List.filter_sublist _),
      fun it hit => hw.2 it (List.mem_filter.1 hit).1⟩

/-! ## Quantization across zooms -/

theorem floatExponent_small (m fuel : Nat) (h : m < 16777216) : floatExponent m fuel = 0 := by
  cases fuel with
  | zero => rfl
  | succ f => simp [floatExponent, h]

/-- With enough fuel the result does not depend on the fuel. -/
theorem floatExponent_fuel (m f g : Nat) (hf : m < 16777216 * 2 ^ f)
    (hg : m < 16777216 * 2 ^ g) : floatExponent m f = floatExponent m g := by
  induction f generalizing m g with
  | zero =>
    have hm : m < 16777216 := by simpa using hf
    rw [floatExponent_small m 0 hm, floatExponent_small m g hm]
  | succ f ih =>
    by_cases hm : m < 16777216
    · rw [floatExponent_small m _ hm, floatExponent_small m g hm]
    · cases g with
      | zero => exact absurd (by simpa using hg) hm
      | succ g =>
        simp only [floatExponent, hm, if_false]
        rw [ih (m / 2) g (by rw [pow_succ] at hf; omega) (by rw [pow_succ] at hg; omega)]

theorem floatExponent_enough (m : Nat) : m < 16777216 * 2 ^ m :=
  lt_of_lt_of_le (Nat.lt_two_pow m) (Nat.le_mul_of_pos_left _ (by norm_num))

theorem floatExponent_double (m : Nat) (h : 16777216 ≤ 2 * m) :
    floatExponent (2 * m) (2 * m) = floatExponent m m + 1 := by
  obtain ⟨k, hk⟩ : ∃ k, 2 * m = k + 1 := ⟨2 * m - 1, by omega⟩
  rw [hk]
  have hnot : ¬ k + 1 < 16777216 := by omega
  simp only [floatExponent, hnot, if_false]
  have hdiv : (k + 1) / 2 = m := by omega
  rw [hdiv]
  congr 1
  apply floatExponent_fuel m k m _ (floatExponent_enough m)
  have := floatExponent_enough m
  have hk' : k = m + (m - 1) := by omega
  rw [hk', pow_add]
  have : 1 ≤ 2 ^ (m - 1) := Nat.one_le_two_pow
  nlinarith

theorem roundNearestEven_one (n : Nat) : roundNearestEven n 1 = n := by
  simp [roundNearestEven, Nat.mod_one]

theorem roundNearestEven_double (n q : Nat) :
    roundNearestEven (2 * n) (2 * q) = roundNearestEven n q := by
  unfold roundNearestEven
  rw [Nat.mul_mod_mul_left, Nat.mul_div_mul_left n q (by norm_num : 0 < 2)]
  by_cases h1 : 2 * (n % q) < q
  · rw [if_pos (by omega), if_pos h1]
  · rw [if_neg (by omega), if_neg h1]
    by_cases h2 : q < 2 * (n % q)
    · rw [if_pos (by omega), if_pos h2]
    · rw [if_neg (by omega), if_neg h2]

/-- An integer below `2 ^ 24` in magnitude is a single-precision value. -/
theorem roundToFloat_exact (i : Int) (h : i.natAbs < 16777216) : roundToFloat i = i := by
  unfold roundToFloat
  rw [floatExponent_small _ _ h]
  simp only [pow_zero, roundNearestEven_one, mul_one]
  exact Int.sign_mul_natAbs i

/-- Rounding to single precision commutes with doubling. -/
theorem roundToFloat_double (i : Int) : roundToFloat (2 * i) = 2 * roundToFloat i := by
  have hab : (2 * i).natAbs = 2 * i.natAbs := by
    rw [Int.natAbs_mul]; rfl
  have hsign : (2 * i).sign = i.sign := by
    rw [Int.sign_mul]
    show (1 : Int) * i.sign = i.sign
    exact one_mul _
  by_cases h : 16777216 ≤ 2 * i.natAbs
  · unfold roundToFloat
    rw [hab, hsign, floatExponent_double _ h, pow_succ, Nat.mul_comm (2 ^ _) 2,
      roundNearestEven_double]
    push_cast
    ring
  · have h1 : (2 * i).natAbs < 16777216 := by omega
    have h2 : i.natAbs < 16777216 := by omega
    rw [roundToFloat_exact _ h1, roundToFloat_exact _ h2]

/-- Rounding to single precision commutes with the multiplication by a power
of two. -/
theorem roundToFloat_pow_mul (d : Nat) (i : Int) :
    roundToFloat (2 ^ d * i) = 2 ^ d * roundToFloat i := by
  induction d with
  | zero => simp
  | succ d ih =>
    rw [pow_succ, mul_comm (2 ^ d) 2, mul_assoc, roundToFloat_double, ih, mul_assoc]

/-- Without wrap of the 32-bit product, the source computes the world position
rounded once to single precision. -/
theorem floatWorldPosition_eq (x : Nat) (anchor : Int) (h : x * 8192 < 4294967296) :
    floatWorldPosition x anchor = roundToFloat ((x : Int) * EXTENT + anchor) := by
  unfold floatWorldPosition
  have hmod : ((x : Int) * EXTENT) % 4294967296 = (x : Int) * EXTENT := by
    unfold EXTENT
    omega
  have hprod : roundToFloat ((x : Int) * EXTENT) = (x : Int) * EXTENT := by
    have h13 : (x : Int) * EXTENT = 2 ^ 13 * (x : Int) := by
      unfold EXTENT
      norm_num
      ring
    rw [h13, roundToFloat_pow_mul, roundToFloat_exact]
    rw [Int.natAbs_ofNat]
    omega
  rw [hmod, hprod]

theorem scaleFloor_same (v : Int) (z : Nat) : scaleFloor v z z = v / 32 := by
  unfold scaleFloor EXTENT
  simp only [Nat.sub_self, pow_zero, mul_one]
  have h : (8192 : Int) = 32 * 256 := by norm_num
  rw [h]
  exact Int.mul_ediv_mul_of_pos_left v 32 (by norm_num)

theorem scaleFloor_finer (v : Int) (z d : Nat) :
    scaleFloor v (z + d) z = v / (32 * 2 ^ d) := by
  unfold scaleFloor EXTENT
  have h1 : z - (z + d) = 0 := by omega
  have h2 : z + d - z = d := by omega
  rw [h1, h2]
  simp only [pow_zero, mul_one]
  have h : (8192 : Int) * 2 ^ d = (32 * 2 ^ d) * 256 := by ring
  rw [h]
  exact Int.mul_ediv_mul_of_pos_left v (32 * 2 ^ d) (by norm_num)

theorem scaleFloor_coarser (v : Int) (z d : Nat) :
    scaleFloor v z (z + d) = v * 2 ^ d / 32 := by
  unfold scaleFloor EXTENT
  have h1 : z - (z + d) = 0 := by omega
  have h2 : z + d - z = d := by omega
  rw [h1, h2]
  simp only [pow_zero, mul_one]
  have h : v * 256 * 2 ^ d = (v * 2 ^ d) * 256 := by ring
  have h' : (8192 : Int) = 32 * 256 := by norm_num
  rw [h, h']
  exact Int.mul_ediv_mul_of_pos_left (v * 2 ^ d) 32 (by norm_num)

/-- Without wrap of the 32-bit products of the tile `q`, `getScaledCoordinates`
rescales the world position rounded to single precision. -/
theorem getScaledCoordinates_eq (idx : TileLayerIndex) (s : SymbolInstance)
    (q : OverscaledTileID) (hqx : q.canonical.x * 8192 < 4294967296)
    (hqy : q.canonical.y * 8192 < 4294967296) :
    idx.getScaledCoordinates s q =
      ⟨scaleFloor (roundToFloat (worldPosition q s).x) q.canonical.z idx.coord.canonical.z,
        scaleFloor (roundToFloat (worldPosition q s).y) q.canonical.z idx.coord.canonical.z⟩ := by
  unfold TileLayerIndex.getScaledCoordinates worldPosition
  rw [floatWorldPosition_eq _ _ hqx, floatWorldPosition_eq _ _ hqy]

theorem recordOf_eq (coord : OverscaledTileID) (s : SymbolInstance)
    (hcx : coord.canonical.x * 8192 < 4294967296)
    (hcy : coord.canonical.y * 8192 < 4294967296) :
    recordOf coord s =
      ⟨s.crossTileID, ⟨roundToFloat (worldPosition coord s).x / 32,
        roundToFloat (worldPosition coord s).y / 32⟩⟩ := by
  unfold recordOf
  rw [getScaledCoordinates_eq _ _ _ hcx hcy, scaleFloor_same, scaleFloor_same]

/-- C19 (amended): quantization is consistent across zooms up to the rounding
of the world position to single precision. Let `EXTENT = 8192`, anchors be
integral, and the products `x * EXTENT`, `y * EXTENT` of the index tile `coord`
and of the query tile `q` stay below `2 ^ 32`. The index built for `coord`
stores, under the key of each instance `s`, the record with the identity of
`s` and the cell `floor(fl(w) / 32)` per axis, where `w` is the world position
of `s` at the zoom of `coord` and `fl` rounds to single precision, and stores
no other record; `fl(w) = w` whenever `|w| < 2 ^ 24`. For a query tile `q` that
is `d` zoom levels finer, `getScaledCoordinates` returns
`floor(fl(w') / (32 * 2 ^ d))`, and for one that is `d` levels coarser
`floor(fl(w') * 2 ^ d / 32)`, `w'` the world position at the zoom of `q`. Hence
when the query anchor names the world point of a stored instance
(`w' = 2 ^ d * w`, respectively `w = 2 ^ d * w'`), the rescaled query cell is
the stored cell, both distances are within the tolerance, and the acceptance
test of `findMatches` holds for that record. -/
theorem quantization_consistent (coord : OverscaledTileID)
    (symbolInstances : List SymbolInstance) (bucketInstanceId : Nat) (q : OverscaledTileID)
    (d : Nat)
    (hcx : coord.canonical.x * 8192 < 4294967296)
    (hcy : coord.canonical.y * 8192 < 4294967296)
    (hqx : q.canonical.x * 8192 < 4294967296)
    (hqy : q.canonical.y * 8192 < 4294967296) :
    (∀ s ∈ symbolInstances, ∃ records,
      mapFind (TileLayerIndex.ctor coord symbolInstances bucketInstanceId).indexedSymbolInstances
        s.key = some records ∧
      (⟨s.crossTileID, ⟨roundToFloat (worldPosition coord s).x / 32,
        roundToFloat (worldPosition coord s).y / 32⟩⟩ : IndexedSymbolInstance) ∈ records) ∧
    (∀ (k : List Nat) (records : List IndexedSymbolInstance) (r : IndexedSymbolInstance),
      mapFind (TileLayerIndex.ctor coord symbolInstances bucketInstanceId).indexedSymbolInstances
        k = some records → r ∈ records →
      ∃ s ∈ symbolInstances, s.key = k ∧
        r = ⟨s.crossTileID, ⟨roundToFloat (worldPosition coord s).x / 32,
          roundToFloat (worldPosition coord s).y / 32⟩⟩) ∧
    (∀ w : Int, w.natAbs < 16777216 → roundToFloat w = w) ∧
    (q.canonical.z = coord.canonical.z + d → ∀ s : SymbolInstance,
      (TileLayerIndex.ctor coord symbolInstances bucketInstanceId).getScaledCoordinates s q =
        ⟨roundToFloat (worldPosition q s).x / (32 * 2 ^ d),
          roundToFloat (worldPosition q s).y / (32 * 2 ^ d)⟩) ∧
    (coord.canonical.z = q.canonical.z + d → ∀ s : SymbolInstance,
      (TileLayerIndex.ctor coord symbolInstances bucketInstanceId).getScaledCoordinates s q =
        ⟨roundToFloat (worldPosition q s).x * 2 ^ d / 32,
          roundToFloat (worldPosition q s).y * 2 ^ d / 32⟩) ∧
    (∀ (s0 s : SymbolInstance),
      ((q.canonical.z = coord.canonical.z + d ∧
          (worldPosition q s).x = 2 ^ d * (worldPosition coord s0).x ∧
          (worldPosition q s).y = 2 ^ d * (worldPosition coord s0).y) ∨
        (coord.canonical.z = q.canonical.z + d ∧
          (worldPosition coord s0).x = 2 ^ d * (worldPosition q s).x ∧
          (worldPosition coord s0).y = 2 ^ d * (worldPosition q s).y)) →
      (TileLayerIndex.ctor coord symbolInstances bucketInstanceId).getScaledCoordinates s q =
        (recordOf coord s0).coord ∧
      ((recordOf coord s0).coord.x -
          ((TileLayerIndex.ctor coord symbolInstances bucketInstanceId).getScaledCoordinates
            s q).x).natAbs ≤
        (TileLayerIndex.ctor coord symbolInstances bucketInstanceId).tolerance q ∧
      ((recordOf coord s0).coord.y -
          ((TileLayerIndex.ctor coord symbolInstances bucketInstanceId).getScaledCoordinates
            s q).y).natAbs ≤
        (TileLayerIndex.ctor coord symbolInstances bucketInstanceId).tolerance q ∧
      withinTolerance
        ((TileLayerIndex.ctor coord symbolInstances bucketInstanceId).tolerance q)
        (recordOf coord s0)
        ((TileLayerIndex.ctor coord symbolInstances bucketInstanceId).getScaledCoordinates s q) =
          true) := by
  have hfiner : q.canonical.z = coord.canonical.z + d → ∀ s : SymbolInstance,
      (TileLayerIndex.ctor coord symbolInstances bucketInstanceId).getScaledCoordinates s q =
        ⟨roundToFloat (worldPosition q s).x / (32 * 2 ^ d),
          roundToFloat (worldPosition q s).y / (32 * 2 ^ d)⟩ := by
    intro hz s
    rw [getScaledCoordinates_eq _ _ _ hqx hqy, ctor_coord, hz, scaleFloor_finer,
      scaleFloor_finer]
  have hcoarser : coord.canonical.z = q.canonical.z + d → ∀ s : SymbolInstance,
      (TileLayerIndex.ctor coord symbolInstances bucketInstanceId).getScaledCoordinates s q =
        ⟨roundToFloat (worldPosition q s).x * 2 ^ d / 32,
          roundToFloat (worldPosition q s).y * 2 ^ d / 32⟩ := by
    intro hz s
    rw [getScaledCoordinates_eq _ _ _ hqx hqy, ctor_coord, hz, scaleFloor_coarser,
      scaleFloor_coarser]
  refine ⟨?_, ?_, roundToFloat_exact, hfiner, hcoarser, ?_⟩
  · intro s hs
    have hmem : s ∈ symbolInstances.filter (fun x => decide (x.key = s.key)) :=
      List.mem_filter.2 ⟨hs, by simp⟩
    have hne : (symbolInstances.filter (fun x => decide (x.key = s.key))).map (recordOf coord)
        ≠ [] := by
      intro hnil
      have := List.mem_map_of_mem (recordOf coord) hmem
      rw [hnil] at this
      simp at this
    refine ⟨_, by rw [ctor_find, if_neg hne], ?_⟩
    rw [← recordOf_eq coord s hcx hcy]
    exact List.mem_map_of_mem (recordOf coord) hmem
  · intro k records r hfind hr
    rw [ctor_find] at hfind
    split at hfind
    · exact Option.noConfusion hfind
    · simp only [Option.some.injEq] at hfind
      subst hfind
      obtain ⟨s, hs, rfl⟩ := List.mem_map.1 hr
      have hs' := List.mem_filter.1 hs
      exact ⟨s, hs'.1, by simpa using hs'.2, recordOf_eq coord s hcx hcy⟩
  · intro s0 s hsame
    have hcell : (TileLayerIndex.ctor coord symbolInstances bucketInstanceId).getScaledCoordinates
        s q = (recordOf coord s0).coord := by
      rw [recordOf_eq coord s0 hcx hcy]
      rcases hsame with ⟨hz, hx, hy⟩ | ⟨hz, hx, hy⟩
      · rw [hfiner hz s, hx, hy, roundToFloat_pow_mul, roundToFloat_pow_mul]
        have hpos : (0 : Int) < 2 ^ d := by positivity
        rw [mul_comm (32 : Int) (2 ^ d), Int.mul_ediv_mul_of_pos _ _ hpos,
          Int.mul_ediv_mul_of_pos _ _ hpos]
      · rw [hcoarser hz s, hx, hy, roundToFloat_pow_mul, roundToFloat_pow_mul,
          mul_comm (roundToFloat (worldPosition q s).x) (2 ^ d),
          mul_comm (roundToFloat (worldPosition q s).y) (2 ^ d)]
    rw [hcell]
    exact ⟨rfl, by simp, by simp, withinTolerance_self _ _⟩

/-- C19 at concrete inputs, beyond `2 ^ 24`: the tile at zoom 14 stores the
instance anchored at (31, 31), whose world position (81920031, 49152031)
rounds to (81920032, 49152032), in the cell (2560001, 1536001); the same world
point queried from the child tile at zoom 15 (`d = 1`) rescales to that cell
and passes the acceptance test. A tie rounds to the even neighbour
(`2 ^ 29 + 32` to `2 ^ 29`, `2 ^ 29 + 96` to `2 ^ 29 + 128`), and the world
position of `exInstA` in tile A,
below `2 ^ 24`, is kept. -/
theorem quantization_consistent_witness :
    worldPosition exTileHighChild exInstEdgeChild = ⟨163840062, 98304062⟩ ∧
    recordOf exTileHigh exInstEdge = ⟨0, ⟨2560001, 1536001⟩⟩ ∧
    (TileLayerIndex.ctor exTileHigh [exInstEdge] 1).getScaledCoordinates exInstEdgeChild
      exTileHighChild = ⟨2560001, 1536001⟩ ∧
    withinTolerance ((TileLayerIndex.ctor exTileHigh [exInstEdge] 1).tolerance exTileHighChild)
      (recordOf exTileHigh exInstEdge)
      ((TileLayerIndex.ctor exTileHigh [exInstEdge] 1).getScaledCoordinates exInstEdgeChild
        exTileHighChild) = true ∧
    roundToFloat 536870944 = 536870912 ∧
    roundToFloat 536871008 = 536871040 ∧
    roundToFloat (worldPosition exTileA exInstA).x = 24676 := by
  have h := quantization_consistent exTileHigh [exInstEdge] 1 exTileHighChild 1
    (by decide) (by decide) (by decide) (by decide)
  have hsame := h.2.2.2.2.2 exInstEdge exInstEdgeChild (Or.inl (by decide))
  refine ⟨by decide, by decide, ?_, hsame.2.2.2, by decide, by decide, ?_⟩
  · rw [hsame.1]
    decide
  · rw [h.2.2.1 _ (by decide)]
    decide

/-- C19 fails as stated. The tile at zoom 14 with `x = 10000`, `y = 6000`
stores the instance anchored at (31, 31), whose world position is
(81920031, 49152031), in the cell (2560001, 1536001) and not in
`floor(w / 32) = (2560000, 1536000)`: the sum is rounded to single precision,
here to a multiple of 8, respectively 4. And for the tile at zoom 19 with
`x = 2 ^ 18` and its child at zoom 20 with `x = 2 ^ 19`, whose corners (0, 0)
are the same world point (`w' = 2 * w`), the product `x * EXTENT = 2 ^ 32` of
the child wraps to 0 in 32 bits: the query rescales to the cell 0, the stored
cell is 67108864, and the acceptance test fails. -/
theorem quantization_counterexample :
    worldPosition exTileHigh exInstEdge = ⟨81920031, 49152031⟩ ∧
    ((81920031 : Int) / 32 = 2560000 ∧ (49152031 : Int) / 32 = 1536000) ∧
    mapFind (TileLayerIndex.ctor exTileHigh [exInstEdge] 1).indexedSymbolInstances
      exInstEdge.key = some [⟨0, ⟨2560001, 1536001⟩⟩] ∧
    worldPosition exTileDeep exInstOrigin = ⟨2147483648, 0⟩ ∧
    worldPosition exTileDeeper exInstOrigin = ⟨2 * 2147483648, 0⟩ ∧
    exTileDeeper.canonical.z = exTileDeep.canonical.z + 1 ∧
    mapFind (TileLayerIndex.ctor exTileDeep [exInstOrigin] 1).indexedSymbolInstances
      exInstOrigin.key = some [⟨0, ⟨67108864, 0⟩⟩] ∧
    (TileLayerIndex.ctor exTileDeep [exInstOrigin] 1).getScaledCoordinates exInstOrigin
      exTileDeeper = ⟨0, 0⟩ ∧
    withinTolerance ((TileLayerIndex.ctor exTileDeep [exInstOrigin] 1).tolerance exTileDeeper)
      ⟨0, ⟨67108864, 0⟩⟩
      ((TileLayerIndex.ctor exTileDeep [exInstOrigin] 1).getScaledCoordinates exInstOrigin
        exTileDeeper) = false := by
  refine ⟨by decide, ⟨by decide, by decide⟩, by decide, by decide, by decide, by decide,
    by decide, by decide, by decide⟩

/-! ## Border backfilling of elevation tiles -/

theorem px_eq (x D : Nat) (hD : 0 < D) (hD' : D ≤ 1073741824) (hx : x < D) :
    (x + 4294967295 + D) % 4294967296 % D = if x = 0 then D - 1 else x - 1 := by
  by_cases h0 : x = 0
  · subst h0
    have h : (0 + 4294967295 + D) % 4294967296 = D - 1 := by omega
    rw [h, if_pos rfl]
    exact Nat.mod_eq_of_lt (by omega)
  · have h : (x + 4294967295 + D) % 4294967296 = (x - 1) + D := by omega
    rw [h, if_neg h0, Nat.add_mod_right]
    exact Nat.mod_eq_of_lt (by omega)

theorem nx_eq (x D : Nat) (hD : 0 < D) (hD' : D ≤ 1073741824) (hx : x < D) :
    (x + 1 + D) % 4294967296 % D = if x + 1 = D then 0 else x + 1 := by
  have h : (x + 1 + D) % 4294967296 = x + 1 + D := by omega
  rw [h, Nat.add_mod_right]
  by_cases h1 : x + 1 = D
  · rw [if_pos h1, h1]
    exact Nat.mod_self D
  · rw [if_neg h1]
    exact Nat.mod_eq_of_lt (by omega)

theorem wrapCorrection_inner (d D : Int) (hd : -1 ≤ d ∧ d ≤ 1) :
    toInt8 (wrapCorrection (toInt32 d) D) = d := by
  have h32 : toInt32 d = d := by unfold toInt32; omega
  rw [h32]
  unfold wrapCorrection
  rw [if_neg (by omega)]
  unfold toInt8
  omega

theorem wrapCorrection_left_edge (D : Int) (hD : 4 ≤ D) (hD' : D ≤ 1073741824) :
    toInt8 (wrapCorrection (toInt32 (D - 1)) D) = -1 := by
  have h32 : toInt32 (D - 1) = D - 1 := by unfold toInt32; omega
  have h1 : toInt32 (D - 1 + D) = D - 1 + D := by unfold toInt32; omega
  have h2 : toInt32 (D - 1 - D) = -1 := by unfold toInt32; omega
  rw [h32]
  unfold wrapCorrection
  rw [if_pos (by omega), h1, if_neg (by omega), h2, if_pos (by decide)]
  decide

theorem wrapCorrection_right_edge (D : Int) (hD : 4 ≤ D) (hD' : D ≤ 1073741824) :
    toInt8 (wrapCorrection (toInt32 (0 - (D - 1))) D) = 1 := by
  have h32 : toInt32 (0 - (D - 1)) = 1 - D := by unfold toInt32; omega
  have h1 : toInt32 (1 - D + D) = 1 := by unfold toInt32; omega
  rw [h32]
  unfold wrapCorrection
  rw [if_pos (by omega), h1, if_pos (by decide)]
  decide
theorem toInt8_small (b : Int) (hb : -1 ≤ b ∧ b ≤ 1) : toInt8 b = b := by
  unfold toInt8; omega

theorem toInt32_small (b : Int) (hb : -1073741824 ≤ b ∧ b ≤ 1073741824) : toInt32 b = b := by
  unfold toInt32; omega

/-- The offset that `fillBorder` passes on, from the differences of the
canonical coordinates: a neighbour across the edge of the world, whose
difference is `dim - 1` or `-(dim - 1)`, is brought back to `-1` or `1` when
`dim` is at least 4. -/
theorem fillBorder_core (tile borderTile : RasterDEMTile) (mask : DEMTileNeighbors)
    (D a b : Int) (hD : 4 ≤ D) (hD' : D ≤ 1073741824)
    (hdim : ((2 ^ tile.id.canonical.z % 4294967296 : Nat) : Int) = D)
    (hl : tile.isLoaded = true) (hl' : borderTile.isLoaded = true)
    (ha : -1 ≤ a ∧ a ≤ 1) (hb : -1 ≤ b ∧ b ≤ 1) (hab : a ≠ 0 ∨ b ≠ 0)
    (hx : (borderTile.id.canonical.x : Int) - tile.id.canonical.x = a ∨
      (a = -1 ∧ (borderTile.id.canonical.x : Int) - tile.id.canonical.x = D - 1) ∨
      (a = 1 ∧ (borderTile.id.canonical.x : Int) - tile.id.canonical.x = 0 - (D - 1)))
    (hy : (borderTile.id.canonical.y : Int) - tile.id.canonical.y = b) :
    fillBorder tile borderTile mask =
      ⟨{ tile with neighboringTiles := tile.neighboringTiles ++ [mask] }, some (a, b)⟩ := by
  unfold fillBorder
  simp only [hdim, hy, hl, hl', toInt8_small b hb, Bool.and_self, if_true]
  have hdy : ¬ b.natAbs > 1 := by omega
  rcases hx with hx | ⟨ha1, hx⟩ | ⟨ha1, hx⟩
  · rw [hx]
    have h0 : ¬ (toInt32 a = 0 ∧ b = 0) := by
      rw [toInt32_small a (by omega)]
      omega
    rw [if_neg h0, if_neg hdy, wrapCorrection_inner a D ha]
  · rw [hx]
    have h0 : ¬ (toInt32 (D - 1) = 0 ∧ b = 0) := by
      rw [toInt32_small (D - 1) (by omega)]
      omega
    rw [if_neg h0, if_neg hdy, wrapCorrection_left_edge D hD hD', ha1]
  · rw [hx]
    have h0 : ¬ (toInt32 (0 - (D - 1)) = 0 ∧ b = 0) := by
      rw [toInt32_small (0 - (D - 1)) (by omega)]
      omega
    rw [if_neg h0, if_neg hdy, wrapCorrection_right_edge D hD hD', ha1]

theorem getNeighbor_Left (t : OverscaledTileID) :
    getNeighbor t DEMTileNeighbors.Left =
      ⟨t.overscaledZ, if t.canonical.x = 0 then t.wrap - 1 else t.wrap,
        ⟨t.canonical.z,
          (t.canonical.x + 4294967295 + 2 ^ t.canonical.z % 4294967296) % 4294967296 %
            (2 ^ t.canonical.z % 4294967296),
          t.canonical.y⟩⟩ := rfl

theorem getNeighbor_Right (t : OverscaledTileID) :
    getNeighbor t DEMTileNeighbors.Right =
      ⟨t.overscaledZ,
        if (t.canonical.x + 1) % 4294967296 = 2 ^ t.canonical.z % 4294967296 then t.wrap + 1
        else t.wrap,
        ⟨t.canonical.z,
          (t.canonical.x + 1 + 2 ^ t.canonical.z % 4294967296) % 4294967296 %
            (2 ^ t.canonical.z % 4294967296),
          t.canonical.y⟩⟩ := rfl

theorem getNeighbor_TopLeft (t : OverscaledTileID) :
    getNeighbor t DEMTileNeighbors.TopLeft =
      ⟨t.overscaledZ, if t.canonical.x = 0 then t.wrap - 1 else t.wrap,
        ⟨t.canonical.z,
          (t.canonical.x + 4294967295 + 2 ^ t.canonical.z % 4294967296) % 4294967296 %
            (2 ^ t.canonical.z % 4294967296),
          (t.canonical.y + 4294967295) % 4294967296⟩⟩ := rfl

theorem getNeighbor_TopCenter (t : OverscaledTileID) :
    getNeighbor t DEMTileNeighbors.TopCenter =
      ⟨t.overscaledZ, t.wrap,
        ⟨t.canonical.z, t.canonical.x, (t.canonical.y + 4294967295) % 4294967296⟩⟩ := rfl

theorem getNeighbor_TopRight (t : OverscaledTileID) :
    getNeighbor t DEMTileNeighbors.TopRight =
      ⟨t.overscaledZ,
        if (t.canonical.x + 1) % 4294967296 = 2 ^ t.canonical.z % 4294967296 then t.wrap + 1
        else t.wrap,
        ⟨t.canonical.z,
          (t.canonical.x + 1 + 2 ^ t.canonical.z % 4294967296) % 4294967296 %
            (2 ^ t.canonical.z % 4294967296),
          (t.canonical.y + 4294967295) % 4294967296⟩⟩ := rfl

theorem getNeighbor_BottomLeft (t : OverscaledTileID) :
    getNeighbor t DEMTileNeighbors.BottomLeft =
      ⟨t.overscaledZ, if t.canonical.x = 0 then t.wrap - 1 else t.wrap,
        ⟨t.canonical.z,
          (t.canonical.x + 4294967295 + 2 ^ t.canonical.z % 4294967296) % 4294967296 %
            (2 ^ t.canonical.z % 4294967296),
          (t.canonical.y + 1) % 4294967296⟩⟩ := rfl

theorem getNeighbor_BottomCenter (t : OverscaledTileID) :
    getNeighbor t DEMTileNeighbors.BottomCenter =
      ⟨t.overscaledZ, t.wrap,
        ⟨t.canonical.z, t.canonical.x, (t.canonical.y + 1) % 4294967296⟩⟩ := rfl

theorem getNeighbor_BottomRight (t : OverscaledTileID) :
    getNeighbor t DEMTileNeighbors.BottomRight =
      ⟨t.overscaledZ,
        if (t.canonical.x + 1) % 4294967296 = 2 ^ t.canonical.z % 4294967296 then t.wrap + 1
        else t.wrap,
        ⟨t.canonical.z,
          (t.canonical.x + 1 + 2 ^ t.canonical.z % 4294967296) % 4294967296 %
            (2 ^ t.canonical.z % 4294967296),
          (t.canonical.y + 1) % 4294967296⟩⟩ := rfl
/-- The canonical coordinates of the neighbour that `getNeighbor` computes,
relative to the tile: the column differs by the direction of the mask, or by
`dim - 1` across the edge of the world, and the row by the direction of the
mask when the neighbour row lies in the world. -/
theorem getNeighbor_offset (t : OverscaledTileID) (mask : DEMTileNeighbors) (D : Nat)
    (hdim : 2 ^ t.canonical.z = D) (hD : 0 < D) (hD' : D ≤ 1073741824)
    (hx : t.canonical.x < D) (hy : t.canonical.y < D)
    (hrow : 0 ≤ (t.canonical.y : Int) + mask.direction.2 ∧
      (t.canonical.y : Int) + mask.direction.2 < D) :
    (((getNeighbor t mask).canonical.x : Int) - t.canonical.x = mask.direction.1 ∨
      (mask.direction.1 = -1 ∧
        ((getNeighbor t mask).canonical.x : Int) - t.canonical.x = (D : Int) - 1) ∨
      (mask.direction.1 = 1 ∧
        ((getNeighbor t mask).canonical.x : Int) - t.canonical.x = 0 - ((D : Int) - 1))) ∧
    ((getNeighbor t mask).canonical.y : Int) - t.canonical.y = mask.direction.2 ∧
    (getNeighbor t mask).canonical.z = t.canonical.z := by
  obtain ⟨oz, w, ⟨z, x, y⟩⟩ := t
  dsimp only at hdim hx hy hrow
  have hmod : D % 4294967296 = D := Nat.mod_eq_of_lt (by omega)
  have hpx := px_eq x D hD hD' hx
  have hnx := nx_eq x D hD hD' hx
  cases mask
  · rw [getNeighbor_Left]
    dsimp only
    simp only [hdim, hmod, hpx, DEMTileNeighbors.direction] at hrow ⊢
    clear hpx hnx hmod
    refine ⟨?_, by omega, trivial⟩
    split_ifs <;> simp only [true_and, false_and, or_false, false_or] <;> omega
  · rw [getNeighbor_Right]
    dsimp only
    simp only [hdim, hmod, hnx, DEMTileNeighbors.direction] at hrow ⊢
    clear hpx hnx hmod
    refine ⟨?_, by omega, trivial⟩
    split_ifs <;> simp only [true_and, false_and, or_false, false_or] <;> omega
  · rw [getNeighbor_TopLeft]
    dsimp only
    simp only [hdim, hmod, hpx, DEMTileNeighbors.direction] at hrow ⊢
    clear hpx hnx hmod
    refine ⟨?_, by omega, trivial⟩
    split_ifs <;> simp only [true_and, false_and, or_false, false_or] <;> omega
  · rw [getNeighbor_TopCenter]
    dsimp only
    simp only [DEMTileNeighbors.direction] at hrow ⊢
    clear hpx hnx hmod
    refine ⟨by omega, by omega, trivial⟩
  · rw [getNeighbor_TopRight]
    dsimp only
    simp only [hdim, hmod, hnx, DEMTileNeighbors.direction] at hrow ⊢
    clear hpx hnx hmod
    refine ⟨?_, by omega, trivial⟩
    split_ifs <;> simp only [true_and, false_and, or_false, false_or] <;> omega
  · rw [getNeighbor_BottomLeft]
    dsimp only
    simp only [hdim, hmod, hpx, DEMTileNeighbors.direction] at hrow ⊢
    clear hpx hnx hmod
    refine ⟨?_, by omega, trivial⟩
    split_ifs <;> simp only [true_and, false_and, or_false, false_or] <;> omega
  · rw [getNeighbor_BottomCenter]
    dsimp only
    simp only [DEMTileNeighbors.direction] at hrow ⊢
    clear hpx hnx hmod
    refine ⟨by omega, by omega, trivial⟩
  · rw [getNeighbor_BottomRight]
    dsimp only
    simp only [hdim, hmod, hnx, DEMTileNeighbors.direction] at hrow ⊢
    clear hpx hnx hmod
    refine ⟨?_, by omega, trivial⟩
    split_ifs <;> simp only [true_and, false_and, or_false, false_or] <;> omega
theorem direction_bounds (mask : DEMTileNeighbors) :
    (-1 ≤ mask.direction.1 ∧ mask.direction.1 ≤ 1) ∧
    (-1 ≤ mask.direction.2 ∧ mask.direction.2 ≤ 1) ∧
    (mask.direction.1 ≠ 0 ∨ mask.direction.2 ≠ 0) := by
  cases mask <;> decide

/-- From zoom 2 on (and below zoom 31, where `dim` and the differences fit
in an `int`) `fillBorder` backfills from the direction of the mask: for a
loaded tile with canonical coordinates inside the world and a mask whose
neighbour row lies in the world, the call for the neighbour that
`onTileChanged` computes passes the direction of the mask to `backfillBorder`
and records the mask. -/
theorem fillBorder_direction (t : OverscaledTileID) (mask : DEMTileNeighbors)
    (filled filled' : List DEMTileNeighbors)
    (hz : 2 ≤ t.canonical.z) (hz' : t.canonical.z ≤ 30)
    (hx : t.canonical.x < 2 ^ t.canonical.z) (hy : t.canonical.y < 2 ^ t.canonical.z)
    (hrow : rowInWorld t mask) :
    fillBorder ⟨t, true, filled⟩ ⟨getNeighbor t mask, true, filled'⟩ mask =
      ⟨⟨t, true, filled ++ [mask]⟩, some mask.direction⟩ := by
  have hD4 : 4 ≤ 2 ^ t.canonical.z :=
    le_trans (by norm_num) (Nat.pow_le_pow_right (by norm_num : 0 < 2) hz)
  have hD30 : 2 ^ t.canonical.z ≤ 1073741824 :=
    le_trans (Nat.pow_le_pow_right (by norm_num : 0 < 2) hz') (by norm_num)
  have hrow' : 0 ≤ (t.canonical.y : Int) + mask.direction.2 ∧
      (t.canonical.y : Int) + mask.direction.2 < ((2 ^ t.canonical.z : Nat) : Int) := by
    unfold rowInWorld at hrow
    refine ⟨hrow.1, ?_⟩
    push_cast
    exact hrow.2
  have hoff := getNeighbor_offset t mask (2 ^ t.canonical.z) rfl (by omega) hD30 hx hy hrow'
  have hb := direction_bounds mask
  have hcore := fillBorder_core ⟨t, true, filled⟩ ⟨getNeighbor t mask, true, filled'⟩ mask
    ((2 ^ t.canonical.z : Nat) : Int) mask.direction.1 mask.direction.2
    (by omega) (by omega)
    (by
      show ((2 ^ t.canonical.z % 4294967296 : Nat) : Int) = ((2 ^ t.canonical.z : Nat) : Int)
      rw [Nat.mod_eq_of_lt (by omega)])
    rfl rfl hb.1 hb.2.1 hb.2.2 hoff.1 hoff.2.1
  rw [hcore]

/-- C20, what the code does at zoom 1: for the loaded elevation tile
(z 1, x 0, y 0) and the mask `Left`, whose neighbour row lies in the world,
`onTileChanged` computes the neighbour (z 1, x 1, y 0) of the world copy to
the left; `fillBorder` finds `dx = 1`, which the world-wrap correction leaves
alone, and calls `backfillBorder` with the offset `(1, 0)`, the direction of
`Right` and not the direction `(-1, 0)` of `Left`, while it records `Left` as
backfilled. The call for the mask `Right` passes the same offset. -/
theorem fillBorder_zoom_one_opposite_edge :
    getNeighbor exDemTile.id DEMTileNeighbors.Left = ⟨1, -1, ⟨1, 1, 0⟩⟩ ∧
    rowInWorld exDemTile.id DEMTileNeighbors.Left ∧
    fillBorder exDemTile ⟨getNeighbor exDemTile.id DEMTileNeighbors.Left, true, []⟩
        DEMTileNeighbors.Left =
      ⟨⟨exDemTile.id, true, [DEMTileNeighbors.Left]⟩, some (1, 0)⟩ ∧
    DEMTileNeighbors.Left.direction = (-1, 0) ∧
    DEMTileNeighbors.Right.direction = (1, 0) ∧
    (fillBorder exDemTile ⟨getNeighbor exDemTile.id DEMTileNeighbors.Right, true, []⟩
        DEMTileNeighbors.Right).backfill = some (1, 0) := by
  refine ⟨by decide, ?_, by decide, rfl, rfl, by decide⟩
  unfold rowInWorld
  decide

/-- At zoom 3 the correction works: the tile on the left edge of the world
backfills from its `Left` and `TopLeft` neighbours, which lie in the world
copy to the left, with the offsets `(-1, 0)` and `(-1, -1)`. -/
theorem fillBorder_direction_edge :
    getNeighbor exDemEdge.id DEMTileNeighbors.Left = ⟨3, -1, ⟨3, 7, 4⟩⟩ ∧
    fillBorder exDemEdge ⟨getNeighbor exDemEdge.id DEMTileNeighbors.Left, true, []⟩
        DEMTileNeighbors.Left =
      ⟨⟨exDemEdge.id, true, [DEMTileNeighbors.Left]⟩, some (-1, 0)⟩ ∧
    fillBorder exDemEdge ⟨getNeighbor exDemEdge.id DEMTileNeighbors.TopLeft, true, []⟩
        DEMTileNeighbors.TopLeft =
      ⟨⟨exDemEdge.id, true, [DEMTileNeighbors.TopLeft]⟩, some (-1, -1)⟩ :=
  ⟨by decide,
    fillBorder_direction exDemEdge.id DEMTileNeighbors.Left [] [] (by decide) (by decide)
      (by decide) (by decide) (by unfold rowInWorld; decide),
    fillBorder_direction exDemEdge.id DEMTileNeighbors.TopLeft [] [] (by decide) (by decide)
      (by decide) (by decide) (by unfold rowInWorld; decide)⟩

end mbgl
